import Mathlib

/-!
HeadersAnalyzer (ipasim): export matching and wrapper generation.

A shallow embedding of `src/HeadersAnalyzer/HeadersAnalyzer.cpp`,
`src/HeadersAnalyzer/TapiHelper.cpp` and `src/HeadersAnalyzer/Common.hpp`.

Conventions of the embedding:

* C++ pointers and iterators into the export registry (`ExportPtr`,
  `const ExportEntry *`) are the export's name, the key of the registry; a
  pointer to a `DLLEntry` is the pair of indices (group, library).
* The diagnostic stream written by `reportError` / `reportWarning` is the list
  `HAState.Diags`, oldest message first.
* Code generation through `llvm::IRBuilder` is a trace of builder calls
  (`Emit`), in call order.
-/

namespace Ipasim

/-! ## Data model (`HAContext`) -/

/-- Modelled from the spec: the enumeration `ExportStatus` is declared in
`HAContext.hpp`, which is not among the sources; its values are those of the
spec's data model (section 3). -/
inductive ExportStatus
  | NotFound
  | Found
  | Overloaded
  | FoundInDLL
  | Generated
  deriving DecidableEq, Repr

/-- A fragment of `llvm::Type` large enough for function signatures: only the
distinction between `void` and first-class types is used by the generator. -/
inductive LType
  | VoidTy
  | IntegerTy (Bits : Nat)
  | PointerTy
  | OtherTy (Id : Nat)
  deriving DecidableEq, Repr

/-- Embedding of `llvm::FunctionType`: parameter types in declaration order and
the return type. -/
structure FunctionType where
  Params : List LType
  Ret : LType
  deriving DecidableEq, Repr

/-- Reference to a `DLLEntry`: index of its group in `HAContext::DLLGroups` and
its index inside `DLLGroup::DLLs`. -/
structure DLLPtr where
  Group : Nat
  DLL : Nat
  deriving DecidableEq, Repr

/-- Modelled from the spec: `ExportEntry` is declared in `HAContext.hpp`, which
is not among the sources; the fields are those the sources read and write
(`Name`, `Status`, `RVA`, `Type`, `ObjCMethod`, `DLLGroup`, `DLL`; `Type` is
the field `Ty` here, `Type` being a keyword). A new entry has status
`NotFound` and no signature, address or back-reference. -/
structure ExportEntry where
  Name : String
  Status : ExportStatus := ExportStatus.NotFound
  RVA : Nat := 0
  Ty : Option FunctionType := none
  ObjCMethod : Bool := false
  DLLGroup : Option Nat := none
  DLL : Option DLLPtr := none
  deriving DecidableEq, Repr

/-- Embedding of `Dylib`: a mobile library, keyed by install name, with the
exports it lists (by name), in insertion order. -/
structure Dylib where
  Name : String
  Exports : List String := []
  deriving DecidableEq, Repr

/-- Embedding of `ClassExport`: an Objective-C class and the libraries declaring
it. -/
structure ClassExport where
  Name : String
  Dylibs : List String := []
  deriving DecidableEq, Repr

/-- Embedding of `DLLEntry`: a desktop library with its matched exports and its
reference function. -/
structure DLLEntry where
  Name : String
  Exports : List String := []
  ReferenceFunc : Option String := none
  deriving DecidableEq, Repr

/-- Embedding of `DLLGroup`: a directory and the desktop libraries in it. -/
structure DLLGroup where
  Dir : String
  DLLs : List DLLEntry := []
  deriving DecidableEq, Repr

/-- Embedding of `HAContext`. The sets `iOSExps`, `iOSLibs` and `iOSClasses` are
lists with at most one element per key; their iteration order is insertion
order here. -/
structure HAContext where
  iOSExps : List ExportEntry := []
  iOSLibs : List Dylib := []
  iOSClasses : List ClassExport := []
  DLLGroups : List DLLGroup := []
  deriving DecidableEq, Repr

/-- One line of the diagnostic stream. -/
inductive Diag
  | Error (Msg : String)
  | Warning (Msg : String)
  deriving DecidableEq, Repr

/-- The analyzer's mutable state: the context and the diagnostics so far. -/
structure HAState where
  HAC : HAContext := {}
  Diags : List Diag := []
  deriving DecidableEq, Repr

/-- Ways a run stops early: `FatalError` is the exception thrown by
`reportFatalError` and caught in `main`; `AssertFailed` is a failed `assert`. -/
inductive Abort
  | FatalError (Msg : String)
  | AssertFailed (Msg : String)
  deriving DecidableEq, Repr

/-! ## Export registry -/

/-- Lookup `iOSExps.find(Name)`. -/
def findExport (Exps : List ExportEntry) (Name : String) : Option ExportEntry :=
  Exps.find? (fun E => decide (E.Name = Name))

/-- In-place mutation through an `ExportPtr`: apply `f` to the entry keyed
`Name`. -/
def updateExport (Exps : List ExportEntry) (Name : String)
    (f : ExportEntry → ExportEntry) : List ExportEntry :=
  match Exps with
  | [] => []
  | E :: Es => if E.Name = Name then f E :: Es else E :: updateExport Es Name f

/-- Modelled from the spec: `HAContext::addExport` is defined in `HAContext.cpp`,
which is not among the sources; section 4.1 gives `addOrGet(name)`, which
creates the export with status `NotFound` if absent. -/
def addExport (Exps : List ExportEntry) (Name : String) : List ExportEntry :=
  match findExport Exps Name with
  | some _ => Exps
  | none => Exps ++ [{ Name := Name }]

/-- Modelled from the spec: `HAContext::isInteresting` is defined in
`HAContext.cpp`, which is not among the sources; section 4.3: a name is
interesting when the registry has an export of this name, and `Exp` is then
that export. -/
def isInteresting (HAC : HAContext) (Name : String) : Option ExportEntry :=
  findExport HAC.iOSExps Name

/-- Modelled from the spec: `HAContext::isInterestingForWindows` is defined in
`HAContext.cpp`, which is not among the sources; section 4.4: the export is
looked up by mangled name and skipped if absent or if its status is not
`Found`. -/
def isInterestingForWindows (HAC : HAContext) (Name : String) : Option ExportEntry :=
  match isInteresting HAC Name with
  | some Exp => if Exp.Status = ExportStatus.Found then some Exp else none
  | none => none

/-- Modelled from the spec: `reportError` is declared in `ErrorReporting.hpp`,
which is not among the sources; section 7: a recoverable error is logged to the
diagnostic stream and the pipeline continues. -/
def reportError (S : HAState) (Msg : String) : HAState :=
  { S with Diags := S.Diags ++ [Diag.Error Msg] }

/-- Modelled from the spec: `reportWarning` is declared in `ErrorReporting.hpp`,
which is not among the sources; a warning is logged and the pipeline
continues. -/
def reportWarning (S : HAState) (Msg : String) : HAState :=
  { S with Diags := S.Diags ++ [Diag.Warning Msg] }

/-- Modelled from the spec: `reportFatalError` is declared in
`ErrorReporting.hpp`, which is not among the sources; section 7: a fatal error
aborts the whole pipeline (the exception `FatalError` caught in `main`). -/
def reportFatalError {α : Type} (Msg : String) : Except Abort α :=
  Except.error (Abort.FatalError Msg)

/-- Mutation of the registry inside the state. -/
def HAState.updateExp (S : HAState) (Name : String)
    (f : ExportEntry → ExportEntry) : HAState :=
  { S with HAC := { S.HAC with iOSExps := updateExport S.HAC.iOSExps Name f } }

/-! ## Header-declaration matcher -/

/-- Embedding of `llvm::Function` as seen by `analyzeAppleFunction`: its mangled
name (`LLVM.mangleName(Func)`) and its function type. -/
structure LFunction where
  Name : String
  Ty : FunctionType
  deriving DecidableEq, Repr

/-- Embedding of `HeadersAnalyzer::analyzeAppleFunction`. -/
def analyzeAppleFunction (S : HAState) (Func : LFunction) : Except Abort HAState :=
  let Name := Func.Name
  match isInteresting S.HAC Name with
  | none => Except.ok S
  | some Exp =>
    match Exp.Status with
    | ExportStatus.Found =>
      Except.ok (reportError
        (S.updateExp Name (fun E => { E with Status := ExportStatus.Overloaded }))
        ("function overloaded (" ++ Name ++ ")"))
    | ExportStatus.Overloaded => Except.ok S
    | ExportStatus.NotFound =>
      Except.ok ((S.updateExp Name (fun E => { E with Status := ExportStatus.Found })).updateExp
        Name (fun E => { E with Ty := some Func.Ty }))
    | _ => reportFatalError "unexpected status of `ExportEntry`"

/-! ## Debug-symbol matcher -/

/-- Apply `f` to the element at position `n` of a vector, if there is one. -/
def updateNth {α : Type} (f : α → α) : List α → Nat → List α
  | [], _ => []
  | x :: xs, 0 => f x :: xs
  | x :: xs, n + 1 => x :: updateNth f xs n

/-- Dereference a pointer to a `DLLEntry`. -/
def getDLL (HAC : HAContext) (P : DLLPtr) : Option DLLEntry :=
  match HAC.DLLGroups[P.Group]? with
  | some G => G.DLLs[P.DLL]?
  | none => none

/-- In-place mutation of the `DLLEntry` behind a pointer. -/
def HAState.updateDLL (S : HAState) (P : DLLPtr) (f : DLLEntry → DLLEntry) : HAState :=
  let Groups := updateNth (fun (G : DLLGroup) => { G with DLLs := updateNth f G.DLLs P.DLL })
    S.HAC.DLLGroups P.Group
  { S with HAC := { S.HAC with DLLGroups := Groups } }

/-- Embedding of `llvm::pdb::PDBSymbolFunc` as seen by `loadDLLs`: the mangled
name (`LLDBHelper::mangleName(Func)`), the relative virtual address and a handle
of the type description in the debug-info database. -/
structure PDBSymbolFunc where
  Name : String
  RVA : Nat
  TypeHandle : Nat := 0
  deriving DecidableEq, Repr

/-- The method `TypeComparer::areEquivalent(Exp->Type, Func)`: it converts the
debug-info type through LLDB and Clang and compares with LLVM's
`FunctionComparator`, all external; it is a parameter of the embedding. -/
abbrev TypeComparer := Option FunctionType → PDBSymbolFunc → Bool

/-- Body of the loop `for (auto &Func : LLDB.enumerate<PDBSymbolFunc>())` of
`HeadersAnalyzer::loadDLLs`, for the library `DLL` (lines 224-248). -/
def loadDLLsFunc (TC : TypeComparer) (S : HAState) (DLL : DLLPtr) (Func : PDBSymbolFunc) :
    HAState :=
  let Name := Func.Name
  match isInterestingForWindows S.HAC Name with
  | none => S
  | some Exp =>
    let S1 := S.updateExp Name
      (fun E => { E with Status := ExportStatus.FoundInDLL, RVA := Func.RVA })
    let S2 := S1.updateDLL DLL (fun D => { D with Exports := D.Exports ++ [Name] })
    let S3 := S2.updateExp Name
      (fun E => { E with DLLGroup := some DLL.Group, DLL := some DLL })
    let S4 := S3.updateDLL DLL (fun D =>
      if D.ReferenceFunc.isNone && !Exp.ObjCMethod then { D with ReferenceFunc := some Name }
      else D)
    if !TC Exp.Ty Func then
      reportError S4 ("functions' signatures are not equivalent (" ++ Exp.Name ++ ")")
    else S4

/-- The inner loop of `loadDLLs` for one library: all functions enumerated from
its debug-info database, in enumeration order. -/
def loadDLL (TC : TypeComparer) (S : HAState) (DLL : DLLPtr) (Funcs : List PDBSymbolFunc) :
    HAState :=
  Funcs.foldl (fun S Func => loadDLLsFunc TC S DLL Func) S

/-- All pointers to the libraries of the context, in the order of the nested
loops `for (DLLGroup ...) for (DLLEntry ...)`. -/
def allDLLs (HAC : HAContext) : List DLLPtr :=
  (List.range HAC.DLLGroups.length).flatMap (fun g =>
    match HAC.DLLGroups[g]? with
    | some G => (List.range G.DLLs.length).map (fun d => { Group := g, DLL := d })
    | none => [])

/-- Embedding of `HeadersAnalyzer::loadDLLs`. `PDB` gives the functions LLDB
enumerates for each library. -/
def loadDLLs (TC : TypeComparer) (PDB : DLLPtr → List PDBSymbolFunc) (S : HAState) : HAState :=
  (allDLLs S.HAC).foldl (fun S DLL => loadDLL TC S DLL (PDB DLL)) S

/-! ## Interface-file ingestion (`TBDHandler`) -/

/-- Embedding of `tapi::internal::SymbolKind`; `Unrecognized` stands for any
other value of the enumeration (the `default:` label of the switch). -/
inductive SymbolKind
  | GlobalSymbol
  | ObjectiveCClass
  | ObjectiveCClassEHType
  | ObjectiveCInstanceVariable
  | Unrecognized (Raw : Nat)
  deriving DecidableEq, Repr

/-- Embedding of `tapi::internal::Symbol`: kind, name (`getName()`) and
annotated name (`getAnnotatedName()`). -/
structure Symbol where
  Kind : SymbolKind
  Name : String
  AnnotatedName : String := ""
  deriving DecidableEq, Repr

/-- Embedding of `tapi::internal::Architecture`. -/
inductive Architecture
  | armv7
  | armv7s
  | arm64
  | i386
  | x86_64
  deriving DecidableEq, Repr

/-- Embedding of what `IFM.readFile` returns on success, an
`InterfaceFileBase *`: the architectures, whether the `dynamic_cast` to
`InterfaceFile` succeeds, and then the install name and the exported symbols in
file order. -/
structure InterfaceFileBase where
  Architectures : List Architecture
  IsInterfaceFile : Bool := true
  InstallName : String
  Exports : List Symbol := []
  deriving DecidableEq, Repr

/-- The file system as `TBDHandler::HandleFile` sees it: whether
`filesystem::path(Path).extension()` is `.tbd`, and the outcome of
`IFM.readFile(Path)` (an error message or the parsed file). -/
structure FileSystem where
  HasTBDExtension : String → Bool
  readFile : String → Except String InterfaceFileBase

/-- In-place mutation through a `DylibPtr`: apply `f` to the library keyed
`Name`. -/
def updateDylib (Libs : List Dylib) (Name : String) (f : Dylib → Dylib) : List Dylib :=
  match Libs with
  | [] => []
  | L :: Ls => if L.Name = Name then f L :: Ls else L :: updateDylib Ls Name f

/-- In-place mutation through an iterator into `iOSClasses`. -/
def updateClass (Classes : List ClassExport) (Name : String)
    (f : ClassExport → ClassExport) : List ClassExport :=
  match Classes with
  | [] => []
  | C :: Cs => if C.Name = Name then f C :: Cs else C :: updateClass Cs Name f

/-- The call `HAC.iOSClasses.insert(Name)`: a set insertion, which adds the class
only if no class of this name is in the set. -/
def insertClass (Classes : List ClassExport) (Name : String) : List ClassExport :=
  if Classes.any (fun C => decide (C.Name = Name)) then Classes
  else Classes ++ [{ Name := Name }]

/-- Lines 79-84 of `TBDHandler::HandleFile` ("Save export"): the export named
`Name` is looked up, created if absent, and appended to the exports of the
library `Lib`. -/
def saveExport (S : HAState) (Lib : String) (Name : String) : HAState :=
  match findExport S.HAC.iOSExps Name with
  | some _ =>
    { S with HAC := { S.HAC with
        iOSLibs := updateDylib S.HAC.iOSLibs Lib (fun L => { L with Exports := L.Exports ++ [Name] }) } }
  | none =>
    { S with HAC := { S.HAC with
        iOSExps := addExport S.HAC.iOSExps Name,
        iOSLibs := updateDylib S.HAC.iOSLibs Lib (fun L => { L with Exports := L.Exports ++ [Name] }) } }

/-- Body of the loop `for (Symbol *Sym : File->exports())` of
`TBDHandler::HandleFile` (lines 56-85), for the library `Lib`. -/
def handleSymbol (S : HAState) (Lib : String) (Sym : Symbol) : HAState :=
  match Sym.Kind with
  | SymbolKind.ObjectiveCClass =>
    let Classes := insertClass S.HAC.iOSClasses Sym.Name
    { S with HAC := { S.HAC with
        iOSClasses := updateClass Classes Sym.Name (fun C => { C with Dylibs := C.Dylibs ++ [Lib] }) } }
  | SymbolKind.ObjectiveCInstanceVariable => saveExport S Lib ""
  | SymbolKind.ObjectiveCClassEHType => saveExport S Lib ""
  | SymbolKind.GlobalSymbol => saveExport S Lib Sym.Name
  | SymbolKind.Unrecognized _ =>
    reportError S ("unrecognized symbol type (" ++ Sym.AnnotatedName ++ ")")

/-- Embedding of `TBDHandler::HandleFile`. -/
def HandleFile (FS : FileSystem) (S : HAState) (Path : String) : HAState :=
  let HasTBDExtension := FS.HasTBDExtension Path
  match FS.readFile Path with
  | Except.error Err =>
    if HasTBDExtension then reportError S (Err ++ " (" ++ Path ++ ")") else S
  | Except.ok FileBase =>
    let S1 :=
      if !HasTBDExtension then reportWarning S ("TBD file without `.tbd` extension (" ++ Path ++ ")")
      else S
    if !FileBase.Architectures.contains Architecture.armv7 then
      reportError S1 ("TBD file does not contain architecture ARMv7 (" ++ Path ++ ")")
    else if !FileBase.IsInterfaceFile then
      reportError S1 ("interface file expected (" ++ Path ++ ")")
    else if S1.HAC.iOSLibs.any (fun L => decide (L.Name = FileBase.InstallName)) then
      S1
    else
      let S2 : HAState :=
        { S1 with HAC := { S1.HAC with iOSLibs := S1.HAC.iOSLibs ++ [{ Name := FileBase.InstallName }] } }
      FileBase.Exports.foldl (fun S Sym => handleSymbol S FileBase.InstallName Sym) S2

/-! ## Generated code

The wrappers are built through `llvm::IRBuilder`. An instruction is identified
by the name the generator gives it and the argument index the name is suffixed
with (`"ap" + ArgNo` is `⟨"ap", ArgNo⟩`); types are left out of the
instructions. -/

/-- The two targets an `IRHelper` is created for (`IRHelper::Windows32`,
`IRHelper::Apple`). -/
inductive Target
  | Windows32
  | Apple
  deriving DecidableEq, Repr

/-- Identity of an instruction's result. -/
structure Reg where
  Name : String
  No : Nat := 0
  deriving DecidableEq, Repr

/-- Embedding of `llvm::Value *` as the generator uses it: a formal argument of
the function being defined, the result of an instruction, a function declared
by `declareFunc` (the original when `Wrapper` is false, the wrapper otherwise),
or an integer constant. -/
inductive Value
  | Arg (No : Nat)
  | Inst (R : Reg)
  | Func (Name : String) (Wrapper : Bool)
  | ConstInt (Bits : Nat) (V : Int)
  deriving DecidableEq, Repr

/-- The instructions the generator creates. -/
inductive Instr
  | Alloca (Dst : Reg)
  | BitCast (Dst : Reg) (Src : Value)
  | StructGEP (Dst : Reg) (Ptr : Value) (Idx : Nat)
  | InBoundsGEP (Dst : Reg) (Ptr : Value) (Idx : Value)
  | Load (Dst : Reg) (Ptr : Value)
  | Store (Val : Value) (Ptr : Value)
  | Call (Dst : Option Reg) (Callee : Value) (Args : List Value)
  | Ret (Val : Option Value)
  deriving DecidableEq, Repr

/-- The values of `llvm::GlobalValue::DLLStorageClassTypes` the generator sets. -/
inductive DLLStorageClass
  | DLLImportStorageClass
  | DLLExportStorageClass
  deriving DecidableEq, Repr

/-- One call into an `IRHelper`, the linker driver or `reportError` made by the
generator. `Declare` is `declareFunc` (its first argument may be a null
pointer), `DefineFunc` is `defineFunc` or the constructor of `FunctionGuard`,
`EndFunc` the destructor of `FunctionGuard`, `Ins` an `IRBuilder` call. -/
inductive Emit
  | Report (D : Diag)
  | Declare (T : Target) (Exp : Option String) (Wrapper : Bool)
  | SetDLLStorageClass (Exp : String) (Wrapper : Bool) (C : DLLStorageClass)
  | DefineFunc (T : Target) (Exp : String) (Wrapper : Bool)
  | CreateParamStruct (T : Target) (Exp : String)
  | Ins (T : Target) (I : Instr)
  | EndFunc (T : Target)
  | EmitObj (T : Target) (Lib : String)
  | LinkDLL (Lib : String)
  | LinkDylib (Lib : String) (DLLs : List DLLPtr)
  deriving DecidableEq, Repr

/-- The diagnostics among the calls of a trace. -/
def diagsOf (Es : List Emit) : List Diag :=
  Es.filterMap (fun E => match E with
    | Emit.Report D => some D
    | _ => none)

/-- Subtraction of two `uint32_t` relative virtual addresses. -/
def subRVA (A B : Nat) : Nat :=
  (A % 2 ^ 32 + (2 ^ 32 - B % 2 ^ 32)) % 2 ^ 32

/-- The constant `llvm::ConstantInt::getSigned(IntegerType(Bits), V)`: the low
`Bits` bits of `V`, read as a two's complement number. -/
def getSigned (Bits : Nat) (V : Int) : Int :=
  let M := V % 2 ^ Bits
  if M < 2 ^ (Bits - 1) then M else M - 2 ^ Bits

/-- Lines 312-328 of `generateDLLs`: the loads of the arguments from
the structure, for a function of `NumParams` parameters. -/
def wrapperArgLoads (NumParams : Nat) : List Instr :=
  (List.range NumParams).flatMap (fun ArgIdx =>
    [Instr.StructGEP ⟨"app", ArgIdx⟩ (Value.Inst ⟨"sp", 0⟩) ArgIdx,
     Instr.Load ⟨"ap", ArgIdx⟩ (Value.Inst ⟨"app", ArgIdx⟩),
     Instr.Load ⟨"a", ArgIdx⟩ (Value.Inst ⟨"ap", ArgIdx⟩)])

/-- The vector `Args` of `generateDLLs`: the loaded arguments in parameter
order. -/
def wrapperArgs (NumParams : Nat) : List Value :=
  (List.range NumParams).map (fun ArgIdx => Value.Inst ⟨"a", ArgIdx⟩)

/-- Modelled from the spec: `IRHelper::createCall` is defined in
`LLVMHelper.cpp`, which is not among the sources; section 4.6: the call has a
result, which the generator then stores, exactly when the return type is not
`void`. -/
def createCall (FT : FunctionType) (Callee : Value) (Args : List Value) : Instr :=
  Instr.Call (if FT.Ret = LType.VoidTy then none else some ⟨"r", 0⟩) Callee Args

/-- Lines 305-328 of `generateDLLs`: the wrapper's instructions up to the
call. -/
def wrapperPrologue (FT : FunctionType) : List Instr :=
  Instr.BitCast ⟨"sp", 0⟩ (Value.Arg 0) :: wrapperArgLoads FT.Params.length

/-- Lines 330-356 of `generateDLLs`: the call of the original function, `none`
when the export is an Objective-C method and the library has no reference
function. -/
def wrapperCall (Ref : Option ExportEntry) (Exp : ExportEntry) (FT : FunctionType) :
    Option (List Instr) :=
  if Exp.ObjCMethod then
    match Ref with
    | none => none
    | some RefFunc =>
      some [Instr.BitCast ⟨"refptr", 0⟩ (Value.Func RefFunc.Name false),
            Instr.InBoundsGEP ⟨"computedptr", 0⟩ (Value.Inst ⟨"refptr", 0⟩)
              (Value.ConstInt 32 (getSigned 32 (subRVA Exp.RVA RefFunc.RVA))),
            Instr.BitCast ⟨"fp", 0⟩ (Value.Inst ⟨"computedptr", 0⟩),
            createCall FT (Value.Inst ⟨"fp", 0⟩) (wrapperArgs FT.Params.length)]
  else
    some [createCall FT (Value.Func Exp.Name false) (wrapperArgs FT.Params.length)]

/-- Lines 358-368 of `generateDLLs`: the store of the result, if the call has
one, and the return. -/
def wrapperEpilogue (FT : FunctionType) : List Instr :=
  (if FT.Ret = LType.VoidTy then []
   else [Instr.BitCast ⟨"rp", 0⟩ (Value.Arg 0),
         Instr.Store (Value.Inst ⟨"r", 0⟩) (Value.Inst ⟨"rp", 0⟩)])
  ++ [Instr.Ret none]

/-- The body of the desktop-side wrapper, when it is completed. -/
def wrapperBody (Ref : Option ExportEntry) (Exp : ExportEntry) (FT : FunctionType) :
    Option (List Instr) :=
  (wrapperCall Ref Exp FT).map (fun C => wrapperPrologue FT ++ C ++ wrapperEpilogue FT)

/-- Body of the loop `for (const ExportEntry *Exp : DLL.Exports)` of
`generateDLLs` after the assertion (lines 284-368), for the library `DLL` with
reference function `Ref`. -/
def generateDLLExport (DLL : DLLEntry) (Ref : Option ExportEntry) (Exp : ExportEntry)
    (FT : FunctionType) : List Emit :=
  (if Exp.ObjCMethod then [] else [Emit.Declare Target.Windows32 (some Exp.Name) false])
  ++ [Emit.Declare Target.Windows32 (some Exp.Name) true,
      Emit.Declare Target.Apple (some Exp.Name) true,
      Emit.SetDLLStorageClass Exp.Name true DLLStorageClass.DLLExportStorageClass]
  ++ (if Exp.ObjCMethod then []
      else [Emit.SetDLLStorageClass Exp.Name false DLLStorageClass.DLLImportStorageClass])
  ++ [Emit.DefineFunc Target.Apple Exp.Name true,
      Emit.Ins Target.Apple (Instr.Ret none),
      Emit.CreateParamStruct Target.Windows32 Exp.Name,
      Emit.DefineFunc Target.Windows32 Exp.Name true]
  ++ (wrapperPrologue FT).map (Emit.Ins Target.Windows32)
  ++ (match wrapperCall Ref Exp FT with
      | none =>
        [Emit.Report (Diag.Error ("no reference function, cannot emit Objective-C "
            ++ "method DLL wrappers (" ++ DLL.Name ++ ")"))]
      | some C => (C ++ wrapperEpilogue FT).map (Emit.Ins Target.Windows32))
  ++ [Emit.EndFunc Target.Windows32]

/-- The loop `for (const ExportEntry *Exp : DLL.Exports)` of `generateDLLs`,
with its assertion on the status. A null `Exp->Type` stops the run as a failed
assertion does. -/
def generateDLLExports (HAC : HAContext) (DLL : DLLEntry) (Ref : Option ExportEntry) :
    List String → Except Abort (List Emit)
  | [] => Except.ok []
  | Name :: Names =>
    match findExport HAC.iOSExps Name with
    | none => generateDLLExports HAC DLL Ref Names
    | some Exp =>
      if Exp.Status ≠ ExportStatus.FoundInDLL then
        Except.error (Abort.AssertFailed "Unexpected status of `ExportEntry`.")
      else
        match Exp.Ty with
        | none => Except.error (Abort.AssertFailed "null function type")
        | some FT =>
          match generateDLLExports HAC DLL Ref Names with
          | Except.error A => Except.error A
          | Except.ok Es => Except.ok (generateDLLExport DLL Ref Exp FT ++ Es)

/-- Body of the loop `for (const DLLEntry &DLL : DLLGroup.DLLs)` of
`generateDLLs` (lines 261-389). `IsLittleEndian` is `IRHelper::isLittleEndian`
of the `IRHelper` created for each target. -/
def generateDLL (IsLittleEndian : Target → Bool) (HAC : HAContext) (DLL : DLLEntry) :
    Except Abort (List Emit) :=
  let Gate :=
    if IsLittleEndian Target.Windows32 != IsLittleEndian Target.Apple then
      [Emit.Report (Diag.Error "target platforms don't have the same endianness")]
    else []
  let Ref := DLL.ReferenceFunc.bind (findExport HAC.iOSExps)
  match generateDLLExports HAC DLL Ref DLL.Exports with
  | Except.error A => Except.error A
  | Except.ok Es =>
    Except.ok (Gate ++ [Emit.Declare Target.Windows32 DLL.ReferenceFunc false] ++ Es
      ++ [Emit.EmitObj Target.Windows32 DLL.Name, Emit.LinkDLL DLL.Name,
          Emit.EmitObj Target.Apple DLL.Name, Emit.LinkDylib DLL.Name []])

/-- The libraries of the context in the order of the nested loops of
`generateDLLs`. -/
def allDLLEntries (HAC : HAContext) : List DLLEntry :=
  HAC.DLLGroups.flatMap (fun G => G.DLLs)

/-- The nested loops of `generateDLLs` over a list of libraries. -/
def generateDLLsFrom (IsLittleEndian : Target → Bool) (HAC : HAContext) :
    List DLLEntry → Except Abort (List Emit)
  | [] => Except.ok []
  | DLL :: DLLs =>
    match generateDLL IsLittleEndian HAC DLL with
    | Except.error A => Except.error A
    | Except.ok Es =>
      match generateDLLsFrom IsLittleEndian HAC DLLs with
      | Except.error A => Except.error A
      | Except.ok Es' => Except.ok (Es ++ Es')

/-- Embedding of `HeadersAnalyzer::generateDLLs`. -/
def generateDLLs (IsLittleEndian : Target → Bool) (HAC : HAContext) :
    Except Abort (List Emit) :=
  generateDLLsFrom IsLittleEndian HAC (allDLLEntries HAC)

/-! ## Mobile-side stubs and the pipeline -/

/-- Embedding of `LibType` (`Common.hpp`) with the values of its enumerators. -/
inductive LibType
  | None
  | Dylib
  | DLL
  | Both
  deriving DecidableEq, Repr

/-- The enumerator values `None = 0, Dylib = 0x1, DLL = 0x2, Both = 0x3`. -/
def LibType.toUInt32 : LibType → Nat
  | LibType.None => 0
  | LibType.Dylib => 1
  | LibType.DLL => 2
  | LibType.Both => 3

/-- Embedding of `operator&(LibType Value, LibType Flag)` of `Common.hpp`. -/
def LibType.and (Value Flag : LibType) : Bool :=
  (Value.toUInt32 &&& Flag.toUInt32) == Flag.toUInt32

/-- Lines 432-447 of `generateDylibs`: each argument is spilled to a stack
slot whose address is stored in the structure, for a function of `NumParams`
parameters. -/
def stubArgStores (NumParams : Nat) : List Instr :=
  (List.range NumParams).flatMap (fun ArgNo =>
    [Instr.Alloca ⟨"ap", ArgNo⟩,
     Instr.Store (Value.Arg ArgNo) (Value.Inst ⟨"ap", ArgNo⟩),
     Instr.StructGEP ⟨"ep", ArgNo⟩ (Value.Inst ⟨"sp", 0⟩) ArgNo,
     Instr.Store (Value.Inst ⟨"ap", ArgNo⟩) (Value.Inst ⟨"ep", ArgNo⟩)])

/-- Lines 425-466 of `generateDylibs`: the body of the mobile-side stub of the
export `Exp` of type `FT`. -/
def stubBody (Exp : ExportEntry) (FT : FunctionType) : List Instr :=
  [Instr.Alloca ⟨"s", 0⟩, Instr.BitCast ⟨"sp", 0⟩ (Value.Inst ⟨"s", 0⟩)]
  ++ stubArgStores FT.Params.length
  ++ [Instr.BitCast ⟨"vp", 0⟩ (Value.Inst ⟨"sp", 0⟩),
      Instr.Call none (Value.Func Exp.Name true) [Value.Inst ⟨"vp", 0⟩]]
  ++ (if FT.Ret ≠ LType.VoidTy then
        [Instr.BitCast ⟨"rp", 0⟩ (Value.Inst ⟨"s", 0⟩),
         Instr.Load ⟨"r", 0⟩ (Value.Inst ⟨"rp", 0⟩),
         Instr.Ret (some (Value.Inst ⟨"r", 0⟩))]
      else [Instr.Ret none])

/-- Body of the loop `for (const ExportEntry *Exp : Lib.Exports)` of
`generateDylibs` (lines 402-467). `Config` is the constant
`ErrorUnimplementedFunctions` of `Config.hpp`, which is not among the
sources. A pointer that does not resolve and a null `Exp->Type` of a matched
export, neither of which the matchers produce, emit nothing. -/
def generateDylibExport (Config : LibType) (HAC : HAContext) (Name : String) : List Emit :=
  match findExport HAC.iOSExps Name with
  | none => []
  | some Exp =>
    if Exp.Status ≠ ExportStatus.FoundInDLL then
      if Config.and LibType.DLL && decide (Exp.Status = ExportStatus.Found) then
        [Emit.Report (Diag.Error ("found in Dylib wasn't found in any DLL (" ++ Exp.Name ++ ")"))]
      else []
    else
      match Exp.Ty with
      | none => []
      | some FT =>
        [Emit.Declare Target.Apple (some Exp.Name) false,
         Emit.Declare Target.Apple (some Exp.Name) true,
         Emit.CreateParamStruct Target.Apple Exp.Name,
         Emit.DefineFunc Target.Apple Exp.Name false]
        ++ (stubBody Exp FT).map (Emit.Ins Target.Apple)
        ++ [Emit.EndFunc Target.Apple]

/-- Lines 479-493 of `generateDylibs`: the libraries `Exp->DLL` of the exports,
each once, in order of first occurrence. -/
def linkedDLLs (HAC : HAContext) (Names : List String) : List DLLPtr :=
  Names.foldl (fun DLLs Name =>
    match (findExport HAC.iOSExps Name).bind ExportEntry.DLL with
    | some P => if P ∈ DLLs then DLLs else DLLs ++ [P]
    | none => DLLs) []

/-- Body of the loop `for (const Dylib &Lib : HAC.iOSLibs)` of
`generateDylibs`. -/
def generateDylib (Config : LibType) (HAC : HAContext) (Lib : Dylib) : List Emit :=
  Lib.Exports.flatMap (generateDylibExport Config HAC)
  ++ [Emit.EmitObj Target.Apple Lib.Name, Emit.LinkDylib Lib.Name (linkedDLLs HAC Lib.Exports)]

/-- Embedding of `HeadersAnalyzer::generateDylibs`. -/
def generateDylibs (Config : LibType) (HAC : HAContext) : List Emit :=
  HAC.iOSLibs.flatMap (generateDylib Config HAC)

/-- Embedding of `HeadersAnalyzer::reportUnimplementedFunctions`. -/
def reportUnimplementedFunctions (Config : LibType) (S : HAState) : HAState :=
  if Config.and LibType.Dylib then
    S.HAC.iOSExps.foldl (fun S Exp =>
      if Exp.Status = ExportStatus.NotFound then
        reportError S ("function found in TBD files wasn't found in any Dylib (" ++ Exp.Name ++ ")")
      else S) S
  else S

/-- The loop `for (const llvm::Function &Func : *LLVM.getModule())` of
`parseAppleHeaders`; a fatal error ends it. -/
def analyzeAppleFunctions (S : HAState) : List LFunction → Except Abort HAState
  | [] => Except.ok S
  | Func :: Funcs =>
    match analyzeAppleFunction S Func with
    | Except.error A => Except.error A
    | Except.ok S' => analyzeAppleFunctions S' Funcs

/-- Embedding of `HeadersAnalyzer::parseAppleHeaders`; `Module` is the functions
of the module compiled from the headers by `compileAppleHeaders`. -/
def parseAppleHeaders (Config : LibType) (Module : List LFunction) (S : HAState) :
    Except Abort HAState :=
  match analyzeAppleFunctions S Module with
  | Except.error A => Except.error A
  | Except.ok S' => Except.ok (reportUnimplementedFunctions Config S')

/-- What the external collaborators and the configuration give to a run. -/
structure Inputs where
  Module : List LFunction
  PDB : DLLPtr → List PDBSymbolFunc
  TC : TypeComparer
  IsLittleEndian : Target → Bool
  ErrorUnimplementedFunctions : LibType

/-- The result of a completed run: the final state, and the calls made by
`generateDLLs` followed by those made by `generateDylibs`. -/
structure Output where
  S : HAState
  Emits : List Emit

/-- The diagnostic stream of a completed run. -/
def Output.Diags (O : Output) : List Diag :=
  O.S.Diags ++ diagsOf O.Emits

/-- The `try` block of `main`: `parseAppleHeaders`, `loadDLLs`, `createDirs`
(which only creates directories), `generateDLLs`, `generateDylibs`, on the
context `HAC` with an empty diagnostic stream. -/
def runPipeline (In : Inputs) (HAC : HAContext) : Except Abort Output :=
  match parseAppleHeaders In.ErrorUnimplementedFunctions In.Module { HAC := HAC } with
  | Except.error A => Except.error A
  | Except.ok S1 =>
    let S2 := loadDLLs In.TC In.PDB S1
    match generateDLLs In.IsLittleEndian S2.HAC with
    | Except.error A => Except.error A
    | Except.ok Es =>
      Except.ok { S := S2,
                  Emits := Es ++ generateDylibs In.ErrorUnimplementedFunctions S2.HAC }

/-- How the process ends: `main` returns a status, or a failed assertion aborts
it. -/
inductive ExitStatus
  | Returned (Code : Nat)
  | Aborted
  deriving DecidableEq, Repr

/-- Embedding of `main`: `1` when a `FatalError` is caught, `0` otherwise. -/
def main (In : Inputs) (HAC : HAContext) : ExitStatus :=
  match runPipeline In HAC with
  | Except.error (Abort.FatalError _) => ExitStatus.Returned 1
  | Except.error (Abort.AssertFailed _) => ExitStatus.Aborted
  | Except.ok _ => ExitStatus.Returned 0

/-- The instructions inserted, up to the end of the function, into the function
of the module of target `T` that is being defined. -/
def bodyUntilEnd (T : Target) : List Emit → List Instr
  | [] => []
  | Emit.Ins T' I :: Es => if T' = T then I :: bodyUntilEnd T Es else bodyUntilEnd T Es
  | Emit.EndFunc T' :: Es => if T' = T then [] else bodyUntilEnd T Es
  | Emit.DefineFunc T' _ _ :: Es => if T' = T then [] else bodyUntilEnd T Es
  | _ :: Es => bodyUntilEnd T Es

/-- The body a trace gives to the function of the export `Name` (its wrapper
when `Wrapper` is true) in the module of target `T`. -/
def functionBody (T : Target) (Name : String) (Wrapper : Bool) :
    List Emit → Option (List Instr)
  | [] => none
  | Emit.DefineFunc T' N Wr :: Es =>
    if T' = T ∧ N = Name ∧ Wr = Wrapper then some (bodyUntilEnd T Es)
    else functionBody T Name Wrapper Es
  | _ :: Es => functionBody T Name Wrapper Es

/-! ## Execution of the generated code

A small-step reading of the instructions the generator emits. Memory is a
collection of objects made of slots: `alloca` creates an object, field `i` of
the parameter structure is slot `i` of its object, and a bit cast keeps the
address, so that the return slot of the union is slot `0` of the object holding
the structure. Sizes of values are not modelled. -/

/-- Run-time values: an opaque first-class value, the address of a slot of a
memory object, the 32-bit address of desktop code, a 32-bit integer
constant. -/
inductive Val
  | Data (V : Nat)
  | Ptr (Block : Nat) (Slot : Nat)
  | Code (Addr : Nat)
  | Int32 (V : Int)
  deriving DecidableEq, Repr

/-- The memory shared by the two sides, the number of objects allocated so far
and the calls of original desktop functions made so far (address and argument
values, oldest first). -/
structure Machine where
  Mem : Nat → Nat → Option Val
  Next : Nat
  Calls : List (Nat × List Val)

/-- The activation of a generated function: its actual arguments and the
results of its instructions. -/
structure Frame where
  Args : List Val
  Regs : Reg → Option Val

/-- The desktop process: the address at which the loader resolves each imported
function, and the value the original function at an address returns for given
arguments. -/
structure World where
  AddrOf : String → Nat
  Impl : Nat → List Val → Val

/-- Record the result of an instruction. -/
def Frame.set (F : Frame) (R : Reg) (V : Val) : Frame :=
  { F with Regs := fun R' => if R' = R then some V else F.Regs R' }

/-- Write a slot. -/
def Machine.store (M : Machine) (Block Slot : Nat) (V : Val) : Machine :=
  { M with Mem := fun B S => if B = Block ∧ S = Slot then some V else M.Mem B S }

/-- The run-time value of an operand. A wrapper function has no value of its
own: it is only called. -/
def eval (W : World) (F : Frame) : Value → Option Val
  | Value.Arg No => F.Args[No]?
  | Value.Inst R => F.Regs R
  | Value.Func Name false => some (Val.Code (W.AddrOf Name))
  | Value.Func _ true => none
  | Value.ConstInt _ V => some (Val.Int32 V)

/-- The run-time values of the operands of a call. -/
def evalArgs (W : World) (F : Frame) : List Value → Option (List Val)
  | [] => some []
  | V :: Vs =>
    match eval W F V, evalArgs W F Vs with
    | some X, some Xs => some (X :: Xs)
    | _, _ => none

/-- Address arithmetic of `getelementptr i8` on a 32-bit target. -/
def gepI8 (Addr : Nat) (Idx : Int) : Nat :=
  (((Addr : Int) + Idx) % 2 ^ 32).toNat

/-- One instruction other than a return. `CallWrapper` runs the wrapper of the
given export on the given arguments; a call through any other operand calls the
original desktop function at that address. -/
def step (W : World) (CallWrapper : String → List Val → Machine → Option Machine)
    (I : Instr) (F : Frame) (M : Machine) : Option (Frame × Machine) :=
  match I with
  | Instr.Alloca Dst => some (F.set Dst (Val.Ptr M.Next 0), { M with Next := M.Next + 1 })
  | Instr.BitCast Dst Src =>
    match eval W F Src with
    | some V => some (F.set Dst V, M)
    | none => none
  | Instr.StructGEP Dst Ptr Idx =>
    match eval W F Ptr with
    | some (Val.Ptr B S) => some (F.set Dst (Val.Ptr B (S + Idx)), M)
    | _ => none
  | Instr.InBoundsGEP Dst Ptr Idx =>
    match eval W F Ptr, eval W F Idx with
    | some (Val.Code A), some (Val.Int32 C) => some (F.set Dst (Val.Code (gepI8 A C)), M)
    | _, _ => none
  | Instr.Load Dst Ptr =>
    match eval W F Ptr with
    | some (Val.Ptr B S) =>
      match M.Mem B S with
      | some V => some (F.set Dst V, M)
      | none => none
    | _ => none
  | Instr.Store V Ptr =>
    match eval W F V, eval W F Ptr with
    | some X, some (Val.Ptr B S) => some (F, M.store B S X)
    | _, _ => none
  | Instr.Call Dst Callee Args =>
    match evalArgs W F Args with
    | none => none
    | some Xs =>
      match Callee with
      | Value.Func Name true =>
        match CallWrapper Name Xs M with
        | some M' => some (F, M')
        | none => none
      | _ =>
        match eval W F Callee with
        | some (Val.Code A) =>
          some (match Dst with
                | some R => F.set R (W.Impl A Xs)
                | none => F,
                { M with Calls := M.Calls ++ [(A, Xs)] })
        | _ => none
  | Instr.Ret _ => none

/-- Run a function body up to its return; the result is the returned value, if
any, and the machine. A body that ends without return has no result. -/
def exec (W : World) (CallWrapper : String → List Val → Machine → Option Machine) :
    List Instr → Frame → Machine → Option (Option Val × Machine)
  | [], _, _ => none
  | Instr.Ret none :: _, _, M => some (none, M)
  | Instr.Ret (some V) :: _, F, M =>
    match eval W F V with
    | some X => some (some X, M)
    | none => none
  | I :: Is, F, M =>
    match step W CallWrapper I F M with
    | some (F', M') => exec W CallWrapper Is F' M'
    | none => none

/-- Run straight-line instructions. -/
def run (W : World) (CallWrapper : String → List Val → Machine → Option Machine) :
    List Instr → Frame → Machine → Option (Frame × Machine)
  | [], F, M => some (F, M)
  | I :: Is, F, M =>
    match step W CallWrapper I F M with
    | some (F', M') => run W CallWrapper Is F' M'
    | none => none

/-- Call a desktop-side wrapper: the wrappers of a desktop module `Wrappers`
call no wrapper themselves. -/
def callWrapper (W : World) (Wrappers : String → Option (List Instr))
    (Name : String) (Args : List Val) (M : Machine) : Option Machine :=
  match Wrappers Name with
  | none => none
  | some Body =>
    match exec W (fun _ _ _ => none) Body { Args := Args, Regs := fun _ => none } M with
    | some (_, M') => some M'
    | none => none

/-- Call a mobile-side stub with the given arguments. -/
def callStub (W : World) (Wrappers : String → Option (List Instr)) (Body : List Instr)
    (Args : List Val) (M : Machine) : Option (Option Val × Machine) :=
  exec W (callWrapper W Wrappers) Body { Args := Args, Regs := fun _ => none } M

/-- The call target the wrapper of an Objective-C method computes, when the
reference function is loaded at `RefAddr`: the constant of line 343 added to
the reference function's address by the `getelementptr` of line 347. -/
def computedTarget (RefAddr RefRVA ExpRVA : Nat) : Nat :=
  gepI8 RefAddr (getSigned 32 (subRVA ExpRVA RefRVA))

/-- The address the wrapper of `Exp` calls: the computed target for an
Objective-C method of a library with reference function `Ref`, the imported
original otherwise. -/
def callTarget (W : World) (Ref : Option ExportEntry) (Exp : ExportEntry) : Nat :=
  if Exp.ObjCMethod then
    match Ref with
    | some RefFunc => computedTarget (W.AddrOf RefFunc.Name) RefFunc.RVA Exp.RVA
    | none => 0
  else W.AddrOf Exp.Name

/-! ## Unimplemented-symbols report -/

/-- The line `reportUnimplementedFunctions` writes for the export `Name`. -/
def notInDylibReport (Name : String) : Diag :=
  Diag.Error ("function found in TBD files wasn't found in any Dylib (" ++ Name ++ ")")

/-- The line `generateDylibs` writes for the export `Name`. -/
def notInDLLReport (Name : String) : Diag :=
  Diag.Error ("found in Dylib wasn't found in any DLL (" ++ Name ++ ")")

/-- How many times a diagnostic stream reports the export `Name` as
unimplemented. -/
def unimplementedReports (Ds : List Diag) (Name : String) : Nat :=
  Ds.count (notInDylibReport Name) + Ds.count (notInDLLReport Name)

/-- How many times the mobile libraries list the export `Name`. -/
def listings (HAC : HAContext) (Name : String) : Nat :=
  (HAC.iOSLibs.map (fun L => L.Exports.count Name)).sum

/-- The first ten characters of an error message. -/
def msgHead : Diag → List Char
  | Diag.Error Msg => Msg.data.take 10
  | Diag.Warning _ => []

/-- Whether a line starts as one of the two unimplemented-symbol reports. -/
def isUnimplementedHead (D : Diag) : Bool :=
  msgHead D == "function f".data || msgHead D == "found in D".data

/-! ## Debug-symbol matcher: auxiliary definitions -/

/-- The export named `Name` is registered and is not an Objective-C method. -/
def isPlainExport (Exps : List ExportEntry) (Name : String) : Bool :=
  match findExport Exps Name with
  | some E => !E.ObjCMethod
  | none => false

/-- The first entry of a matched-export list that is not an Objective-C
method. -/
def firstPlainExport (Exps : List ExportEntry) (Names : List String) : Option String :=
  Names.find? (isPlainExport Exps)

/-- What `loadDLLsFunc` does to the matched export. -/
def matchedExport (DLL : DLLPtr) (Func : PDBSymbolFunc) (E : ExportEntry) : ExportEntry :=
  { E with Status := ExportStatus.FoundInDLL, RVA := Func.RVA,
           DLLGroup := some DLL.Group, DLL := some DLL }

/-- What `loadDLLsFunc` does to the library when it matches `Exp`. -/
def matchedDLL (Exp : ExportEntry) (Name : String) (D : DLLEntry) : DLLEntry :=
  { D with Exports := D.Exports ++ [Name],
           ReferenceFunc := if D.ReferenceFunc.isNone && !Exp.ObjCMethod then some Name
                            else D.ReferenceFunc }

/-- The reference-function invariant of the library `P`: its `ReferenceFunc` is
the first entry of its matched-export list that is not an Objective-C
method. -/
def RefInv (S : HAState) (P : DLLPtr) : Prop :=
  ∀ D, getDLL S.HAC P = some D →
    D.ReferenceFunc = firstPlainExport S.HAC.iOSExps D.Exports

/-! ## Unimplemented-symbols report: auxiliary definitions -/

/-- What a step of a matcher may add to the diagnostics: lines that are not
unimplemented-symbol reports. -/
def AddsOtherDiags (Ds Ds' : List Diag) : Prop :=
  ∃ L, Ds' = Ds ++ L ∧ ∀ D, D ∈ L → isUnimplementedHead D = false

/-- The lines `reportUnimplementedFunctions` adds: one for each export that is
`NotFound`, in registry order. -/
def notFoundReports (Exps : List ExportEntry) : List Diag :=
  (Exps.filter (fun E => decide (E.Status = ExportStatus.NotFound))).map
    (fun E => notInDylibReport E.Name)

/-- What the debug-symbol matcher may do to the registry: it keeps the names,
and an export keeps its status or goes from `Found` to `FoundInDLL`. -/
def StatusStep (Exps Exps' : List ExportEntry) : Prop :=
  Exps'.map ExportEntry.Name = Exps.map ExportEntry.Name ∧
  ∀ Name E', findExport Exps' Name = some E' →
    ∃ E, findExport Exps Name = some E ∧
      (E'.Status = E.Status ∨
        (E.Status = ExportStatus.Found ∧ E'.Status = ExportStatus.FoundInDLL))

/-- A trace none of whose reports is an unimplemented-symbol report. -/
def OtherOnly (Es : List Emit) : Prop :=
  ∀ D, D ∈ diagsOf Es → isUnimplementedHead D = false

/-- The lines `generateDylibs` adds for the exports `Names` of a library when
`ErrorUnimplementedFunctions` is `Both`: one for each entry whose export is
`Found`. -/
def notInDLLReports (HAC : HAContext) (Names : List String) : List Diag :=
  Names.flatMap (fun Name =>
    match findExport HAC.iOSExps Name with
    | some E => if E.Status = ExportStatus.Found then [notInDLLReport E.Name] else []
    | none => [])

/-! ## Header-declaration matcher: sample data -/

/-- A registry with one export `_f`, not yet declared by any header. -/
def sampleState : HAState :=
  { HAC := { iOSExps := [{ Name := "_g", Status := ExportStatus.Found }, { Name := "_f" }],
             iOSLibs := [{ Name := "/usr/lib/libA.dylib", Exports := ["_g", "_f"] }] } }

/-- A header declaration `i32 _f(i32, i8*)`. -/
def sampleFunc : LFunction :=
  { Name := "_f", Ty := { Params := [LType.IntegerTy 32, LType.PointerTy], Ret := LType.IntegerTy 32 } }

/-! ## Debug-symbol matcher: sample data -/

/-- A context with one desktop library `Foundation.dll`, nothing matched yet,
and three exports known from headers, one of them an Objective-C method. -/
def sampleDLLState : HAState :=
  { HAC := { iOSExps := [{ Name := "_m", Status := ExportStatus.Found, ObjCMethod := true },
                         { Name := "_f", Status := ExportStatus.Found },
                         { Name := "_g", Status := ExportStatus.Found },
                         { Name := "_h" }],
             iOSLibs := [{ Name := "/usr/lib/libA.dylib", Exports := ["_m", "_f", "_g", "_h"] }],
             DLLGroups := [{ Dir := "./deps/", DLLs := [{ Name := "Foundation.dll" }] }] } }

/-! ## Interface-file ingestion: sample data -/

/-- Two interface files with the install name `/usr/lib/libA.dylib` and
different symbols. -/
def sampleFS : FileSystem :=
  { HasTBDExtension := fun Path => decide (Path = "a.tbd") || decide (Path = "b.tbd"),
    readFile := fun Path =>
      if Path = "a.tbd" then
        Except.ok { Architectures := [Architecture.armv7, Architecture.arm64],
                    InstallName := "/usr/lib/libA.dylib",
                    Exports := [{ Kind := SymbolKind.GlobalSymbol, Name := "_f" },
                                { Kind := SymbolKind.ObjectiveCClass, Name := "NSObject" }] }
      else if Path = "b.tbd" then
        Except.ok { Architectures := [Architecture.armv7],
                    InstallName := "/usr/lib/libA.dylib",
                    Exports := [{ Kind := SymbolKind.GlobalSymbol, Name := "_g" }] }
      else Except.error "No such file or directory" }

/-! ## Wrapper generation: sample data -/

/-- A context as the interface files leave it: two exports of one mobile
library, and one desktop library. -/
def sampleHAC : HAContext :=
  { iOSExps := [{ Name := "_f" }, { Name := "_g" }],
    iOSLibs := [{ Name := "/usr/lib/libA.dylib", Exports := ["_f", "_g"] }],
    DLLGroups := [{ Dir := "./deps/", DLLs := [{ Name := "Foundation.dll" }] }] }

/-- A run in which the headers declare `_f`, the library defines it at RVA
`0x1000`, and the desktop target is little-endian while the mobile target is
big-endian. -/
def sampleBigEndianInputs : Inputs :=
  { Module := [{ Name := "_f", Ty := { Params := [LType.IntegerTy 32], Ret := LType.IntegerTy 32 } }],
    PDB := fun _ => [{ Name := "_f", RVA := 0x1000 }],
    TC := fun _ _ => true,
    IsLittleEndian := fun T => decide (T = Target.Windows32),
    ErrorUnimplementedFunctions := LibType.None }

/-- A context after matching in which the only matched export of
`Foundation.dll` is the Objective-C method `_m`, so that the library has no
reference function; `UIKit.dll` has the plain export `_f`. -/
def sampleObjCOnlyHAC : HAContext :=
  { iOSExps := [{ Name := "_m", Status := ExportStatus.FoundInDLL, RVA := 0x1050,
                  Ty := some { Params := [LType.PointerTy], Ret := LType.VoidTy },
                  ObjCMethod := true, DLLGroup := some 0, DLL := some ⟨0, 0⟩ },
                { Name := "_f", Status := ExportStatus.FoundInDLL, RVA := 0x1000,
                  Ty := some { Params := [], Ret := LType.VoidTy },
                  DLLGroup := some 0, DLL := some ⟨0, 1⟩ }],
    iOSLibs := [{ Name := "/usr/lib/libA.dylib", Exports := ["_m", "_f"] }],
    DLLGroups := [{ Dir := "./deps/",
                    DLLs := [{ Name := "Foundation.dll", Exports := ["_m"] },
                             { Name := "UIKit.dll", Exports := ["_f"], ReferenceFunc := some "_f" }] }] }

/-! ## Address computation and marshalling: sample data -/

/-- A desktop process in which every import is loaded at `0x90000000` and an
original function returns the number of its arguments. -/
def sampleWorld : World :=
  { AddrOf := fun _ => 0x90000000, Impl := fun _ Xs => Val.Data Xs.length }

/-- A machine with empty memory and no call made. -/
def emptyMachine : Machine :=
  { Mem := fun _ _ => none, Next := 0, Calls := [] }

/-- A matched plain export `i32 _f(i32, i8*)`. -/
def sampleMatchedExport : ExportEntry :=
  { Name := "_f", Status := ExportStatus.FoundInDLL, RVA := 0x1000,
    Ty := some { Params := [LType.IntegerTy 32, LType.PointerTy], Ret := LType.IntegerTy 32 },
    DLLGroup := some 0, DLL := some ⟨0, 0⟩ }

/-- A context after matching with `sampleMatchedExport` as only export. -/
def sampleMatchedHAC : HAContext :=
  { iOSExps := [sampleMatchedExport],
    iOSLibs := [{ Name := "/usr/lib/libA.dylib", Exports := ["_f"] }],
    DLLGroups := [{ Dir := "./deps/",
                    DLLs := [{ Name := "Foundation.dll", Exports := ["_f"],
                               ReferenceFunc := some "_f" }] }] }

/-! ## Unimplemented-symbols report: sample data -/

/-- A context in which two mobile libraries list `_f`. -/
def sampleReportHAC : HAContext :=
  { iOSExps := [{ Name := "_f" }, { Name := "_g" }, { Name := "_h" }],
    iOSLibs := [{ Name := "/usr/lib/libA.dylib", Exports := ["_f", "_g", "_h"] },
                { Name := "/usr/lib/libB.dylib", Exports := ["_f"] }],
    DLLGroups := [{ Dir := "./deps/", DLLs := [{ Name := "Foundation.dll" }] }] }

/-- A run with reporting enabled in which the headers declare `_f` once and `_g`
twice, and no desktop library defines any of them. -/
def sampleReportInputs : Inputs :=
  { Module := [{ Name := "_f", Ty := { Params := [], Ret := LType.VoidTy } },
               { Name := "_g", Ty := { Params := [], Ret := LType.VoidTy } },
               { Name := "_g", Ty := { Params := [LType.PointerTy], Ret := LType.VoidTy } }],
    PDB := fun _ => [],
    TC := fun _ _ => true,
    IsLittleEndian := fun _ => true,
    ErrorUnimplementedFunctions := LibType.Both }

/-! ## Strings (`Common.hpp`)

A `std::string` is a Lean string, one character for each `char`; `size_t` is
an unsigned 64-bit integer. -/

/-- The exception `std::out_of_range` thrown by `std::string::compare`. -/
inductive StdException
  | out_of_range
  deriving DecidableEq, Repr

/-- Subtraction of two `size_t` values. -/
def subSize (A B : Nat) : Nat :=
  (A % 2 ^ 64 + (2 ^ 64 - B % 2 ^ 64)) % 2 ^ 64

/-- Three-way comparison of two character sequences, as `std::string::compare`
does it: the sign of the first difference, a proper prefix being smaller. -/
def compareChars : List Char → List Char → Int
  | [], [] => 0
  | [], _ :: _ => -1
  | _ :: _, [] => 1
  | A :: As, B :: Bs =>
    if A = B then compareChars As Bs else if A < B then -1 else 1

/-- Embedding of `std::string::compare(pos, len, str)`: it throws
`std::out_of_range` when `pos > size()`, and otherwise compares the substring
of at most `len` characters starting at `pos` with `str`. -/
def stdCompare (S : String) (Pos Len : Nat) (Str : String) : Except StdException Int :=
  if Pos > S.length then Except.error StdException.out_of_range
  else Except.ok (compareChars ((S.data.drop Pos).take Len) Str.data)

/-- Embedding of `startsWith(const std::string &S, const std::string &Prefix)`
(`Common.hpp`, lines 36-38); the overload for `ConstexprString` (lines 39-41)
makes the same call of `compare` with the C string. -/
def startsWith (S Prefix : String) : Except StdException Bool :=
  match stdCompare S 0 Prefix.length Prefix with
  | Except.error E => Except.error E
  | Except.ok R => Except.ok (decide (R = 0))

/-- Embedding of `endsWith(const std::string &S, const std::string &Suffix)`
(`Common.hpp`, lines 42-44); the overload for `ConstexprString` (lines 45-47)
makes the same call of `compare` with the C string. -/
def endsWith (S Suffix : String) : Except StdException Bool :=
  match stdCompare S (subSize S.length Suffix.length) Suffix.length Suffix with
  | Except.error E => Except.error E
  | Except.ok R => Except.ok (decide (R = 0))

/-! ## Interface-file ingestion: more sample data -/

/-- An interface file with a global symbol, an instance variable and an
exception type. -/
def sampleIvarFS : FileSystem :=
  { HasTBDExtension := fun _ => true,
    readFile := fun _ =>
      Except.ok { Architectures := [Architecture.armv7],
                  InstallName := "/usr/lib/libobjc.A.dylib",
                  Exports := [{ Kind := SymbolKind.GlobalSymbol, Name := "_objc_msgSend" },
                              { Kind := SymbolKind.ObjectiveCInstanceVariable,
                                Name := "NSObject.isa" },
                              { Kind := SymbolKind.ObjectiveCClassEHType,
                                Name := "NSException" }] } }

/-! ## Status order -/

/-- The position of a status in the order
`NotFound < Found < Overloaded < FoundInDLL < Generated`. -/
def ExportStatus.rank : ExportStatus → Nat
  | ExportStatus.NotFound => 0
  | ExportStatus.Found => 1
  | ExportStatus.Overloaded => 2
  | ExportStatus.FoundInDLL => 3
  | ExportStatus.Generated => 4

/-- The allowed edges `NotFound → Found`, `Found → Overloaded`,
`Found → FoundInDLL`, `FoundInDLL → Generated`. -/
def AllowedEdge : ExportStatus → ExportStatus → Bool
  | ExportStatus.NotFound, ExportStatus.Found => true
  | ExportStatus.Found, ExportStatus.Overloaded => true
  | ExportStatus.Found, ExportStatus.FoundInDLL => true
  | ExportStatus.FoundInDLL, ExportStatus.Generated => true
  | _, _ => false

/-- A status is left unchanged or moved along one allowed edge. -/
def StatusMove (A B : ExportStatus) : Prop :=
  A = B ∨ AllowedEdge A B = true

/-- An export before and after a step: the same name, and a status left
unchanged or moved along one allowed edge. -/
def ExportMove (E E' : ExportEntry) : Prop :=
  E'.Name = E.Name ∧ StatusMove E.Status E'.Status

/-- An export before and after steps of the debug-symbol matcher: the same
name, and a status left unchanged or moved from `Found` to `FoundInDLL`. -/
def MatchMove (E E' : ExportEntry) : Prop :=
  E'.Name = E.Name ∧
    (E'.Status = E.Status ∨
      (E.Status = ExportStatus.Found ∧ E'.Status = ExportStatus.FoundInDLL))


/-! ## Matched-export invariant: auxiliary definitions -/

/-- The call declares or defines a function for the export `Name`, sets its
storage class or creates its parameter structure: what the generators emit for
an export they give a trampoline or a stub. -/
def namesExport (Name : String) : Emit → Bool
  | Emit.Declare _ (some N) _ => decide (N = Name)
  | Emit.SetDLLStorageClass N _ _ => decide (N = Name)
  | Emit.DefineFunc _ N _ => decide (N = Name)
  | Emit.CreateParamStruct _ N => decide (N = Name)
  | _ => false

/-- The invariant of the matched-export lists: each list has no duplicates, the
reference function of a library is in its list, every entry is a registered
export with status `FoundInDLL` whose `DLL` points back to the library, and
every export whose status is not `NotFound` has a type. -/
def MatchedInv (HAC : HAContext) : Prop :=
  (∀ P D, getDLL HAC P = some D →
    D.Exports.Nodup ∧
    (∀ r, D.ReferenceFunc = some r → r ∈ D.Exports) ∧
    (∀ n, n ∈ D.Exports → ∃ E, findExport HAC.iOSExps n = some E ∧
      E.Status = ExportStatus.FoundInDLL ∧ E.DLL = some P)) ∧
  (∀ n E, findExport HAC.iOSExps n = some E → E.Status ≠ ExportStatus.NotFound →
    E.Ty ≠ none)

/-- The statuses the header matcher works with: before the debug-symbol matcher
runs, no export has status `FoundInDLL` or `Generated`. -/
def HeaderPhase (HAC : HAContext) : Prop :=
  ∀ n E, findExport HAC.iOSExps n = some E →
    E.Status = ExportStatus.NotFound ∨ E.Status = ExportStatus.Found ∨
      E.Status = ExportStatus.Overloaded


/-! ## Matched-export invariant: sample data -/

/-- A run in which the headers declare `_f` once and `_g` twice, and the
desktop library defines both. -/
def sampleOverloadInputs : Inputs :=
  { Module := [{ Name := "_f", Ty := { Params := [LType.IntegerTy 32], Ret := LType.IntegerTy 32 } },
               { Name := "_g", Ty := { Params := [], Ret := LType.VoidTy } },
               { Name := "_g", Ty := { Params := [LType.PointerTy], Ret := LType.VoidTy } }],
    PDB := fun _ => [{ Name := "_f", RVA := 0x1000 }, { Name := "_g", RVA := 0x1040 }],
    TC := fun _ _ => true,
    IsLittleEndian := fun _ => true,
    ErrorUnimplementedFunctions := LibType.Both }

/-! ## Registry lemmas -/

theorem findExport_name {Exps : List ExportEntry} {Name : String} {E : ExportEntry}
    (h : findExport Exps Name = some E) : E.Name = Name := by
  unfold findExport at h
  have := List.find?_some h
  simpa using this

theorem findExport_mem {Exps : List ExportEntry} {Name : String} {E : ExportEntry}
    (h : findExport Exps Name = some E) : E ∈ Exps := by
  unfold findExport at h
  exact List.mem_of_find?_eq_some h

theorem findExport_updateExport_same (Exps : List ExportEntry) (Name : String)
    (f : ExportEntry → ExportEntry) (hf : ∀ E, (f E).Name = E.Name) :
    findExport (updateExport Exps Name f) Name = (findExport Exps Name).map f := by
  induction Exps with
  | nil => rfl
  | cons E Es ih =>
    unfold findExport at ih ⊢
    by_cases h : E.Name = Name
    · simp [updateExport, h, hf]
    · simp [updateExport, h, ih]

theorem findExport_updateExport_other (Exps : List ExportEntry) (Name Other : String)
    (f : ExportEntry → ExportEntry) (hf : ∀ E, (f E).Name = E.Name)
    (hne : Other ≠ Name) :
    findExport (updateExport Exps Name f) Other = findExport Exps Other := by
  induction Exps with
  | nil => rfl
  | cons E Es ih =>
    unfold findExport at ih ⊢
    by_cases h : E.Name = Name
    · have h2 : ¬ E.Name = Other := fun h3 => hne (h3.symm.trans h)
      simp [updateExport, h, hf, h2, hne.symm]
    · by_cases h3 : E.Name = Other
      · subst h3
        simp [updateExport, h]
      · simp [updateExport, h, h3, ih]

theorem map_name_updateExport (Exps : List ExportEntry) (Name : String)
    (f : ExportEntry → ExportEntry) (hf : ∀ E, (f E).Name = E.Name) :
    (updateExport Exps Name f).map ExportEntry.Name = Exps.map ExportEntry.Name := by
  induction Exps with
  | nil => rfl
  | cons E Es ih =>
    by_cases h : E.Name = Name
    · simp [updateExport, h, hf]
    · simp [updateExport, h, ih]

/-! ## Library lemmas -/

theorem getElem?_updateNth_same {α : Type} (f : α → α) (l : List α) (n : Nat) :
    (updateNth f l n)[n]? = (l[n]?).map f := by
  induction l generalizing n with
  | nil => simp [updateNth]
  | cons x xs ih =>
    cases n with
    | zero => simp [updateNth]
    | succ n => simp [updateNth, ih]

theorem getElem?_updateNth_other {α : Type} (f : α → α) (l : List α) (n m : Nat)
    (h : m ≠ n) : (updateNth f l n)[m]? = l[m]? := by
  induction l generalizing n m with
  | nil => simp [updateNth]
  | cons x xs ih =>
    cases n with
    | zero =>
      cases m with
      | zero => exact absurd rfl h
      | succ m => simp [updateNth]
    | succ n =>
      cases m with
      | zero => simp [updateNth]
      | succ m =>
        have h2 : m ≠ n := fun e => h (by rw [e])
        simp [updateNth, ih n m h2]

theorem getDLL_updateDLL_same (S : HAState) (P : DLLPtr) (f : DLLEntry → DLLEntry) :
    getDLL (S.updateDLL P f).HAC P = (getDLL S.HAC P).map f := by
  simp only [getDLL, HAState.updateDLL, getElem?_updateNth_same]
  cases S.HAC.DLLGroups[P.Group]? with
  | none => rfl
  | some G => simp [getElem?_updateNth_same]

theorem getDLL_updateDLL_other (S : HAState) (P Q : DLLPtr) (f : DLLEntry → DLLEntry)
    (h : Q ≠ P) : getDLL (S.updateDLL P f).HAC Q = getDLL S.HAC Q := by
  simp only [getDLL, HAState.updateDLL]
  by_cases hg : Q.Group = P.Group
  · have hd : Q.DLL ≠ P.DLL := by
      intro hd
      apply h
      cases Q; cases P; simp_all
    rw [hg, getElem?_updateNth_same]
    cases S.HAC.DLLGroups[P.Group]? with
    | none => rfl
    | some G => simp [getElem?_updateNth_other _ _ _ _ hd]
  · rw [getElem?_updateNth_other _ _ _ _ hg]

theorem isInterestingForWindows_some {HAC : HAContext} {Name : String} {Exp : ExportEntry}
    (h : findExport HAC.iOSExps Name = some Exp) (hSt : Exp.Status = ExportStatus.Found) :
    isInterestingForWindows HAC Name = some Exp := by
  simp [isInterestingForWindows, isInteresting, h, hSt]

theorem isInterestingForWindows_none {HAC : HAContext} {Name : String}
    (h : ∀ Exp, findExport HAC.iOSExps Name = some Exp → Exp.Status ≠ ExportStatus.Found) :
    isInterestingForWindows HAC Name = none := by
  unfold isInterestingForWindows isInteresting
  cases hf : findExport HAC.iOSExps Name with
  | none => rfl
  | some Exp => simp [h Exp hf]

/-! ## Debug-symbol matcher: lemmas -/

theorem loadDLLsFunc_skip (TC : TypeComparer) (S : HAState) (DLL : DLLPtr)
    (Func : PDBSymbolFunc)
    (h : ∀ Exp, findExport S.HAC.iOSExps Func.Name = some Exp →
      Exp.Status ≠ ExportStatus.Found) :
    loadDLLsFunc TC S DLL Func = S := by
  simp only [loadDLLsFunc, isInterestingForWindows_none h]

theorem updateExport_updateExport (Exps : List ExportEntry) (Name : String)
    (f g : ExportEntry → ExportEntry) (hf : ∀ E, (f E).Name = E.Name) :
    updateExport (updateExport Exps Name f) Name g = updateExport Exps Name (fun E => g (f E)) := by
  induction Exps with
  | nil => rfl
  | cons E Es ih =>
    by_cases h : E.Name = Name
    · simp [updateExport, h, hf]
    · simp [updateExport, h, ih]

theorem loadDLLsFunc_exps (TC : TypeComparer) (S : HAState) (DLL : DLLPtr)
    (Func : PDBSymbolFunc) (Exp : ExportEntry)
    (h : findExport S.HAC.iOSExps Func.Name = some Exp)
    (hSt : Exp.Status = ExportStatus.Found) :
    (loadDLLsFunc TC S DLL Func).HAC.iOSExps
      = updateExport S.HAC.iOSExps Func.Name (matchedExport DLL Func) := by
  simp only [loadDLLsFunc, isInterestingForWindows_some h hSt]
  have key : ∀ (b : Bool) (A : HAState) (m : String),
      (if b then reportError A m else A).HAC = A.HAC := by
    intro b A m; cases b <;> rfl
  rw [key]
  simp only [HAState.updateDLL, HAState.updateExp]
  rw [updateExport_updateExport]
  · rfl
  · exact fun _ => rfl

theorem loadDLLsFunc_dll (TC : TypeComparer) (S : HAState) (DLL : DLLPtr)
    (Func : PDBSymbolFunc) (Exp : ExportEntry)
    (h : findExport S.HAC.iOSExps Func.Name = some Exp)
    (hSt : Exp.Status = ExportStatus.Found) :
    getDLL (loadDLLsFunc TC S DLL Func).HAC DLL
      = (getDLL S.HAC DLL).map (matchedDLL Exp Func.Name) := by
  simp only [loadDLLsFunc, isInterestingForWindows_some h hSt]
  have key : ∀ (b : Bool) (A : HAState) (m : String),
      (if b then reportError A m else A).HAC = A.HAC := by
    intro b A m; cases b <;> rfl
  rw [key, getDLL_updateDLL_same]
  have e1 : ∀ (A : HAState) (n : String) (f : ExportEntry → ExportEntry),
      getDLL (A.updateExp n f).HAC DLL = getDLL A.HAC DLL := fun _ _ _ => rfl
  rw [e1, getDLL_updateDLL_same, e1]
  cases getDLL S.HAC DLL with
  | none => rfl
  | some D => cases hr : D.ReferenceFunc <;> cases ho : Exp.ObjCMethod <;> simp [matchedDLL, hr, ho]

theorem loadDLLsFunc_dll_other (TC : TypeComparer) (S : HAState) (DLL Q : DLLPtr)
    (Func : PDBSymbolFunc) (hQ : Q ≠ DLL) :
    getDLL (loadDLLsFunc TC S DLL Func).HAC Q = getDLL S.HAC Q := by
  unfold loadDLLsFunc
  cases hI : isInterestingForWindows S.HAC Func.Name with
  | none => simp only [hI]
  | some Exp =>
    simp only [hI]
    have key : ∀ (b : Bool) (A : HAState) (m : String),
        (if b then reportError A m else A).HAC = A.HAC := by
      intro b A m; cases b <;> rfl
    simp only [key]
    rw [getDLL_updateDLL_other _ _ _ _ hQ]
    have e1 : ∀ (A : HAState) (n : String) (f : ExportEntry → ExportEntry),
        getDLL (A.updateExp n f).HAC Q = getDLL A.HAC Q := fun _ _ _ => rfl
    rw [e1, getDLL_updateDLL_other _ _ _ _ hQ, e1]

theorem isPlainExport_updateExport (Exps : List ExportEntry) (Name Other : String)
    (f : ExportEntry → ExportEntry) (hf : ∀ E, (f E).Name = E.Name)
    (ho : ∀ E, (f E).ObjCMethod = E.ObjCMethod) :
    isPlainExport (updateExport Exps Name f) Other = isPlainExport Exps Other := by
  unfold isPlainExport
  by_cases h : Other = Name
  · subst h
    rw [findExport_updateExport_same _ _ _ hf]
    cases findExport Exps Other with
    | none => rfl
    | some E => simp [ho]
  · rw [findExport_updateExport_other _ _ _ _ hf h]

theorem loadDLLsFunc_isPlainExport (TC : TypeComparer) (S : HAState) (DLL : DLLPtr)
    (Func : PDBSymbolFunc) (Other : String) :
    isPlainExport (loadDLLsFunc TC S DLL Func).HAC.iOSExps Other
      = isPlainExport S.HAC.iOSExps Other := by
  by_cases h : ∀ Exp, findExport S.HAC.iOSExps Func.Name = some Exp →
      Exp.Status ≠ ExportStatus.Found
  · rw [loadDLLsFunc_skip TC S DLL Func h]
  · push_neg at h
    obtain ⟨Exp, hReg, hSt⟩ := h
    rw [loadDLLsFunc_exps TC S DLL Func Exp hReg hSt]
    exact isPlainExport_updateExport _ _ _ _ (fun _ => rfl) (fun _ => rfl)

theorem firstPlainExport_congr {Exps Exps' : List ExportEntry}
    (h : ∀ n, isPlainExport Exps' n = isPlainExport Exps n) (Names : List String) :
    firstPlainExport Exps' Names = firstPlainExport Exps Names := by
  have : isPlainExport Exps' = isPlainExport Exps := funext h
  unfold firstPlainExport
  rw [this]

theorem loadDLLsFunc_refInv (TC : TypeComparer) (S : HAState) (DLL P : DLLPtr)
    (Func : PDBSymbolFunc) (hInv : RefInv S P) : RefInv (loadDLLsFunc TC S DLL Func) P := by
  intro D' hD'
  rw [firstPlainExport_congr (loadDLLsFunc_isPlainExport TC S DLL Func)]
  by_cases hP : P = DLL
  · subst hP
    by_cases h : ∀ Exp, findExport S.HAC.iOSExps Func.Name = some Exp →
        Exp.Status ≠ ExportStatus.Found
    · rw [loadDLLsFunc_skip TC S P Func h] at hD'
      exact hInv D' hD'
    · push_neg at h
      obtain ⟨Exp, hReg, hSt⟩ := h
      rw [loadDLLsFunc_dll TC S P Func Exp hReg hSt] at hD'
      cases hD : getDLL S.HAC P with
      | none => rw [hD] at hD'; cases hD'
      | some D =>
        rw [hD] at hD'
        simp only [Option.map_some', Option.some.injEq] at hD'
        subst hD'
        have hI := hInv D hD
        have hplain : isPlainExport S.HAC.iOSExps Func.Name = !Exp.ObjCMethod := by
          simp [isPlainExport, hReg]
        unfold firstPlainExport at hI ⊢
        simp only [matchedDLL, List.find?_append, List.find?_cons, List.find?_nil, hplain]
        rw [← hI]
        cases hr : D.ReferenceFunc <;> cases ho : Exp.ObjCMethod <;> simp
  · rw [loadDLLsFunc_dll_other TC S DLL P Func hP] at hD'
    exact hInv D' hD'

theorem loadDLLsFunc_ref_kept (TC : TypeComparer) (S : HAState) (DLL : DLLPtr)
    (Func : PDBSymbolFunc) (D : DLLEntry) (hD : getDLL S.HAC DLL = some D) :
    ∃ D', getDLL (loadDLLsFunc TC S DLL Func).HAC DLL = some D' ∧
      ∀ r, D.ReferenceFunc = some r → D'.ReferenceFunc = some r := by
  by_cases h : ∀ Exp, findExport S.HAC.iOSExps Func.Name = some Exp →
      Exp.Status ≠ ExportStatus.Found
  · rw [loadDLLsFunc_skip TC S DLL Func h]
    exact ⟨D, hD, fun _ hr => hr⟩
  · push_neg at h
    obtain ⟨Exp, hReg, hSt⟩ := h
    rw [loadDLLsFunc_dll TC S DLL Func Exp hReg hSt, hD]
    refine ⟨_, rfl, ?_⟩
    intro r hr
    simp [matchedDLL, hr]

theorem loadDLL_refInv (TC : TypeComparer) (DLL P : DLLPtr) (Funcs : List PDBSymbolFunc) :
    ∀ S : HAState, RefInv S P → RefInv (loadDLL TC S DLL Funcs) P := by
  induction Funcs with
  | nil => intro S h; exact h
  | cons F Fs ih =>
    intro S h
    exact ih _ (loadDLLsFunc_refInv TC S DLL P F h)

theorem loadDLL_ref_kept (TC : TypeComparer) (DLL : DLLPtr) (Funcs : List PDBSymbolFunc) :
    ∀ (S : HAState) (D : DLLEntry), getDLL S.HAC DLL = some D →
      ∃ D', getDLL (loadDLL TC S DLL Funcs).HAC DLL = some D' ∧
        ∀ r, D.ReferenceFunc = some r → D'.ReferenceFunc = some r := by
  induction Funcs with
  | nil => intro S D hD; exact ⟨D, hD, fun _ hr => hr⟩
  | cons F Fs ih =>
    intro S D hD
    obtain ⟨D1, hD1, h1⟩ := loadDLLsFunc_ref_kept TC S DLL F D hD
    obtain ⟨D2, hD2, h2⟩ := ih _ D1 hD1
    exact ⟨D2, hD2, fun r hr => h2 r (h1 r hr)⟩

/-! ## Interface-file ingestion: lemmas -/

theorem map_name_updateDylib (Libs : List Dylib) (Name : String) (f : Dylib → Dylib)
    (hf : ∀ L, (f L).Name = L.Name) :
    (updateDylib Libs Name f).map Dylib.Name = Libs.map Dylib.Name := by
  induction Libs with
  | nil => rfl
  | cons L Ls ih =>
    by_cases h : L.Name = Name
    · simp [updateDylib, h, hf]
    · simp [updateDylib, h, ih]

theorem saveExport_libNames (S : HAState) (Lib Name : String) :
    (saveExport S Lib Name).HAC.iOSLibs.map Dylib.Name = S.HAC.iOSLibs.map Dylib.Name := by
  unfold saveExport
  cases findExport S.HAC.iOSExps Name <;>
    exact map_name_updateDylib _ _ _ (fun _ => rfl)

theorem handleSymbol_libNames (S : HAState) (Lib : String) (Sym : Symbol) :
    (handleSymbol S Lib Sym).HAC.iOSLibs.map Dylib.Name = S.HAC.iOSLibs.map Dylib.Name := by
  unfold handleSymbol
  cases Sym.Kind with
  | GlobalSymbol => exact saveExport_libNames S Lib _
  | ObjectiveCClass => rfl
  | ObjectiveCClassEHType => exact saveExport_libNames S Lib _
  | ObjectiveCInstanceVariable => exact saveExport_libNames S Lib _
  | Unrecognized Raw => rfl

theorem foldl_handleSymbol_libNames (Lib : String) (Syms : List Symbol) :
    ∀ S : HAState,
      (Syms.foldl (fun S Sym => handleSymbol S Lib Sym) S).HAC.iOSLibs.map Dylib.Name
        = S.HAC.iOSLibs.map Dylib.Name := by
  induction Syms with
  | nil => intro S; rfl
  | cons Sym Syms ih =>
    intro S
    rw [List.foldl_cons, ih, handleSymbol_libNames]

theorem any_name_iff (Libs : List Dylib) (Name : String) :
    Libs.any (fun L => decide (L.Name = Name)) = true ↔ Name ∈ Libs.map Dylib.Name := by
  simp only [List.any_eq_true, decide_eq_true_eq, List.mem_map]

/-- The library names after `HandleFile` has ingested a readable ARMv7 interface
file: the install name is added when it is new. -/
theorem HandleFile_libNames (FS : FileSystem) (S : HAState) (Path : String)
    (F : InterfaceFileBase) (hRead : FS.readFile Path = Except.ok F)
    (hArch : Architecture.armv7 ∈ F.Architectures) (hIF : F.IsInterfaceFile = true) :
    (HandleFile FS S Path).HAC.iOSLibs.map Dylib.Name
      = if F.InstallName ∈ S.HAC.iOSLibs.map Dylib.Name then S.HAC.iOSLibs.map Dylib.Name
        else S.HAC.iOSLibs.map Dylib.Name ++ [F.InstallName] := by
  have hc : F.Architectures.contains Architecture.armv7 = true := by
    simpa using hArch
  have hw : ∀ (b : Bool) (m : String), (if b then reportWarning S m else S).HAC = S.HAC := by
    intro b m; cases b <;> rfl
  simp only [HandleFile, hRead, hc, hIF, Bool.not_true, Bool.false_eq_true, if_false, hw]
  by_cases hin : F.InstallName ∈ S.HAC.iOSLibs.map Dylib.Name
  · rw [if_pos ((any_name_iff _ _).2 hin), if_pos hin, hw]
  · have hany : ¬ (S.HAC.iOSLibs.any (fun L => decide (L.Name = F.InstallName)) = true) :=
      fun h => hin ((any_name_iff _ _).1 h)
    rw [if_neg hany, if_neg hin, foldl_handleSymbol_libNames]
    simp [hw]

/-- A second readable ARMv7 interface file whose install name is already
registered leaves the context as it is. -/
theorem HandleFile_known (FS : FileSystem) (S : HAState) (Path : String)
    (F : InterfaceFileBase) (hRead : FS.readFile Path = Except.ok F)
    (hArch : Architecture.armv7 ∈ F.Architectures) (hIF : F.IsInterfaceFile = true)
    (hin : F.InstallName ∈ S.HAC.iOSLibs.map Dylib.Name) :
    (HandleFile FS S Path).HAC = S.HAC := by
  have hc : F.Architectures.contains Architecture.armv7 = true := by
    simpa using hArch
  have hw : ∀ (b : Bool) (m : String), (if b then reportWarning S m else S).HAC = S.HAC := by
    intro b m; cases b <;> rfl
  simp only [HandleFile, hRead, hc, hIF, Bool.not_true, Bool.false_eq_true, if_false, hw]
  rw [if_pos ((any_name_iff _ _).2 hin), hw]

/-! ## Wrapper generation: lemmas -/

/-- The endianness check of `generateDLL` only decides whether the trace of the
library starts with the error report. -/
theorem generateDLL_gate (LE : Target → Bool) (HAC : HAContext) (DLL : DLLEntry) :
    generateDLL LE HAC DLL
      = match generateDLL (fun _ => true) HAC DLL with
        | Except.error A => Except.error A
        | Except.ok Es =>
          Except.ok ((if LE Target.Windows32 != LE Target.Apple then
              [Emit.Report (Diag.Error "target platforms don't have the same endianness")]
            else []) ++ Es) := by
  simp only [generateDLL]
  cases h : generateDLLExports HAC DLL (DLL.ReferenceFunc.bind (findExport HAC.iOSExps))
      DLL.Exports with
  | error A => rfl
  | ok Es => simp

theorem generateDLLsFrom_gate (LE : Target → Bool) (HAC : HAContext) (DLLs : List DLLEntry) :
    (∀ A, generateDLLsFrom LE HAC DLLs = Except.error A ↔
      generateDLLsFrom (fun _ => true) HAC DLLs = Except.error A) ∧
    ((∃ Es, generateDLLsFrom LE HAC DLLs = Except.ok Es) ↔
      (∃ Es, generateDLLsFrom (fun _ => true) HAC DLLs = Except.ok Es)) := by
  induction DLLs with
  | nil => simp [generateDLLsFrom]
  | cons D Ds ih =>
    obtain ⟨ihE, ihO⟩ := ih
    simp only [generateDLLsFrom]
    rw [generateDLL_gate LE HAC D]
    cases generateDLL (fun _ => true) HAC D with
    | error A => simp
    | ok Es =>
      simp only
      cases h1 : generateDLLsFrom LE HAC Ds with
      | error A1 =>
        have h2 := (ihE A1).1 h1
        simp [h2]
      | ok Es1 =>
        obtain ⟨Es2, h2⟩ := ihO.1 ⟨Es1, h1⟩
        simp [h2]

theorem main_gate (In : Inputs) (HAC : HAContext) :
    main In HAC = main { In with IsLittleEndian := fun _ => true } HAC := by
  simp only [main, runPipeline]
  cases parseAppleHeaders In.ErrorUnimplementedFunctions In.Module { HAC := HAC } with
  | error A => rfl
  | ok S1 =>
    simp only [generateDLLs]
    obtain ⟨hE, hO⟩ := generateDLLsFrom_gate In.IsLittleEndian
      (loadDLLs In.TC In.PDB S1).HAC (allDLLEntries (loadDLLs In.TC In.PDB S1).HAC)
    cases h1 : generateDLLsFrom In.IsLittleEndian (loadDLLs In.TC In.PDB S1).HAC
        (allDLLEntries (loadDLLs In.TC In.PDB S1).HAC) with
    | error A1 =>
      rw [(hE A1).1 h1]
    | ok Es1 =>
      obtain ⟨Es2, h2⟩ := hO.1 ⟨Es1, h1⟩
      rw [h2]

/-! ## Execution: lemmas -/

theorem exec_cons_of_step (W : World) (cw : String → List Val → Machine → Option Machine)
    (I : Instr) (Is : List Instr) (F F' : Frame) (M M' : Machine)
    (h : step W cw I F M = some (F', M')) :
    exec W cw (I :: Is) F M = exec W cw Is F' M' := by
  cases I <;> first | (simp [step] at h; done) | simp only [exec, h]

theorem run_cons_of_step (W : World) (cw : String → List Val → Machine → Option Machine)
    (I : Instr) (Is : List Instr) (F F' : Frame) (M M' : Machine)
    (h : step W cw I F M = some (F', M')) :
    run W cw (I :: Is) F M = run W cw Is F' M' := by
  simp only [run, h]

theorem exec_append_of_run (W : World) (cw : String → List Val → Machine → Option Machine)
    (ys : List Instr) :
    ∀ (xs : List Instr) (F F' : Frame) (M M' : Machine),
      run W cw xs F M = some (F', M') → exec W cw (xs ++ ys) F M = exec W cw ys F' M' := by
  intro xs
  induction xs with
  | nil =>
    intro F F' M M' h
    simp only [run, Option.some.injEq, Prod.mk.injEq] at h
    obtain ⟨rfl, rfl⟩ := h
    rfl
  | cons I Is ih =>
    intro F F' M M' h
    simp only [run] at h
    cases hs : step W cw I F M with
    | none => rw [hs] at h; cases h
    | some p =>
      obtain ⟨F1, M1⟩ := p
      rw [hs] at h
      rw [List.cons_append, exec_cons_of_step W cw I _ F F1 M M1 hs]
      exact ih F1 F' M1 M' h

theorem run_append_of_run (W : World) (cw : String → List Val → Machine → Option Machine)
    (ys : List Instr) :
    ∀ (xs : List Instr) (F F' : Frame) (M M' : Machine),
      run W cw xs F M = some (F', M') → run W cw (xs ++ ys) F M = run W cw ys F' M' := by
  intro xs
  induction xs with
  | nil =>
    intro F F' M M' h
    simp only [run, Option.some.injEq, Prod.mk.injEq] at h
    obtain ⟨rfl, rfl⟩ := h
    rfl
  | cons I Is ih =>
    intro F F' M M' h
    simp only [run] at h
    cases hs : step W cw I F M with
    | none => rw [hs] at h; cases h
    | some p =>
      obtain ⟨F1, M1⟩ := p
      rw [hs] at h
      simp only [List.cons_append, run, hs]
      exact ih F1 F' M1 M' h

theorem wrapperArgLoads_succ (n : Nat) :
    wrapperArgLoads (n + 1) = wrapperArgLoads n ++
      [Instr.StructGEP ⟨"app", n⟩ (Value.Inst ⟨"sp", 0⟩) n,
       Instr.Load ⟨"ap", n⟩ (Value.Inst ⟨"app", n⟩),
       Instr.Load ⟨"a", n⟩ (Value.Inst ⟨"ap", n⟩)] := by
  simp [wrapperArgLoads, List.range_succ]

/-- The argument loads of the wrapper: when slot `i` of the structure at object
`b` holds the address of an object whose slot `0` holds `v i`, the loads leave
memory as it is and define `a0 .. a(n-1)` as `v 0 .. v (n-1)`. -/
theorem run_wrapperArgLoads (W : World) (cw : String → List Val → Machine → Option Machine)
    (v : Nat → Val) (b : Nat) (c : Nat → Nat) (M : Machine) (F : Frame)
    (hsp : F.Regs ⟨"sp", 0⟩ = some (Val.Ptr b 0)) :
    ∀ n, (∀ i, i < n → M.Mem b i = some (Val.Ptr (c i) 0)) →
      (∀ i, i < n → M.Mem (c i) 0 = some (v i)) →
      ∃ F', run W cw (wrapperArgLoads n) F M = some (F', M) ∧ F'.Args = F.Args ∧
        F'.Regs ⟨"sp", 0⟩ = some (Val.Ptr b 0) ∧
        (∀ i, i < n → F'.Regs ⟨"a", i⟩ = some (v i)) := by
  intro n
  induction n with
  | zero =>
    intro _ _
    exact ⟨F, rfl, rfl, hsp, fun i hi => absurd hi (Nat.not_lt_zero i)⟩
  | succ n ih =>
    intro hslot harg
    obtain ⟨F1, hrun, hargs, hsp1, ha⟩ :=
      ih (fun i hi => hslot i (Nat.lt_succ_of_lt hi)) (fun i hi => harg i (Nat.lt_succ_of_lt hi))
    refine ⟨((F1.set ⟨"app", n⟩ (Val.Ptr b n)).set ⟨"ap", n⟩ (Val.Ptr (c n) 0)).set
      ⟨"a", n⟩ (v n), ?_, hargs, ?_, ?_⟩
    · rw [wrapperArgLoads_succ, run_append_of_run W cw _ _ F F1 M M hrun]
      simp [run, step, eval, hsp1, Frame.set, hslot n (Nat.lt_succ_self n),
        harg n (Nat.lt_succ_self n)]
    · simp [Frame.set, hsp1]
    · intro i hi
      by_cases hin : i = n
      · subst hin; simp [Frame.set]
      · have hlt : i < n := Nat.lt_of_le_of_ne (Nat.le_of_lt_succ hi) hin
        simp [Frame.set, hin, ha i hlt]

theorem two_pow_32_int : (2 : Int) ^ 32 = 4294967296 := by norm_num

theorem two_pow_31_int : (2 : Int) ^ (32 - 1) = 2147483648 := by norm_num

theorem two_pow_32_nat : (2 : Nat) ^ 32 = 4294967296 := by norm_num

theorem getSigned32_spec (x : Int) :
    getSigned 32 x % 4294967296 = x % 4294967296 ∧ -2147483648 ≤ getSigned 32 x ∧
      getSigned 32 x < 2147483648 := by
  simp only [getSigned, two_pow_32_int, two_pow_31_int]
  split <;> omega

theorem subRVA_spec (e r : Nat) :
    ((subRVA e r : Nat) : Int) % 4294967296 = ((e : Int) - r) % 4294967296 := by
  simp only [subRVA, two_pow_32_nat]
  omega

theorem computedTarget_int (A r e : Nat) :
    ((computedTarget A r e : Nat) : Int) = ((A : Int) + ((e : Int) - (r : Int))) % 4294967296 := by
  have h1 := getSigned32_spec (subRVA e r)
  have h2 := subRVA_spec e r
  simp only [computedTarget, gepI8, two_pow_32_int]
  rw [Int.toNat_of_nonneg (Int.emod_nonneg _ (by decide))]
  generalize getSigned 32 (subRVA e r) = g at h1 ⊢
  generalize ((subRVA e r : Nat) : Int) = s at h1 h2
  omega

theorem getSigned32_exact (e r : Nat)
    (hlo : -2147483648 ≤ (e : Int) - r) (hhi : (e : Int) - r < 2147483648) :
    getSigned 32 (subRVA e r) = (e : Int) - r := by
  have h1 := getSigned32_spec (subRVA e r)
  have h2 := subRVA_spec e r
  generalize getSigned 32 (subRVA e r) = g at h1 ⊢
  generalize ((subRVA e r : Nat) : Int) = s at h1 h2
  omega

theorem evalArgs_map_a (W : World) (F : Frame) (v : Nat → Val) (l : List Nat)
    (h : ∀ i, i ∈ l → F.Regs ⟨"a", i⟩ = some (v i)) :
    evalArgs W F (l.map (fun i => Value.Inst ⟨"a", i⟩)) = some (l.map v) := by
  induction l with
  | nil => rfl
  | cons i l ih =>
    have h1 := h i (List.mem_cons_self i l)
    have h2 := ih (fun j hj => h j (List.mem_cons_of_mem i hj))
    simp only [List.map_cons, evalArgs, eval, h1, h2]

theorem evalArgs_wrapperArgs (W : World) (F : Frame) (v : Nat → Val) (n : Nat)
    (h : ∀ i, i < n → F.Regs ⟨"a", i⟩ = some (v i)) :
    evalArgs W F (wrapperArgs n) = some ((List.range n).map v) :=
  evalArgs_map_a W F v (List.range n) (fun i hi => h i (List.mem_range.1 hi))

theorem regs_set_eq (F : Frame) (R : Reg) (V : Val) : (F.set R V).Regs R = some V := by
  simp [Frame.set]

theorem regs_set_ne (F : Frame) (R R' : Reg) (V : Val) (h : R' ≠ R) :
    (F.set R V).Regs R' = F.Regs R' := by
  simp [Frame.set, h]

theorem evalArgs_set (W : World) (F : Frame) (R : Reg) (V : Val) (hR : R.Name ≠ "a")
    (l : List Nat) :
    evalArgs W (F.set R V) (l.map (fun i => Value.Inst ⟨"a", i⟩))
      = evalArgs W F (l.map (fun i => Value.Inst ⟨"a", i⟩)) := by
  induction l with
  | nil => rfl
  | cons i l ih =>
    have hne : (⟨"a", i⟩ : Reg) ≠ R := by
      intro h
      apply hR
      rw [← h]
    simp only [List.map_cons, evalArgs, eval, ih, regs_set_ne F R _ V hne]

theorem step_createCall (W : World) (cw : String → List Val → Machine → Option Machine)
    (FT : FunctionType) (Callee : Value) (Args : List Value) (F : Frame) (M : Machine)
    (A : Nat) (Xs : List Val)
    (hCallee : eval W F Callee = some (Val.Code A))
    (hArgs : evalArgs W F Args = some Xs) :
    step W cw (createCall FT Callee Args) F M
      = some (if FT.Ret = LType.VoidTy then F else F.set ⟨"r", 0⟩ (W.Impl A Xs),
              { M with Calls := M.Calls ++ [(A, Xs)] }) := by
  cases Callee with
  | Func Name Wrapper =>
    cases Wrapper with
    | true => simp [eval] at hCallee
    | false =>
      by_cases hV : FT.Ret = LType.VoidTy <;> simp [step, createCall, hArgs, hCallee, hV]
  | Arg No =>
    by_cases hV : FT.Ret = LType.VoidTy <;> simp [step, createCall, hArgs, hCallee, hV]
  | Inst R =>
    by_cases hV : FT.Ret = LType.VoidTy <;> simp [step, createCall, hArgs, hCallee, hV]
  | ConstInt Bits V => simp [eval] at hCallee

/-- The call sequence of the wrapper: with the arguments loaded, it calls the
call target once with them, and a non-void result is in `r`. -/
theorem run_wrapperCall (W : World) (cw : String → List Val → Machine → Option Machine)
    (Ref : Option ExportEntry) (Exp : ExportEntry) (FT : FunctionType) (C : List Instr)
    (F : Frame) (M : Machine) (Xs : List Val)
    (hC : wrapperCall Ref Exp FT = some C)
    (hArgs : evalArgs W F (wrapperArgs FT.Params.length) = some Xs) :
    ∃ F', run W cw C F M
        = some (F', { M with Calls := M.Calls ++ [(callTarget W Ref Exp, Xs)] }) ∧
      F'.Args = F.Args ∧
      (FT.Ret ≠ LType.VoidTy →
        F'.Regs ⟨"r", 0⟩ = some (W.Impl (callTarget W Ref Exp) Xs)) := by
  have e1 : ∀ (F : Frame) (R : Reg) (V : Val), R.Name ≠ "a" →
      evalArgs W (F.set R V) (wrapperArgs FT.Params.length)
        = evalArgs W F (wrapperArgs FT.Params.length) :=
    fun F R V hR => evalArgs_set W F R V hR _
  have fin : ∀ (G : Frame) (A : Nat), G.Args = F.Args →
      (if FT.Ret = LType.VoidTy then G else G.set ⟨"r", 0⟩ (W.Impl A Xs)).Args = F.Args ∧
      (FT.Ret ≠ LType.VoidTy →
        (if FT.Ret = LType.VoidTy then G else G.set ⟨"r", 0⟩ (W.Impl A Xs)).Regs ⟨"r", 0⟩
          = some (W.Impl A Xs)) := by
    intro G A hG
    by_cases hV : FT.Ret = LType.VoidTy
    · simp [hV, hG]
    · simp only [hV, if_false]
      exact ⟨hG, fun _ => regs_set_eq _ _ _⟩
  by_cases hO : Exp.ObjCMethod = true
  · cases Ref with
    | none => simp [wrapperCall, hO] at hC
    | some RefFunc =>
      simp only [wrapperCall, hO, if_true, Option.some.injEq] at hC
      subst hC
      have hT : callTarget W (some RefFunc) Exp
          = gepI8 (W.AddrOf RefFunc.Name) (getSigned 32 (subRVA Exp.RVA RefFunc.RVA)) := by
        simp [callTarget, hO, computedTarget]
      have hArgs3 : evalArgs W
          (((F.set ⟨"refptr", 0⟩ (Val.Code (W.AddrOf RefFunc.Name))).set ⟨"computedptr", 0⟩
            (Val.Code (callTarget W (some RefFunc) Exp))).set ⟨"fp", 0⟩
            (Val.Code (callTarget W (some RefFunc) Exp)))
          (wrapperArgs FT.Params.length) = some Xs := by
        rw [e1 _ _ _ (by decide), e1 _ _ _ (by decide), e1 _ _ _ (by decide)]
        exact hArgs
      have hstep := step_createCall W cw FT (Value.Inst ⟨"fp", 0⟩) (wrapperArgs FT.Params.length)
        _ M (callTarget W (some RefFunc) Exp) Xs
        (by simp only [eval]; exact regs_set_eq _ _ _) hArgs3
      have h1 : step W cw (Instr.BitCast ⟨"refptr", 0⟩ (Value.Func RefFunc.Name false)) F M
          = some (F.set ⟨"refptr", 0⟩ (Val.Code (W.AddrOf RefFunc.Name)), M) := rfl
      have h2 : step W cw (Instr.InBoundsGEP ⟨"computedptr", 0⟩ (Value.Inst ⟨"refptr", 0⟩)
            (Value.ConstInt 32 (getSigned 32 (subRVA Exp.RVA RefFunc.RVA))))
            (F.set ⟨"refptr", 0⟩ (Val.Code (W.AddrOf RefFunc.Name))) M
          = some ((F.set ⟨"refptr", 0⟩ (Val.Code (W.AddrOf RefFunc.Name))).set
              ⟨"computedptr", 0⟩ (Val.Code (callTarget W (some RefFunc) Exp)), M) := by
        simp only [step, eval, regs_set_eq, hT]
      have h3 : step W cw (Instr.BitCast ⟨"fp", 0⟩ (Value.Inst ⟨"computedptr", 0⟩))
            ((F.set ⟨"refptr", 0⟩ (Val.Code (W.AddrOf RefFunc.Name))).set
              ⟨"computedptr", 0⟩ (Val.Code (callTarget W (some RefFunc) Exp))) M
          = some (((F.set ⟨"refptr", 0⟩ (Val.Code (W.AddrOf RefFunc.Name))).set
              ⟨"computedptr", 0⟩ (Val.Code (callTarget W (some RefFunc) Exp))).set
              ⟨"fp", 0⟩ (Val.Code (callTarget W (some RefFunc) Exp)), M) := by
        simp only [step, eval, regs_set_eq]
      refine ⟨if FT.Ret = LType.VoidTy then
          ((F.set ⟨"refptr", 0⟩ (Val.Code (W.AddrOf RefFunc.Name))).set
            ⟨"computedptr", 0⟩ (Val.Code (callTarget W (some RefFunc) Exp))).set
            ⟨"fp", 0⟩ (Val.Code (callTarget W (some RefFunc) Exp))
        else
          (((F.set ⟨"refptr", 0⟩ (Val.Code (W.AddrOf RefFunc.Name))).set
            ⟨"computedptr", 0⟩ (Val.Code (callTarget W (some RefFunc) Exp))).set
            ⟨"fp", 0⟩ (Val.Code (callTarget W (some RefFunc) Exp))).set
            ⟨"r", 0⟩ (W.Impl (callTarget W (some RefFunc) Exp) Xs), ?_, fin _ _ rfl⟩
      rw [run_cons_of_step W cw _ _ _ _ _ _ h1, run_cons_of_step W cw _ _ _ _ _ _ h2,
        run_cons_of_step W cw _ _ _ _ _ _ h3, run_cons_of_step W cw _ _ _ _ _ _ hstep]
      rfl
  · have hO' : Exp.ObjCMethod = false := by simpa using hO
    simp only [wrapperCall, hO', Bool.false_eq_true, if_false, Option.some.injEq] at hC
    subst hC
    have hT : callTarget W Ref Exp = W.AddrOf Exp.Name := by
      simp [callTarget, hO']
    have hstep := step_createCall W cw FT (Value.Func Exp.Name false)
      (wrapperArgs FT.Params.length) F M (W.AddrOf Exp.Name) Xs rfl hArgs
    refine ⟨if FT.Ret = LType.VoidTy then F
      else F.set ⟨"r", 0⟩ (W.Impl (callTarget W Ref Exp) Xs), ?_, fin _ _ rfl⟩
    rw [run_cons_of_step W cw _ _ _ _ _ _ hstep, hT]
    rfl

/-- The wrapper run on a union whose structure slots hold the addresses of the
argument values `v 0 .. v (n-1)`: it calls the call target once with these
values, stores a non-void result in slot `0` of the union and returns. -/
theorem exec_wrapperBody (W : World) (Ref : Option ExportEntry) (Exp : ExportEntry)
    (FT : FunctionType) (Body : List Instr) (v : Nat → Val) (b : Nat) (c : Nat → Nat)
    (M : Machine)
    (hBody : wrapperBody Ref Exp FT = some Body)
    (hslot : ∀ i, i < FT.Params.length → M.Mem b i = some (Val.Ptr (c i) 0))
    (harg : ∀ i, i < FT.Params.length → M.Mem (c i) 0 = some (v i)) :
    exec W (fun _ _ _ => none) Body { Args := [Val.Ptr b 0], Regs := fun _ => none } M
      = some (none,
          if FT.Ret = LType.VoidTy then
            { M with Calls := M.Calls ++
                [(callTarget W Ref Exp, (List.range FT.Params.length).map v)] }
          else
            ({ M with Calls := M.Calls ++
                [(callTarget W Ref Exp, (List.range FT.Params.length).map v)] } : Machine).store
              b 0 (W.Impl (callTarget W Ref Exp) ((List.range FT.Params.length).map v))) := by
  cases hC : wrapperCall Ref Exp FT with
  | none => simp [wrapperBody, hC] at hBody
  | some C =>
    simp only [wrapperBody, hC, Option.map_some', Option.some.injEq] at hBody
    subst hBody
    have h0 : step W (fun _ _ _ => none) (Instr.BitCast ⟨"sp", 0⟩ (Value.Arg 0))
        { Args := [Val.Ptr b 0], Regs := fun _ => none } M
        = some ((({ Args := [Val.Ptr b 0], Regs := fun _ => none } : Frame).set ⟨"sp", 0⟩
            (Val.Ptr b 0)), M) := rfl
    obtain ⟨F2, hrun2, hargs2, -, ha2⟩ := run_wrapperArgLoads W (fun _ _ _ => none) v b c M
      (({ Args := [Val.Ptr b 0], Regs := fun _ => none } : Frame).set ⟨"sp", 0⟩ (Val.Ptr b 0))
      (regs_set_eq _ _ _) FT.Params.length hslot harg
    have hXs := evalArgs_wrapperArgs W F2 v FT.Params.length ha2
    obtain ⟨F3, hrun3, hargs3, hr3⟩ :=
      run_wrapperCall W (fun _ _ _ => none) Ref Exp FT C F2 M _ hC hXs
    have hA3 : F3.Args = [Val.Ptr b 0] := by rw [hargs3, hargs2]; rfl
    have hpre : run W (fun _ _ _ => none) (wrapperPrologue FT ++ C)
        { Args := [Val.Ptr b 0], Regs := fun _ => none } M
        = some (F3, { M with Calls := M.Calls ++
            [(callTarget W Ref Exp, (List.range FT.Params.length).map v)] }) := by
      unfold wrapperPrologue
      rw [List.cons_append, run_cons_of_step W _ _ _ _ _ _ _ h0,
        run_append_of_run W _ C _ _ _ _ _ hrun2]
      exact hrun3
    rw [exec_append_of_run W _ (wrapperEpilogue FT) _ _ _ _ _ hpre]
    by_cases hV : FT.Ret = LType.VoidTy
    · simp only [wrapperEpilogue, hV, if_true, List.nil_append, exec]
    · simp only [wrapperEpilogue, hV, if_false, List.cons_append, List.nil_append]
      have hr := hr3 hV
      have s1 : step W (fun _ _ _ => none) (Instr.BitCast ⟨"rp", 0⟩ (Value.Arg 0)) F3
          { M with Calls := M.Calls ++
            [(callTarget W Ref Exp, (List.range FT.Params.length).map v)] }
          = some (F3.set ⟨"rp", 0⟩ (Val.Ptr b 0), { M with Calls := M.Calls ++
            [(callTarget W Ref Exp, (List.range FT.Params.length).map v)] }) := by
        simp only [step, eval, hA3, List.getElem?_cons_zero]
      have s2 : step W (fun _ _ _ => none)
          (Instr.Store (Value.Inst ⟨"r", 0⟩) (Value.Inst ⟨"rp", 0⟩))
          (F3.set ⟨"rp", 0⟩ (Val.Ptr b 0))
          { M with Calls := M.Calls ++
            [(callTarget W Ref Exp, (List.range FT.Params.length).map v)] }
          = some (F3.set ⟨"rp", 0⟩ (Val.Ptr b 0),
              ({ M with Calls := M.Calls ++
                [(callTarget W Ref Exp, (List.range FT.Params.length).map v)] } : Machine).store
                b 0 (W.Impl (callTarget W Ref Exp) ((List.range FT.Params.length).map v))) := by
        have hne : (⟨"r", 0⟩ : Reg) ≠ ⟨"rp", 0⟩ := by decide
        simp only [step, eval, regs_set_eq, regs_set_ne _ _ _ _ hne, hr]
      rw [exec_cons_of_step W _ _ _ _ _ _ _ s1, exec_cons_of_step W _ _ _ _ _ _ _ s2]
      rfl

theorem stubArgStores_succ (n : Nat) :
    stubArgStores (n + 1) = stubArgStores n ++
      [Instr.Alloca ⟨"ap", n⟩,
       Instr.Store (Value.Arg n) (Value.Inst ⟨"ap", n⟩),
       Instr.StructGEP ⟨"ep", n⟩ (Value.Inst ⟨"sp", 0⟩) n,
       Instr.Store (Value.Inst ⟨"ap", n⟩) (Value.Inst ⟨"ep", n⟩)] := by
  simp [stubArgStores, List.range_succ]

/-- The argument stores of the stub, started with the union at object `b` as the
newest object: argument `i` is put into slot `0` of the new object `b + 1 + i`,
whose address is put into slot `i` of the structure. -/
theorem run_stubArgStores (W : World) (cw : String → List Val → Machine → Option Machine)
    (v : Nat → Val) (b : Nat) (F0 : Frame) (M0 : Machine)
    (hsp : F0.Regs ⟨"sp", 0⟩ = some (Val.Ptr b 0)) (hnext : M0.Next = b + 1) :
    ∀ n, (∀ i, i < n → F0.Args[i]? = some (v i)) →
      ∃ F M, run W cw (stubArgStores n) F0 M0 = some (F, M) ∧ F.Args = F0.Args ∧
        (∀ R : Reg, R.Name ≠ "ap" → R.Name ≠ "ep" → F.Regs R = F0.Regs R) ∧
        M.Next = b + 1 + n ∧ M.Calls = M0.Calls ∧
        (∀ i, i < n → M.Mem b i = some (Val.Ptr (b + 1 + i) 0)) ∧
        (∀ i, i < n → M.Mem (b + 1 + i) 0 = some (v i)) := by
  intro n
  induction n with
  | zero =>
    intro _
    exact ⟨F0, M0, rfl, rfl, fun _ _ _ => rfl, hnext, rfl,
      fun i hi => absurd hi (Nat.not_lt_zero i), fun i hi => absurd hi (Nat.not_lt_zero i)⟩
  | succ n ih =>
    intro hargs
    obtain ⟨F1, M1, hrun, hA, hR, hN, hC, hslot, hval⟩ :=
      ih (fun i hi => hargs i (Nat.lt_succ_of_lt hi))
    have hsp1 : F1.Regs ⟨"sp", 0⟩ = some (Val.Ptr b 0) := by
      rw [hR ⟨"sp", 0⟩ (by decide) (by decide)]; exact hsp
    have hargn : F1.Args[n]? = some (v n) := by
      rw [hA]; exact hargs n (Nat.lt_succ_self n)
    have ne1 : (⟨"sp", 0⟩ : Reg) ≠ ⟨"ap", n⟩ := by
      intro h; exact absurd (congrArg Reg.Name h) (show ¬ ("sp" = "ap") by decide)
    have ne2 : (⟨"ap", n⟩ : Reg) ≠ ⟨"ep", n⟩ := by
      intro h; exact absurd (congrArg Reg.Name h) (show ¬ ("ap" = "ep") by decide)
    have s1 : step W cw (Instr.Alloca ⟨"ap", n⟩) F1 M1
        = some (F1.set ⟨"ap", n⟩ (Val.Ptr M1.Next 0), { M1 with Next := M1.Next + 1 }) := rfl
    have s2 : step W cw (Instr.Store (Value.Arg n) (Value.Inst ⟨"ap", n⟩))
        (F1.set ⟨"ap", n⟩ (Val.Ptr M1.Next 0)) { M1 with Next := M1.Next + 1 }
        = some (F1.set ⟨"ap", n⟩ (Val.Ptr M1.Next 0),
            ({ M1 with Next := M1.Next + 1 } : Machine).store M1.Next 0 (v n)) := by
      have : (F1.set ⟨"ap", n⟩ (Val.Ptr M1.Next 0)).Args[n]? = some (v n) := hargn
      simp only [step, eval, this, regs_set_eq]
    have s3 : step W cw (Instr.StructGEP ⟨"ep", n⟩ (Value.Inst ⟨"sp", 0⟩) n)
        (F1.set ⟨"ap", n⟩ (Val.Ptr M1.Next 0))
        (({ M1 with Next := M1.Next + 1 } : Machine).store M1.Next 0 (v n))
        = some ((F1.set ⟨"ap", n⟩ (Val.Ptr M1.Next 0)).set ⟨"ep", n⟩ (Val.Ptr b (0 + n)),
            ({ M1 with Next := M1.Next + 1 } : Machine).store M1.Next 0 (v n)) := by
      simp only [step, eval, regs_set_ne _ _ _ _ ne1, hsp1]
    have s4 : step W cw (Instr.Store (Value.Inst ⟨"ap", n⟩) (Value.Inst ⟨"ep", n⟩))
        ((F1.set ⟨"ap", n⟩ (Val.Ptr M1.Next 0)).set ⟨"ep", n⟩ (Val.Ptr b (0 + n)))
        (({ M1 with Next := M1.Next + 1 } : Machine).store M1.Next 0 (v n))
        = some ((F1.set ⟨"ap", n⟩ (Val.Ptr M1.Next 0)).set ⟨"ep", n⟩ (Val.Ptr b (0 + n)),
            ((({ M1 with Next := M1.Next + 1 } : Machine).store M1.Next 0 (v n)).store
              b (0 + n) (Val.Ptr M1.Next 0))) := by
      simp only [step, eval, regs_set_ne _ _ _ _ ne2, regs_set_eq]
    refine ⟨(F1.set ⟨"ap", n⟩ (Val.Ptr M1.Next 0)).set ⟨"ep", n⟩ (Val.Ptr b (0 + n)),
      ((({ M1 with Next := M1.Next + 1 } : Machine).store M1.Next 0 (v n)).store
        b (0 + n) (Val.Ptr M1.Next 0)), ?_, hA, ?_, ?_, hC, ?_, ?_⟩
    · rw [stubArgStores_succ, run_append_of_run W cw _ _ _ _ _ _ hrun,
        run_cons_of_step W cw _ _ _ _ _ _ s1, run_cons_of_step W cw _ _ _ _ _ _ s2,
        run_cons_of_step W cw _ _ _ _ _ _ s3, run_cons_of_step W cw _ _ _ _ _ _ s4]
      rfl
    · intro R h1 h2
      have n1 : R ≠ ⟨"ap", n⟩ := fun h => h1 (by rw [h])
      have n2 : R ≠ ⟨"ep", n⟩ := fun h => h2 (by rw [h])
      rw [regs_set_ne _ _ _ _ n2, regs_set_ne _ _ _ _ n1]
      exact hR R h1 h2
    · simp only [Machine.store, hN]
      omega
    · intro i hi
      by_cases hin : i = n
      · subst hin; simp [Machine.store, hN]
      · have hlt : i < n := Nat.lt_of_le_of_ne (Nat.le_of_lt_succ hi) hin
        simp [Machine.store, hN, hin, hslot i hlt]
        intro h; omega
    · intro i hi
      by_cases hin : i = n
      · subst hin; simp [Machine.store, hN]
        intro h; omega
      · have hlt : i < n := Nat.lt_of_le_of_ne (Nat.le_of_lt_succ hi) hin
        simp [Machine.store, hN, hin, hval i hlt]
        intro h; omega

theorem bodyUntilEnd_map (T : Target) (Is : List Instr) (Rest : List Emit) :
    bodyUntilEnd T (Is.map (Emit.Ins T) ++ Emit.EndFunc T :: Rest) = Is := by
  induction Is with
  | nil => simp [bodyUntilEnd]
  | cons I Is ih => simp [bodyUntilEnd, ih]

/-- The body `generateDLLs` gives to the wrapper of an export is
`wrapperBody`, when the wrapper is completed. -/
theorem functionBody_generateDLLExport (DLL : DLLEntry) (Ref : Option ExportEntry)
    (Exp : ExportEntry) (FT : FunctionType) (Body : List Instr)
    (hBody : wrapperBody Ref Exp FT = some Body) :
    functionBody Target.Windows32 Exp.Name true (generateDLLExport DLL Ref Exp FT)
      = some Body := by
  cases hC : wrapperCall Ref Exp FT with
  | none => simp [wrapperBody, hC] at hBody
  | some C =>
    simp only [wrapperBody, hC, Option.map_some', Option.some.injEq] at hBody
    subst hBody
    have key : bodyUntilEnd Target.Windows32
        ((wrapperPrologue FT).map (Emit.Ins Target.Windows32)
          ++ (C.map (Emit.Ins Target.Windows32)
          ++ ((wrapperEpilogue FT).map (Emit.Ins Target.Windows32)
          ++ [Emit.EndFunc Target.Windows32])))
        = wrapperPrologue FT ++ (C ++ wrapperEpilogue FT) := by
      have := bodyUntilEnd_map Target.Windows32
        (wrapperPrologue FT ++ (C ++ wrapperEpilogue FT)) []
      simpa only [List.map_append, List.append_assoc] using this
    cases hO : Exp.ObjCMethod <;>
      simp [generateDLLExport, hC, hO, functionBody, List.append_assoc, key]

/-- The body `generateDylibs` gives to the stub of a matched export is
`stubBody`. -/
theorem functionBody_generateDylibExport (Config : LibType) (HAC : HAContext)
    (Exp : ExportEntry) (FT : FunctionType)
    (hReg : findExport HAC.iOSExps Exp.Name = some Exp)
    (hSt : Exp.Status = ExportStatus.FoundInDLL) (hTy : Exp.Ty = some FT) :
    functionBody Target.Apple Exp.Name false (generateDylibExport Config HAC Exp.Name)
      = some (stubBody Exp FT) := by
  have key := bodyUntilEnd_map Target.Apple (stubBody Exp FT) []
  simp [generateDylibExport, hReg, hSt, hTy, functionBody, key]

theorem range_map_getD (Args : List Val) (d : Val) :
    (List.range Args.length).map (fun i => Args.getD i d) = Args := by
  apply List.ext_getElem
  · simp
  · intro i h1 h2
    simp [List.getD_eq_getElem?_getD, List.getElem?_eq_getElem h2]

theorem getElem?_eq_getD (Args : List Val) (d : Val) (i : Nat) (h : i < Args.length) :
    Args[i]? = some (Args.getD i d) := by
  simp [List.getD_eq_getElem?_getD, List.getElem?_eq_getElem h]

/-- The stub of `Exp` called with `Args`, its call of the wrapper running
`Body`: the call target is called once with `Args`, and the stub returns its
result unless the return type is `void`. -/
theorem callStub_stubBody (W : World) (Ref : Option ExportEntry) (Exp : ExportEntry)
    (FT : FunctionType) (Body : List Instr) (Args : List Val) (M : Machine)
    (hBody : wrapperBody Ref Exp FT = some Body)
    (hLen : Args.length = FT.Params.length) :
    ∃ M', callStub W (fun Name => if Name = Exp.Name then some Body else none)
        (stubBody Exp FT) Args M
        = some (if FT.Ret = LType.VoidTy then none
                else some (W.Impl (callTarget W Ref Exp) Args), M') ∧
      M'.Calls = M.Calls ++ [(callTarget W Ref Exp, Args)] := by
  have hmap : (List.range FT.Params.length).map (fun i => Args.getD i (Val.Data 0)) = Args := by
    rw [← hLen]; exact range_map_getD Args (Val.Data 0)
  have t1 : step W (callWrapper W (fun Name => if Name = Exp.Name then some Body else none))
      (Instr.Alloca ⟨"s", 0⟩) { Args := Args, Regs := fun _ => none } M
      = some ((({ Args := Args, Regs := fun _ => none } : Frame).set ⟨"s", 0⟩
          (Val.Ptr M.Next 0)), { M with Next := M.Next + 1 }) := rfl
  have t2 : step W (callWrapper W (fun Name => if Name = Exp.Name then some Body else none))
      (Instr.BitCast ⟨"sp", 0⟩ (Value.Inst ⟨"s", 0⟩))
      (({ Args := Args, Regs := fun _ => none } : Frame).set ⟨"s", 0⟩ (Val.Ptr M.Next 0))
      { M with Next := M.Next + 1 }
      = some (((({ Args := Args, Regs := fun _ => none } : Frame).set ⟨"s", 0⟩
          (Val.Ptr M.Next 0)).set ⟨"sp", 0⟩ (Val.Ptr M.Next 0)),
          { M with Next := M.Next + 1 }) := by
    simp only [step, eval, regs_set_eq]
  obtain ⟨F2, M2, hrun2, hA2, hR2, -, hC2, hslot, hval⟩ :=
    run_stubArgStores W (callWrapper W (fun Name => if Name = Exp.Name then some Body else none))
      (fun i => Args.getD i (Val.Data 0)) M.Next
      ((({ Args := Args, Regs := fun _ => none } : Frame).set ⟨"s", 0⟩
        (Val.Ptr M.Next 0)).set ⟨"sp", 0⟩ (Val.Ptr M.Next 0))
      { M with Next := M.Next + 1 } (regs_set_eq _ _ _) rfl FT.Params.length
      (fun i hi => getElem?_eq_getD Args (Val.Data 0) i (by rw [hLen]; exact hi))
  have hsp2 : F2.Regs ⟨"sp", 0⟩ = some (Val.Ptr M.Next 0) := by
    rw [hR2 ⟨"sp", 0⟩ (by decide) (by decide)]; exact regs_set_eq _ _ _
  have hs2 : F2.Regs ⟨"s", 0⟩ = some (Val.Ptr M.Next 0) := by
    rw [hR2 ⟨"s", 0⟩ (by decide) (by decide),
      regs_set_ne _ _ _ _ (show (⟨"s", 0⟩ : Reg) ≠ ⟨"sp", 0⟩ by decide)]
    exact regs_set_eq _ _ _
  have t3 : step W (callWrapper W (fun Name => if Name = Exp.Name then some Body else none))
      (Instr.BitCast ⟨"vp", 0⟩ (Value.Inst ⟨"sp", 0⟩)) F2 M2
      = some (F2.set ⟨"vp", 0⟩ (Val.Ptr M.Next 0), M2) := by
    simp only [step, eval, hsp2]
  have hw := exec_wrapperBody W Ref Exp FT Body (fun i => Args.getD i (Val.Data 0)) M.Next
    (fun i => M.Next + 1 + i) M2 hBody hslot hval
  rw [hmap] at hw
  have t4 : step W (callWrapper W (fun Name => if Name = Exp.Name then some Body else none))
      (Instr.Call none (Value.Func Exp.Name true) [Value.Inst ⟨"vp", 0⟩])
      (F2.set ⟨"vp", 0⟩ (Val.Ptr M.Next 0)) M2
      = some (F2.set ⟨"vp", 0⟩ (Val.Ptr M.Next 0),
          if FT.Ret = LType.VoidTy then
            { M2 with Calls := M2.Calls ++ [(callTarget W Ref Exp, Args)] }
          else
            ({ M2 with Calls := M2.Calls ++ [(callTarget W Ref Exp, Args)] } : Machine).store
              M.Next 0 (W.Impl (callTarget W Ref Exp) Args)) := by
    simp only [step, evalArgs, eval, regs_set_eq, callWrapper, if_true, hw]
  have hpre : run W (callWrapper W (fun Name => if Name = Exp.Name then some Body else none))
      ([Instr.Alloca ⟨"s", 0⟩, Instr.BitCast ⟨"sp", 0⟩ (Value.Inst ⟨"s", 0⟩)]
        ++ stubArgStores FT.Params.length
        ++ [Instr.BitCast ⟨"vp", 0⟩ (Value.Inst ⟨"sp", 0⟩),
            Instr.Call none (Value.Func Exp.Name true) [Value.Inst ⟨"vp", 0⟩]])
      { Args := Args, Regs := fun _ => none } M
      = some (F2.set ⟨"vp", 0⟩ (Val.Ptr M.Next 0),
          if FT.Ret = LType.VoidTy then
            { M2 with Calls := M2.Calls ++ [(callTarget W Ref Exp, Args)] }
          else
            ({ M2 with Calls := M2.Calls ++ [(callTarget W Ref Exp, Args)] } : Machine).store
              M.Next 0 (W.Impl (callTarget W Ref Exp) Args)) := by
    rw [List.append_assoc, List.cons_append, List.cons_append, List.nil_append,
      run_cons_of_step W _ _ _ _ _ _ _ t1, run_cons_of_step W _ _ _ _ _ _ _ t2,
      run_append_of_run W _ _ _ _ _ _ _ hrun2, run_cons_of_step W _ _ _ _ _ _ _ t3,
      run_cons_of_step W _ _ _ _ _ _ _ t4]
    rfl
  have hCalls : M2.Calls = M.Calls := hC2
  unfold callStub stubBody
  rw [exec_append_of_run W _ _ _ _ _ _ _ hpre]
  by_cases hV : FT.Ret = LType.VoidTy
  · refine ⟨{ M2 with Calls := M2.Calls ++ [(callTarget W Ref Exp, Args)] }, ?_, ?_⟩
    · simp only [hV, if_true, ne_eq, not_true_eq_false, if_false, exec]
    · simp only [hCalls]
  · refine ⟨({ M2 with Calls := M2.Calls ++ [(callTarget W Ref Exp, Args)] } : Machine).store
        M.Next 0 (W.Impl (callTarget W Ref Exp) Args), ?_, ?_⟩
    · have hne : (⟨"s", 0⟩ : Reg) ≠ ⟨"vp", 0⟩ := by decide
      have u1 : step W (callWrapper W (fun Name => if Name = Exp.Name then some Body else none))
          (Instr.BitCast ⟨"rp", 0⟩ (Value.Inst ⟨"s", 0⟩))
          (F2.set ⟨"vp", 0⟩ (Val.Ptr M.Next 0))
          (({ M2 with Calls := M2.Calls ++ [(callTarget W Ref Exp, Args)] } : Machine).store
            M.Next 0 (W.Impl (callTarget W Ref Exp) Args))
          = some ((F2.set ⟨"vp", 0⟩ (Val.Ptr M.Next 0)).set ⟨"rp", 0⟩ (Val.Ptr M.Next 0),
              (({ M2 with Calls := M2.Calls ++ [(callTarget W Ref Exp, Args)] } : Machine).store
                M.Next 0 (W.Impl (callTarget W Ref Exp) Args))) := by
        simp only [step, eval, regs_set_ne _ _ _ _ hne, hs2]
      have u2 : step W (callWrapper W (fun Name => if Name = Exp.Name then some Body else none))
          (Instr.Load ⟨"r", 0⟩ (Value.Inst ⟨"rp", 0⟩))
          ((F2.set ⟨"vp", 0⟩ (Val.Ptr M.Next 0)).set ⟨"rp", 0⟩ (Val.Ptr M.Next 0))
          (({ M2 with Calls := M2.Calls ++ [(callTarget W Ref Exp, Args)] } : Machine).store
            M.Next 0 (W.Impl (callTarget W Ref Exp) Args))
          = some (((F2.set ⟨"vp", 0⟩ (Val.Ptr M.Next 0)).set ⟨"rp", 0⟩ (Val.Ptr M.Next 0)).set
                ⟨"r", 0⟩ (W.Impl (callTarget W Ref Exp) Args),
              (({ M2 with Calls := M2.Calls ++ [(callTarget W Ref Exp, Args)] } : Machine).store
                M.Next 0 (W.Impl (callTarget W Ref Exp) Args))) := by
        simp [step, eval, regs_set_eq, Machine.store]
      simp only [hV, if_false, ne_eq, not_false_eq_true, if_true]
      rw [exec_cons_of_step W _ _ _ _ _ _ _ u1, exec_cons_of_step W _ _ _ _ _ _ _ u2]
      simp only [exec, eval, regs_set_eq]
    · simp only [Machine.store, hCalls]

/-! ## Unimplemented-symbols report: lemmas -/

theorem msgHead_error (p a t : String) (h : 10 ≤ p.length) :
    msgHead (Diag.Error (p ++ a ++ t)) = p.data.take 10 := by
  have h' : 10 ≤ p.data.length := h
  simp only [msgHead, String.data_append, List.append_assoc]
  exact List.take_append_of_le_length h'

theorem msgHead_error_append (p a : String) (h : 10 ≤ p.length) :
    msgHead (Diag.Error (p ++ a)) = p.data.take 10 := by
  have h' : 10 ≤ p.data.length := h
  simp only [msgHead, String.data_append]
  exact List.take_append_of_le_length h'

theorem isUnimplementedHead_notInDylibReport (Name : String) :
    isUnimplementedHead (notInDylibReport Name) = true := by
  unfold isUnimplementedHead notInDylibReport
  rw [msgHead_error _ _ _ (by decide)]
  decide

theorem isUnimplementedHead_notInDLLReport (Name : String) :
    isUnimplementedHead (notInDLLReport Name) = true := by
  unfold isUnimplementedHead notInDLLReport
  rw [msgHead_error _ _ _ (by decide)]
  decide

theorem isUnimplementedHead_overloaded (Name : String) :
    isUnimplementedHead (Diag.Error ("function overloaded (" ++ Name ++ ")")) = false := by
  unfold isUnimplementedHead
  rw [msgHead_error _ _ _ (by decide)]
  decide

theorem isUnimplementedHead_signatures (Name : String) :
    isUnimplementedHead
      (Diag.Error ("functions' signatures are not equivalent (" ++ Name ++ ")")) = false := by
  unfold isUnimplementedHead
  rw [msgHead_error _ _ _ (by decide)]
  decide

theorem isUnimplementedHead_noReference (Name : String) :
    isUnimplementedHead (Diag.Error ("no reference function, cannot emit Objective-C "
      ++ "method DLL wrappers (" ++ Name ++ ")")) = false := by
  unfold isUnimplementedHead
  rw [String.append_assoc "no reference function, cannot emit Objective-C ",
    String.append_assoc "no reference function, cannot emit Objective-C ",
    msgHead_error_append _ _ (by decide)]
  decide

theorem notInDylibReport_ne_notInDLLReport (A B : String) :
    notInDylibReport A ≠ notInDLLReport B := by
  intro h
  have := congrArg msgHead h
  unfold notInDylibReport notInDLLReport at this
  rw [msgHead_error _ _ _ (by decide), msgHead_error _ _ _ (by decide)] at this
  revert this
  decide

theorem notInDylibReport_inj {A B : String} (h : notInDylibReport A = notInDylibReport B) :
    A = B := by
  unfold notInDylibReport at h
  injection h with h
  have := congrArg String.data h
  simp only [String.data_append, List.append_assoc, List.append_cancel_left_eq,
    List.append_cancel_right_eq] at this
  exact String.ext this

theorem notInDLLReport_inj {A B : String} (h : notInDLLReport A = notInDLLReport B) :
    A = B := by
  unfold notInDLLReport at h
  injection h with h
  have := congrArg String.data h
  simp only [String.data_append, List.append_assoc, List.append_cancel_left_eq,
    List.append_cancel_right_eq] at this
  exact String.ext this

/-- Lines that do not start as an unimplemented-symbol report do not count. -/
theorem count_of_heads (T : Diag) (hT : isUnimplementedHead T = true) (L : List Diag)
    (hL : ∀ D, D ∈ L → isUnimplementedHead D = false) : L.count T = 0 := by
  apply List.count_eq_zero_of_not_mem
  intro hmem
  have := hL T hmem
  rw [hT] at this
  cases this

theorem addsOtherDiags_refl (Ds : List Diag) : AddsOtherDiags Ds Ds :=
  ⟨[], by simp, fun _ h => by cases h⟩

theorem addsOtherDiags_trans {A B C : List Diag} (h1 : AddsOtherDiags A B)
    (h2 : AddsOtherDiags B C) : AddsOtherDiags A C := by
  obtain ⟨L1, rfl, hL1⟩ := h1
  obtain ⟨L2, rfl, hL2⟩ := h2
  refine ⟨L1 ++ L2, by simp, ?_⟩
  intro D hD
  rcases List.mem_append.1 hD with h | h
  · exact hL1 D h
  · exact hL2 D h

theorem addsOtherDiags_count {A B : List Diag} (h : AddsOtherDiags A B) (T : Diag)
    (hT : isUnimplementedHead T = true) : B.count T = A.count T := by
  obtain ⟨L, rfl, hL⟩ := h
  rw [List.count_append, count_of_heads T hT L hL, Nat.add_zero]

theorem analyzeAppleFunction_diags (S S' : HAState) (Func : LFunction)
    (h : analyzeAppleFunction S Func = Except.ok S') :
    AddsOtherDiags S.Diags S'.Diags ∧
    S'.HAC.iOSExps.map ExportEntry.Name = S.HAC.iOSExps.map ExportEntry.Name ∧
    S'.HAC.iOSLibs = S.HAC.iOSLibs := by
  unfold analyzeAppleFunction at h
  cases hI : isInteresting S.HAC Func.Name with
  | none =>
    simp only [hI, Except.ok.injEq] at h
    subst h
    exact ⟨addsOtherDiags_refl _, rfl, rfl⟩
  | some Exp =>
    simp only [hI] at h
    cases hSt : Exp.Status <;> simp only [hSt, reportFatalError, Except.ok.injEq] at h
    · subst h
      refine ⟨addsOtherDiags_refl _, ?_, rfl⟩
      simp only [HAState.updateExp]
      rw [map_name_updateExport, map_name_updateExport]
      all_goals exact fun _ => rfl
    · subst h
      refine ⟨⟨[_], rfl, ?_⟩, ?_, rfl⟩
      · intro D hD
        rw [List.mem_singleton.1 hD]
        exact isUnimplementedHead_overloaded _
      · simp only [reportError, HAState.updateExp]
        rw [map_name_updateExport]
        exact fun _ => rfl
    · subst h
      exact ⟨addsOtherDiags_refl _, rfl, rfl⟩
    all_goals cases h

theorem analyzeAppleFunctions_diags (Funcs : List LFunction) :
    ∀ (S S' : HAState), analyzeAppleFunctions S Funcs = Except.ok S' →
      AddsOtherDiags S.Diags S'.Diags ∧
      S'.HAC.iOSExps.map ExportEntry.Name = S.HAC.iOSExps.map ExportEntry.Name ∧
      S'.HAC.iOSLibs = S.HAC.iOSLibs := by
  induction Funcs with
  | nil =>
    intro S S' h
    simp only [analyzeAppleFunctions, Except.ok.injEq] at h
    subst h
    exact ⟨addsOtherDiags_refl _, rfl, rfl⟩
  | cons F Fs ih =>
    intro S S' h
    simp only [analyzeAppleFunctions] at h
    cases h1 : analyzeAppleFunction S F with
    | error A => rw [h1] at h; cases h
    | ok S1 =>
      rw [h1] at h
      obtain ⟨a1, b1, c1⟩ := analyzeAppleFunction_diags S S1 F h1
      obtain ⟨a2, b2, c2⟩ := ih S1 S' h
      exact ⟨addsOtherDiags_trans a1 a2, b2.trans b1, c2.trans c1⟩

theorem foldl_reportNotFound (Exps : List ExportEntry) :
    ∀ S : HAState,
      Exps.foldl (fun S Exp =>
        if Exp.Status = ExportStatus.NotFound then
          reportError S
            ("function found in TBD files wasn't found in any Dylib (" ++ Exp.Name ++ ")")
        else S) S
      = { S with Diags := S.Diags ++ notFoundReports Exps } := by
  induction Exps with
  | nil => intro S; simp [notFoundReports]
  | cons E Es ih =>
    intro S
    rw [List.foldl_cons, ih]
    by_cases h : E.Status = ExportStatus.NotFound
    · simp [notFoundReports, h, reportError, notInDylibReport]
    · simp [notFoundReports, h]

theorem reportUnimplementedFunctions_both (S : HAState) :
    reportUnimplementedFunctions LibType.Both S
      = { S with Diags := S.Diags ++ notFoundReports S.HAC.iOSExps } := by
  have h : LibType.Both.and LibType.Dylib = true := by decide
  simp only [reportUnimplementedFunctions, h, if_true]
  exact foldl_reportNotFound _ S

theorem count_notInDLLReport_notFoundReports (Exps : List ExportEntry) (Name : String) :
    (notFoundReports Exps).count (notInDLLReport Name) = 0 := by
  apply List.count_eq_zero_of_not_mem
  intro hmem
  simp only [notFoundReports, List.mem_map] at hmem
  obtain ⟨E, -, hE⟩ := hmem
  exact notInDylibReport_ne_notInDLLReport _ _ hE

theorem count_notInDylibReport_notFoundReports (Exps : List ExportEntry) (Name : String)
    (E : ExportEntry) (hnd : (Exps.map ExportEntry.Name).Nodup)
    (hE : findExport Exps Name = some E) :
    (notFoundReports Exps).count (notInDylibReport Name)
      = if E.Status = ExportStatus.NotFound then 1 else 0 := by
  induction Exps with
  | nil => simp [findExport] at hE
  | cons X Xs ih =>
    simp only [List.map_cons, List.nodup_cons] at hnd
    obtain ⟨hX, hnd'⟩ := hnd
    by_cases hn : X.Name = Name
    · have hXE : X = E := by
        simp only [findExport, List.find?_cons, hn, decide_True] at hE
        exact Option.some.inj hE
      subst hXE
      have hrest : (notFoundReports Xs).count (notInDylibReport Name) = 0 := by
        apply List.count_eq_zero_of_not_mem
        intro hmem
        simp only [notFoundReports, List.mem_map, List.mem_filter] at hmem
        obtain ⟨Y, ⟨hY, -⟩, hYn⟩ := hmem
        have := notInDylibReport_inj hYn
        apply hX
        rw [hn, ← this]
        exact List.mem_map_of_mem _ hY
      by_cases hs : X.Status = ExportStatus.NotFound
      · have e : notFoundReports (X :: Xs) = notInDylibReport X.Name :: notFoundReports Xs := by
          simp [notFoundReports, hs]
        rw [e, hn, List.count_cons_self, hrest, if_pos hs]
      · have e : notFoundReports (X :: Xs) = notFoundReports Xs := by
          simp [notFoundReports, hs]
        rw [e, hrest, if_neg hs]
    · have hE' : findExport Xs Name = some E := by
        simpa [findExport, List.find?_cons, hn] using hE
      have ih' := ih hnd' hE'
      by_cases hs : X.Status = ExportStatus.NotFound
      · have e : notFoundReports (X :: Xs) = notInDylibReport X.Name :: notFoundReports Xs := by
          simp [notFoundReports, hs]
        have hne : notInDylibReport X.Name ≠ notInDylibReport Name :=
          fun h => hn (notInDylibReport_inj h)
        rw [e, List.count_cons_of_ne hne.symm, ih']
      · have e : notFoundReports (X :: Xs) = notFoundReports Xs := by
          simp [notFoundReports, hs]
        rw [e, ih']

theorem statusStep_refl (Exps : List ExportEntry) : StatusStep Exps Exps :=
  ⟨rfl, fun _ E' h => ⟨E', h, Or.inl rfl⟩⟩

theorem statusStep_trans {A B C : List ExportEntry} (h1 : StatusStep A B)
    (h2 : StatusStep B C) : StatusStep A C := by
  refine ⟨h2.1.trans h1.1, ?_⟩
  intro Name E'' hE''
  obtain ⟨E', hE', hs2⟩ := h2.2 Name E'' hE''
  obtain ⟨E, hE, hs1⟩ := h1.2 Name E' hE'
  refine ⟨E, hE, ?_⟩
  rcases hs2 with h | ⟨ha, hb⟩
  · rcases hs1 with h' | ⟨hc, hd⟩
    · exact Or.inl (h.trans h')
    · exact Or.inr ⟨hc, h.trans hd⟩
  · rcases hs1 with h' | ⟨hc, hd⟩
    · exact Or.inr ⟨h'.symm.trans ha, hb⟩
    · rw [hd] at ha; cases ha

theorem loadDLLsFunc_facts (TC : TypeComparer) (S : HAState) (DLL : DLLPtr)
    (Func : PDBSymbolFunc) :
    AddsOtherDiags S.Diags (loadDLLsFunc TC S DLL Func).Diags ∧
    (loadDLLsFunc TC S DLL Func).HAC.iOSLibs = S.HAC.iOSLibs ∧
    StatusStep S.HAC.iOSExps (loadDLLsFunc TC S DLL Func).HAC.iOSExps := by
  by_cases h : ∀ Exp, findExport S.HAC.iOSExps Func.Name = some Exp →
      Exp.Status ≠ ExportStatus.Found
  · rw [loadDLLsFunc_skip TC S DLL Func h]
    exact ⟨addsOtherDiags_refl _, rfl, statusStep_refl _⟩
  · push_neg at h
    obtain ⟨Exp, hReg, hSt⟩ := h
    refine ⟨?_, ?_, ?_⟩
    · simp only [loadDLLsFunc, isInterestingForWindows_some hReg hSt]
      cases TC Exp.Ty Func with
      | true => exact addsOtherDiags_refl _
      | false =>
        refine ⟨[_], rfl, ?_⟩
        intro D hD
        rw [List.mem_singleton.1 hD]
        exact isUnimplementedHead_signatures _
    · simp only [loadDLLsFunc, isInterestingForWindows_some hReg hSt]
      cases TC Exp.Ty Func <;> rfl
    · rw [loadDLLsFunc_exps TC S DLL Func Exp hReg hSt]
      refine ⟨map_name_updateExport _ _ (matchedExport DLL Func) (fun _ => rfl), ?_⟩
      intro Name E' hE'
      by_cases hn : Name = Func.Name
      · subst hn
        rw [findExport_updateExport_same _ _ (matchedExport DLL Func) (fun _ => rfl),
          hReg] at hE'
        simp only [Option.map_some', Option.some.injEq] at hE'
        subst hE'
        exact ⟨Exp, hReg, Or.inr ⟨hSt, rfl⟩⟩
      · rw [findExport_updateExport_other _ _ _ (matchedExport DLL Func) (fun _ => rfl)
          hn] at hE'
        exact ⟨E', hE', Or.inl rfl⟩

theorem loadDLL_facts (TC : TypeComparer) (DLL : DLLPtr) (Funcs : List PDBSymbolFunc) :
    ∀ S : HAState,
      AddsOtherDiags S.Diags (loadDLL TC S DLL Funcs).Diags ∧
      (loadDLL TC S DLL Funcs).HAC.iOSLibs = S.HAC.iOSLibs ∧
      StatusStep S.HAC.iOSExps (loadDLL TC S DLL Funcs).HAC.iOSExps := by
  induction Funcs with
  | nil => intro S; exact ⟨addsOtherDiags_refl _, rfl, statusStep_refl _⟩
  | cons F Fs ih =>
    intro S
    obtain ⟨a1, b1, c1⟩ := loadDLLsFunc_facts TC S DLL F
    obtain ⟨a2, b2, c2⟩ := ih (loadDLLsFunc TC S DLL F)
    exact ⟨addsOtherDiags_trans a1 a2, b2.trans b1, statusStep_trans c1 c2⟩

theorem foldl_loadDLL_facts (TC : TypeComparer) (PDB : DLLPtr → List PDBSymbolFunc)
    (DLLs : List DLLPtr) :
    ∀ S : HAState,
      AddsOtherDiags S.Diags (DLLs.foldl (fun S DLL => loadDLL TC S DLL (PDB DLL)) S).Diags ∧
      (DLLs.foldl (fun S DLL => loadDLL TC S DLL (PDB DLL)) S).HAC.iOSLibs = S.HAC.iOSLibs ∧
      StatusStep S.HAC.iOSExps
        (DLLs.foldl (fun S DLL => loadDLL TC S DLL (PDB DLL)) S).HAC.iOSExps := by
  induction DLLs with
  | nil => intro S; exact ⟨addsOtherDiags_refl _, rfl, statusStep_refl _⟩
  | cons P Ps ih =>
    intro S
    obtain ⟨a1, b1, c1⟩ := loadDLL_facts TC P (PDB P) S
    obtain ⟨a2, b2, c2⟩ := ih (loadDLL TC S P (PDB P))
    exact ⟨addsOtherDiags_trans a1 a2, b2.trans b1, statusStep_trans c1 c2⟩

theorem loadDLLs_facts (TC : TypeComparer) (PDB : DLLPtr → List PDBSymbolFunc) (S : HAState) :
    AddsOtherDiags S.Diags (loadDLLs TC PDB S).Diags ∧
    (loadDLLs TC PDB S).HAC.iOSLibs = S.HAC.iOSLibs ∧
    StatusStep S.HAC.iOSExps (loadDLLs TC PDB S).HAC.iOSExps :=
  foldl_loadDLL_facts TC PDB (allDLLs S.HAC) S

theorem diagsOf_append (A B : List Emit) : diagsOf (A ++ B) = diagsOf A ++ diagsOf B := by
  simp [diagsOf, List.filterMap_append]

theorem diagsOf_map_ins (T : Target) (Is : List Instr) :
    diagsOf (Is.map (Emit.Ins T)) = [] := by
  induction Is with
  | nil => rfl
  | cons I Is ih =>
    simp only [diagsOf, List.map_cons, List.filterMap_cons] at ih ⊢
    exact ih

theorem otherOnly_append {A B : List Emit} (hA : OtherOnly A) (hB : OtherOnly B) :
    OtherOnly (A ++ B) := by
  intro D hD
  rw [diagsOf_append] at hD
  rcases List.mem_append.1 hD with h | h
  · exact hA D h
  · exact hB D h

theorem otherOnly_of_diagsOf_nil {A : List Emit} (h : diagsOf A = []) : OtherOnly A := by
  intro D hD
  rw [h] at hD
  cases hD

theorem generateDLLExport_otherOnly (DLL : DLLEntry) (Ref : Option ExportEntry)
    (Exp : ExportEntry) (FT : FunctionType) : OtherOnly (generateDLLExport DLL Ref Exp FT) := by
  unfold generateDLLExport
  refine otherOnly_append (otherOnly_append (otherOnly_append (otherOnly_append
    (otherOnly_append (otherOnly_append ?_ ?_) ?_) ?_) ?_) ?_) ?_
  · cases Exp.ObjCMethod <;> exact otherOnly_of_diagsOf_nil rfl
  · exact otherOnly_of_diagsOf_nil rfl
  · cases Exp.ObjCMethod <;> exact otherOnly_of_diagsOf_nil rfl
  · exact otherOnly_of_diagsOf_nil rfl
  · exact otherOnly_of_diagsOf_nil (diagsOf_map_ins _ _)
  · cases wrapperCall Ref Exp FT with
    | none =>
      intro D hD
      simp only [diagsOf, List.filterMap_cons, List.filterMap_nil, List.mem_singleton] at hD
      rw [hD]
      exact isUnimplementedHead_noReference _
    | some C => exact otherOnly_of_diagsOf_nil (diagsOf_map_ins _ _)
  · exact otherOnly_of_diagsOf_nil rfl

theorem generateDLLExports_otherOnly (HAC : HAContext) (DLL : DLLEntry)
    (Ref : Option ExportEntry) (Names : List String) :
    ∀ Es, generateDLLExports HAC DLL Ref Names = Except.ok Es → OtherOnly Es := by
  induction Names with
  | nil =>
    intro Es h
    simp only [generateDLLExports, Except.ok.injEq] at h
    subst h
    exact otherOnly_of_diagsOf_nil rfl
  | cons N Ns ih =>
    intro Es h
    simp only [generateDLLExports] at h
    cases hf : findExport HAC.iOSExps N with
    | none =>
      simp only [hf] at h
      exact ih Es h
    | some Exp =>
      simp only [hf] at h
      by_cases hs : Exp.Status ≠ ExportStatus.FoundInDLL
      · rw [if_pos hs] at h
        cases h
      · rw [if_neg hs] at h
        cases hty : Exp.Ty with
        | none => rw [hty] at h; cases h
        | some FT =>
          rw [hty] at h
          cases hr : generateDLLExports HAC DLL Ref Ns with
          | error A => rw [hr] at h; cases h
          | ok Es' =>
            rw [hr] at h
            simp only [Except.ok.injEq] at h
            subst h
            exact otherOnly_append (generateDLLExport_otherOnly DLL Ref Exp FT) (ih Es' hr)

theorem isUnimplementedHead_endianness :
    isUnimplementedHead (Diag.Error "target platforms don't have the same endianness")
      = false := by
  decide

theorem generateDLL_otherOnly (LE : Target → Bool) (HAC : HAContext) (DLL : DLLEntry)
    (Es : List Emit) (h : generateDLL LE HAC DLL = Except.ok Es) : OtherOnly Es := by
  simp only [generateDLL] at h
  cases hr : generateDLLExports HAC DLL (DLL.ReferenceFunc.bind (findExport HAC.iOSExps))
      DLL.Exports with
  | error A => rw [hr] at h; cases h
  | ok Es' =>
    rw [hr] at h
    simp only [Except.ok.injEq] at h
    subst h
    refine otherOnly_append (otherOnly_append (otherOnly_append ?_ ?_) ?_) ?_
    · cases (LE Target.Windows32 != LE Target.Apple) with
      | false => exact otherOnly_of_diagsOf_nil rfl
      | true =>
        intro D hD
        simp only [if_true, diagsOf, List.filterMap_cons, List.filterMap_nil,
          List.mem_singleton] at hD
        rw [hD]
        exact isUnimplementedHead_endianness
    · exact otherOnly_of_diagsOf_nil rfl
    · exact generateDLLExports_otherOnly HAC DLL _ DLL.Exports Es' hr
    · exact otherOnly_of_diagsOf_nil rfl

theorem generateDLLsFrom_otherOnly (LE : Target → Bool) (HAC : HAContext)
    (DLLs : List DLLEntry) :
    ∀ Es, generateDLLsFrom LE HAC DLLs = Except.ok Es → OtherOnly Es := by
  induction DLLs with
  | nil =>
    intro Es h
    simp only [generateDLLsFrom, Except.ok.injEq] at h
    subst h
    exact otherOnly_of_diagsOf_nil rfl
  | cons D Ds ih =>
    intro Es h
    simp only [generateDLLsFrom] at h
    cases h1 : generateDLL LE HAC D with
    | error A => rw [h1] at h; cases h
    | ok E1 =>
      rw [h1] at h
      cases h2 : generateDLLsFrom LE HAC Ds with
      | error A => rw [h2] at h; cases h
      | ok E2 =>
        rw [h2] at h
        simp only [Except.ok.injEq] at h
        subst h
        exact otherOnly_append (generateDLL_otherOnly LE HAC D E1 h1) (ih E2 h2)

theorem diagsOf_generateDylibExport (HAC : HAContext) (Name : String) :
    diagsOf (generateDylibExport LibType.Both HAC Name)
      = match findExport HAC.iOSExps Name with
        | some E => if E.Status = ExportStatus.Found then [notInDLLReport E.Name] else []
        | none => [] := by
  have hc : LibType.Both.and LibType.DLL = true := by decide
  unfold generateDylibExport
  cases hf : findExport HAC.iOSExps Name with
  | none => rfl
  | some E =>
    simp only
    by_cases hs : E.Status = ExportStatus.FoundInDLL
    · have hne : ¬ E.Status = ExportStatus.Found := by rw [hs]; decide
      rw [if_neg (not_not.2 hs), if_neg hne]
      cases E.Ty with
      | none => rfl
      | some FT =>
        simp only [diagsOf_append, diagsOf_map_ins]
        rfl
    · rw [if_pos hs]
      by_cases hF : E.Status = ExportStatus.Found
      · simp [hc, hF, diagsOf, notInDLLReport]
      · simp [hc, hF, diagsOf]

theorem diagsOf_generateDylib (HAC : HAContext) (Lib : Dylib) :
    diagsOf (generateDylib LibType.Both HAC Lib) = notInDLLReports HAC Lib.Exports := by
  unfold generateDylib
  rw [diagsOf_append]
  have h2 : diagsOf [Emit.EmitObj Target.Apple Lib.Name,
      Emit.LinkDylib Lib.Name (linkedDLLs HAC Lib.Exports)] = [] := rfl
  rw [h2, List.append_nil]
  unfold notInDLLReports
  induction Lib.Exports with
  | nil => rfl
  | cons N Ns ih =>
    rw [List.flatMap_cons, List.flatMap_cons, diagsOf_append, ih, diagsOf_generateDylibExport]

theorem diagsOf_generateDylibs (HAC : HAContext) :
    diagsOf (generateDylibs LibType.Both HAC)
      = HAC.iOSLibs.flatMap (fun L => notInDLLReports HAC L.Exports) := by
  unfold generateDylibs
  induction HAC.iOSLibs with
  | nil => rfl
  | cons L Ls ih =>
    rw [List.flatMap_cons, List.flatMap_cons, diagsOf_append, ih, diagsOf_generateDylib]

theorem count_notInDylibReport_notInDLLReports (HAC : HAContext) (Names : List String)
    (Name : String) : (notInDLLReports HAC Names).count (notInDylibReport Name) = 0 := by
  apply List.count_eq_zero_of_not_mem
  intro hmem
  simp only [notInDLLReports, List.mem_flatMap] at hmem
  obtain ⟨N, -, hN⟩ := hmem
  cases hf : findExport HAC.iOSExps N with
  | none => simp [hf] at hN
  | some E =>
    simp only [hf] at hN
    by_cases hs : E.Status = ExportStatus.Found
    · simp only [hs, if_true, List.mem_singleton] at hN
      exact notInDylibReport_ne_notInDLLReport _ _ hN
    · simp [hs] at hN

theorem count_notInDLLReport_notInDLLReports (HAC : HAContext) (Names : List String)
    (Name : String) (E : ExportEntry) (hE : findExport HAC.iOSExps Name = some E) :
    (notInDLLReports HAC Names).count (notInDLLReport Name)
      = if E.Status = ExportStatus.Found then Names.count Name else 0 := by
  induction Names with
  | nil => simp [notInDLLReports]
  | cons N Ns ih =>
    have e : notInDLLReports HAC (N :: Ns)
        = (match findExport HAC.iOSExps N with
           | some E => if E.Status = ExportStatus.Found then [notInDLLReport E.Name] else []
           | none => []) ++ notInDLLReports HAC Ns := by
      simp [notInDLLReports]
    rw [e, List.count_append, ih]
    by_cases hn : N = Name
    · subst hn
      rw [hE]
      have hname := findExport_name hE
      by_cases hs : E.Status = ExportStatus.Found
      · simp [hs, hname]
        omega
      · simp [hs]
    · have hz : (match findExport HAC.iOSExps N with
           | some E => if E.Status = ExportStatus.Found then [notInDLLReport E.Name] else []
           | none => []).count (notInDLLReport Name) = 0 := by
        cases hf : findExport HAC.iOSExps N with
        | none => simp
        | some X =>
          have hname := findExport_name hf
          by_cases hs : X.Status = ExportStatus.Found
          · simp only [hs, if_true]
            apply List.count_eq_zero_of_not_mem
            intro hmem
            rw [List.mem_singleton] at hmem
            have := notInDLLReport_inj hmem
            exact hn (hname.symm.trans this.symm)
          · simp [hs]
      rw [hz, Nat.zero_add, List.count_cons_of_ne (fun h => hn h.symm)]

theorem count_flatMap_libs (T : Diag) (f : Dylib → List Diag) (Libs : List Dylib) :
    (Libs.flatMap f).count T = (Libs.map (fun L => (f L).count T)).sum := by
  induction Libs with
  | nil => rfl
  | cons L Ls ih => simp [List.flatMap_cons, List.count_append, ih]

theorem count_generateDylibs (HAC : HAContext) (Name : String) (E : ExportEntry)
    (hE : findExport HAC.iOSExps Name = some E) :
    (diagsOf (generateDylibs LibType.Both HAC)).count (notInDylibReport Name) = 0 ∧
    (diagsOf (generateDylibs LibType.Both HAC)).count (notInDLLReport Name)
      = if E.Status = ExportStatus.Found then listings HAC Name else 0 := by
  rw [diagsOf_generateDylibs, count_flatMap_libs, count_flatMap_libs]
  constructor
  · simp [count_notInDylibReport_notInDLLReports]
  · simp only [count_notInDLLReport_notInDLLReports HAC _ Name E hE, listings]
    by_cases hs : E.Status = ExportStatus.Found
    · simp [hs]
    · simp [hs]

/-! ## Header-declaration matcher: theorems -/

/-- C1. Header-declaration matcher, first declaration: when the mangled name of
the header function is a registered export with status `NotFound`,
`analyzeAppleFunction` returns normally, the export becomes `Found` with the
function's type as its signature (its other fields are kept), every export of
another name is unchanged, the registry keeps its names, the rest of the
context is unchanged and nothing is added to the diagnostics. -/
theorem analyzeAppleFunction_notFound (S : HAState) (Func : LFunction) (Exp : ExportEntry)
    (hReg : findExport S.HAC.iOSExps Func.Name = some Exp)
    (hSt : Exp.Status = ExportStatus.NotFound) :
    ∃ S', analyzeAppleFunction S Func = Except.ok S' ∧
      findExport S'.HAC.iOSExps Func.Name
        = some { Exp with Status := ExportStatus.Found, Ty := some Func.Ty } ∧
      (∀ Other, Other ≠ Func.Name →
        findExport S'.HAC.iOSExps Other = findExport S.HAC.iOSExps Other) ∧
      S'.HAC.iOSExps.map ExportEntry.Name = S.HAC.iOSExps.map ExportEntry.Name ∧
      S'.HAC.iOSLibs = S.HAC.iOSLibs ∧ S'.HAC.iOSClasses = S.HAC.iOSClasses ∧
      S'.HAC.DLLGroups = S.HAC.DLLGroups ∧
      S'.Diags = S.Diags := by
  refine ⟨(S.updateExp Func.Name (fun E => { E with Status := ExportStatus.Found })).updateExp
      Func.Name (fun E => { E with Ty := some Func.Ty }), ?_, ?_, ?_, ?_, rfl, rfl, rfl, rfl⟩
  · simp only [analyzeAppleFunction, isInteresting, hReg, hSt]
  · simp only [HAState.updateExp]
    rw [findExport_updateExport_same, findExport_updateExport_same, hReg]
    · rfl
    all_goals exact fun _ => rfl
  · intro Other hne
    simp only [HAState.updateExp]
    rw [findExport_updateExport_other, findExport_updateExport_other]
    all_goals first | exact hne | exact fun _ => rfl
  · simp only [HAState.updateExp]
    rw [map_name_updateExport, map_name_updateExport]
    all_goals exact fun _ => rfl

/-- Witness of C1 on `sampleState` and `sampleFunc`: `_f` becomes `Found`. -/
theorem analyzeAppleFunction_notFound_witness :
    ∃ S', analyzeAppleFunction sampleState sampleFunc = Except.ok S' ∧
      findExport S'.HAC.iOSExps "_f"
        = some { Name := "_f", Status := ExportStatus.Found, Ty := some sampleFunc.Ty } ∧
      S'.Diags = [] := by
  obtain ⟨S', h1, h2, -, -, -, -, -, h3⟩ :=
    analyzeAppleFunction_notFound sampleState sampleFunc { Name := "_f" } (by decide) rfl
  exact ⟨S', h1, h2, h3⟩

/-- C2. Header-declaration matcher, collision: when the mangled name of the
header function is a registered export, then (a) if its status is `Found`,
`analyzeAppleFunction` sets the status to `Overloaded` and changes no other
field (the recorded signature is kept), appends exactly one recoverable error
to the diagnostics, returns normally (no fatal error) and leaves every export
of another name unchanged; (b) if its status is `Overloaded`, the state,
diagnostics included, is returned unchanged. -/
theorem analyzeAppleFunction_collision (S : HAState) (Func : LFunction) (Exp : ExportEntry)
    (hReg : findExport S.HAC.iOSExps Func.Name = some Exp) :
    (Exp.Status = ExportStatus.Found →
      ∃ S', analyzeAppleFunction S Func = Except.ok S' ∧
        findExport S'.HAC.iOSExps Func.Name
          = some { Exp with Status := ExportStatus.Overloaded } ∧
        (∀ E', findExport S'.HAC.iOSExps Func.Name = some E' → E'.Ty = Exp.Ty) ∧
        (∀ Other, Other ≠ Func.Name →
          findExport S'.HAC.iOSExps Other = findExport S.HAC.iOSExps Other) ∧
        S'.Diags = S.Diags ++ [Diag.Error ("function overloaded (" ++ Func.Name ++ ")")]) ∧
    (Exp.Status = ExportStatus.Overloaded → analyzeAppleFunction S Func = Except.ok S) := by
  constructor
  · intro hSt
    have hfind : findExport
        (updateExport S.HAC.iOSExps Func.Name
          (fun E => { E with Status := ExportStatus.Overloaded })) Func.Name
        = some { Exp with Status := ExportStatus.Overloaded } := by
      rw [findExport_updateExport_same, hReg]
      · rfl
      · exact fun _ => rfl
    refine ⟨reportError
        (S.updateExp Func.Name (fun E => { E with Status := ExportStatus.Overloaded }))
        ("function overloaded (" ++ Func.Name ++ ")"), ?_, hfind, ?_, ?_, rfl⟩
    · simp only [analyzeAppleFunction, isInteresting, hReg, hSt]
    · intro E' hE'
      have h2 : findExport (reportError
          (S.updateExp Func.Name (fun E => { E with Status := ExportStatus.Overloaded }))
          ("function overloaded (" ++ Func.Name ++ ")")).HAC.iOSExps Func.Name
          = some { Exp with Status := ExportStatus.Overloaded } := hfind
      rw [h2] at hE'
      cases hE'
      rfl
    · intro Other hne
      simp only [reportError, HAState.updateExp]
      rw [findExport_updateExport_other]
      · exact fun _ => rfl
      · exact hne
  · intro hSt
    simp only [analyzeAppleFunction, isInteresting, hReg, hSt]

/-- Witness of C2 on `sampleState`: a second declaration of `_g`, already
`Found`, flags it `Overloaded` with one error. -/
theorem analyzeAppleFunction_collision_witness :
    ∃ S', analyzeAppleFunction sampleState { sampleFunc with Name := "_g" } = Except.ok S' ∧
      findExport S'.HAC.iOSExps "_g"
        = some { Name := "_g", Status := ExportStatus.Overloaded } ∧
      S'.Diags = [Diag.Error "function overloaded (_g)"] := by
  obtain ⟨S', h1, h2, -, -, h3⟩ :=
    (analyzeAppleFunction_collision sampleState { sampleFunc with Name := "_g" }
      { Name := "_g", Status := ExportStatus.Found } (by decide)).1 rfl
  exact ⟨S', h1, h2, h3⟩

/-! ## Debug-symbol matcher: theorems -/

/-- C3. Debug-symbol matcher step, for a desktop library `DLL` of the context
and an enumerated function `Func`: (a) if no export is registered under the
function's name, or the registered export's status is not `Found`, the step
returns the state unchanged; (b) otherwise the export gets status `FoundInDLL`,
the function's RVA, and back-references to the library and its group (its
other fields are kept), the export's name is appended at the end of the
library's matched-export list, and the exports of other names and the other
libraries are unchanged. -/
theorem loadDLLsFunc_step (TC : TypeComparer) (S : HAState) (DLL : DLLPtr) (D : DLLEntry)
    (Func : PDBSymbolFunc) (hDLL : getDLL S.HAC DLL = some D) :
    ((∀ Exp, findExport S.HAC.iOSExps Func.Name = some Exp →
        Exp.Status ≠ ExportStatus.Found) →
      loadDLLsFunc TC S DLL Func = S) ∧
    (∀ Exp, findExport S.HAC.iOSExps Func.Name = some Exp →
      Exp.Status = ExportStatus.Found →
      findExport (loadDLLsFunc TC S DLL Func).HAC.iOSExps Func.Name
        = some { Exp with Status := ExportStatus.FoundInDLL, RVA := Func.RVA,
                          DLLGroup := some DLL.Group, DLL := some DLL } ∧
      (∃ D', getDLL (loadDLLsFunc TC S DLL Func).HAC DLL = some D' ∧
        D'.Exports = D.Exports ++ [Func.Name] ∧ D'.Name = D.Name) ∧
      (∀ Other, Other ≠ Func.Name →
        findExport (loadDLLsFunc TC S DLL Func).HAC.iOSExps Other
          = findExport S.HAC.iOSExps Other) ∧
      (∀ Q, Q ≠ DLL → getDLL (loadDLLsFunc TC S DLL Func).HAC Q = getDLL S.HAC Q)) := by
  refine ⟨loadDLLsFunc_skip TC S DLL Func, ?_⟩
  intro Exp hReg hSt
  refine ⟨?_, ?_, ?_, ?_⟩
  · rw [loadDLLsFunc_exps TC S DLL Func Exp hReg hSt, findExport_updateExport_same, hReg]
    · rfl
    · exact fun _ => rfl
  · rw [loadDLLsFunc_dll TC S DLL Func Exp hReg hSt, hDLL]
    exact ⟨_, rfl, rfl, rfl⟩
  · intro Other hne
    rw [loadDLLsFunc_exps TC S DLL Func Exp hReg hSt, findExport_updateExport_other]
    · exact fun _ => rfl
    · exact hne
  · intro Q hQ
    exact loadDLLsFunc_dll_other TC S DLL Q Func hQ

/-- Witness of C3 on `sampleDLLState`: `_f` at RVA `0x1000` is matched in
`Foundation.dll`, and `_h` (status `NotFound`) is skipped. -/
theorem loadDLLsFunc_step_witness :
    loadDLLsFunc (fun _ _ => true) sampleDLLState ⟨0, 0⟩ { Name := "_h", RVA := 0x2000 }
      = sampleDLLState ∧
    findExport (loadDLLsFunc (fun _ _ => true) sampleDLLState ⟨0, 0⟩
        { Name := "_f", RVA := 0x1000 }).HAC.iOSExps "_f"
      = some { Name := "_f", Status := ExportStatus.FoundInDLL, RVA := 0x1000,
               DLLGroup := some 0, DLL := some ⟨0, 0⟩ } :=
  ⟨(loadDLLsFunc_step (fun _ _ => true) sampleDLLState ⟨0, 0⟩ { Name := "Foundation.dll" }
      { Name := "_h", RVA := 0x2000 } rfl).1 (by decide),
   ((loadDLLsFunc_step (fun _ _ => true) sampleDLLState ⟨0, 0⟩ { Name := "Foundation.dll" }
      { Name := "_f", RVA := 0x1000 } rfl).2
      { Name := "_f", Status := ExportStatus.Found } (by decide) rfl).1⟩

/-- C4. Reference function. Let `DLL` be a desktop library whose `ReferenceFunc`
is the first entry of its matched-export list that is not an Objective-C method
(empty if there is none); a library with no matched export and no reference
function is one. After `loadDLLs` has processed any functions `Funcs` for it,
(1) its `ReferenceFunc` is again exactly the first entry of its matched-export
list that is not an Objective-C method, hence empty if there is none; (2) after
any further functions `More`, a reference function that was set is still the
same one; (3) the reference function is a registered export that is not an
Objective-C method. -/
theorem loadDLL_referenceFunc (TC : TypeComparer) (S : HAState) (DLL : DLLPtr) (D : DLLEntry)
    (Funcs More : List PDBSymbolFunc)
    (hDLL : getDLL S.HAC DLL = some D)
    (hInv : D.ReferenceFunc = firstPlainExport S.HAC.iOSExps D.Exports) :
    ∃ D1 D2, getDLL (loadDLL TC S DLL Funcs).HAC DLL = some D1 ∧
      getDLL (loadDLL TC (loadDLL TC S DLL Funcs) DLL More).HAC DLL = some D2 ∧
      D1.ReferenceFunc
        = D1.Exports.find? (fun Name =>
            match findExport (loadDLL TC S DLL Funcs).HAC.iOSExps Name with
            | some E => !E.ObjCMethod
            | none => false) ∧
      (∀ r, D1.ReferenceFunc = some r → D2.ReferenceFunc = some r) ∧
      (∀ r, D1.ReferenceFunc = some r →
        ∃ E, findExport (loadDLL TC S DLL Funcs).HAC.iOSExps r = some E ∧
          E.ObjCMethod = false) := by
  obtain ⟨D1, hD1, -⟩ := loadDLL_ref_kept TC DLL Funcs S D hDLL
  obtain ⟨D2, hD2, h12⟩ := loadDLL_ref_kept TC DLL More _ D1 hD1
  have hInv0 : RefInv S DLL := by
    intro D0 hD0
    rw [hDLL] at hD0
    cases hD0
    exact hInv
  have hInv1 := loadDLL_refInv TC DLL DLL Funcs S hInv0 D1 hD1
  refine ⟨D1, D2, hD1, hD2, hInv1, h12, ?_⟩
  intro r hr
  rw [hInv1] at hr
  have hp := List.find?_some hr
  unfold isPlainExport at hp
  cases hf : findExport (loadDLL TC S DLL Funcs).HAC.iOSExps r with
  | none => rw [hf] at hp; cases hp
  | some E =>
    rw [hf] at hp
    exact ⟨E, rfl, by simpa using hp⟩

/-- Witness of C4 on `sampleDLLState`: the Objective-C method `_m` is matched
first, then `_f`, which becomes the reference function and stays so when `_g`
is matched afterwards. -/
theorem loadDLL_referenceFunc_witness :
    ∃ D1 D2,
      getDLL (loadDLL (fun _ _ => true) sampleDLLState ⟨0, 0⟩
        [{ Name := "_m", RVA := 0x1050 }, { Name := "_f", RVA := 0x1000 }]).HAC ⟨0, 0⟩ = some D1 ∧
      getDLL (loadDLL (fun _ _ => true) (loadDLL (fun _ _ => true) sampleDLLState ⟨0, 0⟩
        [{ Name := "_m", RVA := 0x1050 }, { Name := "_f", RVA := 0x1000 }]) ⟨0, 0⟩
        [{ Name := "_g", RVA := 0x1100 }]).HAC ⟨0, 0⟩ = some D2 ∧
      D1.Exports = ["_m", "_f"] ∧ D1.ReferenceFunc = some "_f" ∧
      D2.Exports = ["_m", "_f", "_g"] ∧ D2.ReferenceFunc = some "_f" := by
  obtain ⟨D1, D2, h1, h2, -, h4, -⟩ :=
    loadDLL_referenceFunc (fun _ _ => true) sampleDLLState ⟨0, 0⟩ { Name := "Foundation.dll" }
      [{ Name := "_m", RVA := 0x1050 }, { Name := "_f", RVA := 0x1000 }]
      [{ Name := "_g", RVA := 0x1100 }] rfl rfl
  have e1 : getDLL (loadDLL (fun _ _ => true) sampleDLLState ⟨0, 0⟩
      [{ Name := "_m", RVA := 0x1050 }, { Name := "_f", RVA := 0x1000 }]).HAC ⟨0, 0⟩
      = some { Name := "Foundation.dll", Exports := ["_m", "_f"], ReferenceFunc := some "_f" } := by
    decide
  have e2 : getDLL (loadDLL (fun _ _ => true) (loadDLL (fun _ _ => true) sampleDLLState ⟨0, 0⟩
      [{ Name := "_m", RVA := 0x1050 }, { Name := "_f", RVA := 0x1000 }]) ⟨0, 0⟩
      [{ Name := "_g", RVA := 0x1100 }]).HAC ⟨0, 0⟩
      = some { Name := "Foundation.dll", Exports := ["_m", "_f", "_g"],
               ReferenceFunc := some "_f" } := by
    decide
  rw [e1] at h1
  rw [e2] at h2
  cases h1
  cases h2
  exact ⟨_, _, e1, e2, rfl, rfl, rfl, rfl⟩

/-! ## Interface-file ingestion: theorems -/

/-- C5. Idempotent library re-ingestion: for every context whose mobile
libraries have distinct install names, and every two readable ARMv7 interface
files with the same install name, `HandleFile` on the first and then on the
second leaves the context (mobile libraries with their export lists, export
registry, classes, desktop libraries) equal to the context after the first
alone, so none of the second file's exports is appended; and exactly one
mobile library has that install name. -/
theorem HandleFile_idempotent (FS : FileSystem) (S : HAState) (Path1 Path2 : String)
    (F1 F2 : InterfaceFileBase)
    (hRead1 : FS.readFile Path1 = Except.ok F1) (hRead2 : FS.readFile Path2 = Except.ok F2)
    (hArch1 : Architecture.armv7 ∈ F1.Architectures)
    (hArch2 : Architecture.armv7 ∈ F2.Architectures)
    (hIF1 : F1.IsInterfaceFile = true) (hIF2 : F2.IsInterfaceFile = true)
    (hName : F2.InstallName = F1.InstallName)
    (hSet : (S.HAC.iOSLibs.map Dylib.Name).Nodup) :
    (HandleFile FS (HandleFile FS S Path1) Path2).HAC = (HandleFile FS S Path1).HAC ∧
    ((HandleFile FS (HandleFile FS S Path1) Path2).HAC.iOSLibs.map Dylib.Name).count
      F1.InstallName = 1 := by
  have hnames := HandleFile_libNames FS S Path1 F1 hRead1 hArch1 hIF1
  have hin : F1.InstallName ∈ (HandleFile FS S Path1).HAC.iOSLibs.map Dylib.Name := by
    rw [hnames]
    by_cases h : F1.InstallName ∈ S.HAC.iOSLibs.map Dylib.Name
    · rw [if_pos h]; exact h
    · rw [if_neg h]; simp
  have hnd : ((HandleFile FS S Path1).HAC.iOSLibs.map Dylib.Name).Nodup := by
    rw [hnames]
    by_cases h : F1.InstallName ∈ S.HAC.iOSLibs.map Dylib.Name
    · rw [if_pos h]; exact hSet
    · rw [if_neg h]
      exact List.Nodup.append hSet (List.nodup_singleton _) (by simpa using h)
  have hsame := HandleFile_known FS (HandleFile FS S Path1) Path2 F2 hRead2 hArch2 hIF2
    (by rw [hName]; exact hin)
  refine ⟨hsame, ?_⟩
  rw [hsame]
  exact List.count_eq_one_of_mem hnd hin

/-- Witness of C5 on `sampleFS`: after `a.tbd` and `b.tbd` the only library is
`/usr/lib/libA.dylib` with the exports of `a.tbd`. -/
theorem HandleFile_idempotent_witness :
    (HandleFile sampleFS (HandleFile sampleFS {} "a.tbd") "b.tbd").HAC
      = (HandleFile sampleFS {} "a.tbd").HAC ∧
    (HandleFile sampleFS {} "a.tbd").HAC.iOSLibs
      = [{ Name := "/usr/lib/libA.dylib", Exports := ["_f"] }] :=
  ⟨(HandleFile_idempotent sampleFS {} "a.tbd" "b.tbd"
      { Architectures := [Architecture.armv7, Architecture.arm64],
        InstallName := "/usr/lib/libA.dylib",
        Exports := [{ Kind := SymbolKind.GlobalSymbol, Name := "_f" },
                    { Kind := SymbolKind.ObjectiveCClass, Name := "NSObject" }] }
      { Architectures := [Architecture.armv7],
        InstallName := "/usr/lib/libA.dylib",
        Exports := [{ Kind := SymbolKind.GlobalSymbol, Name := "_g" }] }
      rfl rfl (by decide) (by decide) rfl rfl rfl (by decide)).1,
   by decide⟩

/-! ## Wrapper generation: theorems -/

/-- Counterexample to C8 as stated: with targets of different byte order the
run of `sampleBigEndianInputs` on `sampleHAC` completes, `generateDLLs` declares
the wrapper of `_f` and emits its instructions, and `main` returns `0`. -/
theorem endianness_gate_counterexample :
    sampleBigEndianInputs.IsLittleEndian Target.Windows32
      ≠ sampleBigEndianInputs.IsLittleEndian Target.Apple ∧
    main sampleBigEndianInputs sampleHAC = ExitStatus.Returned 0 ∧
    ∃ O, runPipeline sampleBigEndianInputs sampleHAC = Except.ok O ∧
      Emit.Declare Target.Windows32 (some "_f") true ∈ O.Emits ∧
      Emit.Ins Target.Windows32
        (Instr.Call (some ⟨"r", 0⟩) (Value.Func "_f" false) [Value.Inst ⟨"a", 0⟩]) ∈ O.Emits := by
  refine ⟨by decide, by decide, ⟨_, rfl, ?_, ?_⟩⟩
  · decide
  · decide

/-- C8, amended. Endianness check: if the desktop and the mobile target disagree
on byte order, `generateDLLs` reports, for each desktop library, one
recoverable error before any declaration or instruction of that library, and
then makes exactly the calls it makes when the byte orders agree (it stops only
where it stops then); the check raises no fatal error, and `main` ends as it
does when the byte orders agree. -/
theorem generateDLL_endianness_mismatch (In : Inputs) (HAC HAC0 : HAContext) (DLL : DLLEntry)
    (hMismatch : In.IsLittleEndian Target.Windows32 ≠ In.IsLittleEndian Target.Apple) :
    generateDLL In.IsLittleEndian HAC DLL
      = (match generateDLL (fun _ => true) HAC DLL with
         | Except.error A => Except.error A
         | Except.ok Es =>
           Except.ok (Emit.Report (Diag.Error "target platforms don't have the same endianness")
             :: Es)) ∧
    main In HAC0 = main { In with IsLittleEndian := fun _ => true } HAC0 := by
  refine ⟨?_, main_gate In HAC0⟩
  rw [generateDLL_gate]
  have h : (In.IsLittleEndian Target.Windows32 != In.IsLittleEndian Target.Apple) = true := by
    simpa using hMismatch
  rw [h]
  rfl

/-- Witness of the amended C8 on `sampleBigEndianInputs`: the first call of
`generateDLL` for `Foundation.dll` is the error report, the declarations
follow, and `main` returns `0`. -/
theorem generateDLL_endianness_mismatch_witness :
    (∃ Es, generateDLL sampleBigEndianInputs.IsLittleEndian sampleHAC { Name := "Foundation.dll" }
        = Except.ok (Emit.Report (Diag.Error "target platforms don't have the same endianness")
            :: Emit.Declare Target.Windows32 none false :: Es)) ∧
    main sampleBigEndianInputs sampleHAC = ExitStatus.Returned 0 := by
  obtain ⟨h1, h2⟩ := generateDLL_endianness_mismatch sampleBigEndianInputs sampleHAC sampleHAC
    { Name := "Foundation.dll" } (by decide)
  refine ⟨⟨_, h1.trans rfl⟩, h2.trans (by decide)⟩

/-- C9, the code at the failing input `sampleObjCOnlyHAC`: for the Objective-C
method `_m` of a library without reference function, `generateDLLs` has already
declared the wrapper and the stub, defined the stub and emitted the first four
instructions of the wrapper when it reports the error; the wrapper is left
without a return. Generation goes on with `UIKit.dll`. -/
theorem generateDLLs_objc_without_reference :
    generateDLLs (fun _ => true) sampleObjCOnlyHAC = Except.ok
      [Emit.Declare Target.Windows32 none false,
       Emit.Declare Target.Windows32 (some "_m") true,
       Emit.Declare Target.Apple (some "_m") true,
       Emit.SetDLLStorageClass "_m" true DLLStorageClass.DLLExportStorageClass,
       Emit.DefineFunc Target.Apple "_m" true,
       Emit.Ins Target.Apple (Instr.Ret none),
       Emit.CreateParamStruct Target.Windows32 "_m",
       Emit.DefineFunc Target.Windows32 "_m" true,
       Emit.Ins Target.Windows32 (Instr.BitCast ⟨"sp", 0⟩ (Value.Arg 0)),
       Emit.Ins Target.Windows32 (Instr.StructGEP ⟨"app", 0⟩ (Value.Inst ⟨"sp", 0⟩) 0),
       Emit.Ins Target.Windows32 (Instr.Load ⟨"ap", 0⟩ (Value.Inst ⟨"app", 0⟩)),
       Emit.Ins Target.Windows32 (Instr.Load ⟨"a", 0⟩ (Value.Inst ⟨"ap", 0⟩)),
       Emit.Report (Diag.Error
         "no reference function, cannot emit Objective-C method DLL wrappers (Foundation.dll)"),
       Emit.EndFunc Target.Windows32,
       Emit.EmitObj Target.Windows32 "Foundation.dll",
       Emit.LinkDLL "Foundation.dll",
       Emit.EmitObj Target.Apple "Foundation.dll",
       Emit.LinkDylib "Foundation.dll" [],
       Emit.Declare Target.Windows32 (some "_f") false,
       Emit.Declare Target.Windows32 (some "_f") false,
       Emit.Declare Target.Windows32 (some "_f") true,
       Emit.Declare Target.Apple (some "_f") true,
       Emit.SetDLLStorageClass "_f" true DLLStorageClass.DLLExportStorageClass,
       Emit.SetDLLStorageClass "_f" false DLLStorageClass.DLLImportStorageClass,
       Emit.DefineFunc Target.Apple "_f" true,
       Emit.Ins Target.Apple (Instr.Ret none),
       Emit.CreateParamStruct Target.Windows32 "_f",
       Emit.DefineFunc Target.Windows32 "_f" true,
       Emit.Ins Target.Windows32 (Instr.BitCast ⟨"sp", 0⟩ (Value.Arg 0)),
       Emit.Ins Target.Windows32 (Instr.Call none (Value.Func "_f" false) []),
       Emit.Ins Target.Windows32 (Instr.Ret none),
       Emit.EndFunc Target.Windows32,
       Emit.EmitObj Target.Windows32 "UIKit.dll",
       Emit.LinkDLL "UIKit.dll",
       Emit.EmitObj Target.Apple "UIKit.dll",
       Emit.LinkDylib "UIKit.dll" []] := by
  rfl

/-! ## Address computation and marshalling: theorems -/

/-- C6. Dynamic-dispatch address computation. For an Objective-C method `Exp` of
a library with reference function `RefFunc`, with `r`, `e` their RVAs and `A`
the run-time address of the reference function: (1) the wrapper's call
sequence contains the `getelementptr` whose index is the constant
`getSigned(i32, e - r)`, and running it with the arguments loaded calls, once,
the address `computedTarget A r e` with these arguments; (2) that address is
`A + (e - r)` modulo `2^32`; (3) the constant is a signed 32-bit number
congruent to `e - r` modulo `2^32`, and it is `e - r` itself whenever `e - r`
fits in 32 signed bits, also when `e < r`; (4) for `r = 0x1000`,
`A = 0x90000000`, `e = 0x1050` the address is `0x90000050`. -/
theorem dynamic_dispatch_target (W : World)
    (cw : String → List Val → Machine → Option Machine) (RefFunc Exp : ExportEntry)
    (FT : FunctionType) (F : Frame) (M : Machine) (Xs : List Val)
    (hObjC : Exp.ObjCMethod = true)
    (hArgs : evalArgs W F (wrapperArgs FT.Params.length) = some Xs) :
    (∃ C F', wrapperCall (some RefFunc) Exp FT = some C ∧
      Instr.InBoundsGEP ⟨"computedptr", 0⟩ (Value.Inst ⟨"refptr", 0⟩)
        (Value.ConstInt 32 (getSigned 32 (subRVA Exp.RVA RefFunc.RVA))) ∈ C ∧
      run W cw C F M = some (F', { M with Calls := M.Calls ++
        [(computedTarget (W.AddrOf RefFunc.Name) RefFunc.RVA Exp.RVA, Xs)] })) ∧
    ((computedTarget (W.AddrOf RefFunc.Name) RefFunc.RVA Exp.RVA : Nat) : Int)
      = ((W.AddrOf RefFunc.Name : Int) + ((Exp.RVA : Int) - (RefFunc.RVA : Int))) % 2 ^ 32 ∧
    -(2 : Int) ^ 31 ≤ getSigned 32 (subRVA Exp.RVA RefFunc.RVA) ∧
    getSigned 32 (subRVA Exp.RVA RefFunc.RVA) < 2 ^ 31 ∧
    getSigned 32 (subRVA Exp.RVA RefFunc.RVA) % 2 ^ 32
      = ((Exp.RVA : Int) - (RefFunc.RVA : Int)) % 2 ^ 32 ∧
    (-(2 : Int) ^ 31 ≤ (Exp.RVA : Int) - (RefFunc.RVA : Int) →
      (Exp.RVA : Int) - (RefFunc.RVA : Int) < 2 ^ 31 →
      getSigned 32 (subRVA Exp.RVA RefFunc.RVA) = (Exp.RVA : Int) - (RefFunc.RVA : Int)) ∧
    computedTarget 0x90000000 0x1000 0x1050 = 0x90000050 := by
  have p31 : (2 : Int) ^ 31 = 2147483648 := by norm_num
  have hs := getSigned32_spec (subRVA Exp.RVA RefFunc.RVA)
  have hsub := subRVA_spec Exp.RVA RefFunc.RVA
  rw [two_pow_32_int, p31]
  refine ⟨?_, computedTarget_int _ _ _, hs.2.1, hs.2.2, hs.1.trans hsub, ?_, by decide⟩
  · have hC : wrapperCall (some RefFunc) Exp FT = some
        [Instr.BitCast ⟨"refptr", 0⟩ (Value.Func RefFunc.Name false),
         Instr.InBoundsGEP ⟨"computedptr", 0⟩ (Value.Inst ⟨"refptr", 0⟩)
           (Value.ConstInt 32 (getSigned 32 (subRVA Exp.RVA RefFunc.RVA))),
         Instr.BitCast ⟨"fp", 0⟩ (Value.Inst ⟨"computedptr", 0⟩),
         createCall FT (Value.Inst ⟨"fp", 0⟩) (wrapperArgs FT.Params.length)] := by
      simp only [wrapperCall, hObjC, if_true]
    obtain ⟨F', hrun, -, -⟩ := run_wrapperCall W cw (some RefFunc) Exp FT _ F M Xs hC hArgs
    have hT : callTarget W (some RefFunc) Exp
        = computedTarget (W.AddrOf RefFunc.Name) RefFunc.RVA Exp.RVA := by
      simp only [callTarget, hObjC, if_true]
    rw [hT] at hrun
    exact ⟨_, F', hC, List.mem_cons_of_mem _ (List.mem_cons_self _ _), hrun⟩
  · intro hlo hhi
    exact getSigned32_exact _ _ hlo hhi

/-- Witness of C6 with the numbers of the specification: reference function at
RVA `0x1000` loaded at `0x90000000`, method at RVA `0x1050`; the call goes to
`0x90000050`. -/
theorem dynamic_dispatch_target_witness :
    ∃ C F' M', wrapperCall (some { Name := "_f", RVA := 0x1000 })
        { Name := "_m", RVA := 0x1050, ObjCMethod := true }
        { Params := [LType.IntegerTy 32], Ret := LType.VoidTy } = some C ∧
      run sampleWorld (fun _ _ _ => none) C
        { Args := [], Regs := fun R => if R = ⟨"a", 0⟩ then some (Val.Data 7) else none }
        emptyMachine = some (F', M') ∧
      M'.Calls = [(0x90000050, [Val.Data 7])] := by
  obtain ⟨⟨C, F', hC, -, hrun⟩, -⟩ :=
    dynamic_dispatch_target sampleWorld (fun _ _ _ => none) { Name := "_f", RVA := 0x1000 }
      { Name := "_m", RVA := 0x1050, ObjCMethod := true }
      { Params := [LType.IntegerTy 32], Ret := LType.VoidTy }
      { Args := [], Regs := fun R => if R = ⟨"a", 0⟩ then some (Val.Data 7) else none }
      emptyMachine [Val.Data 7] rfl rfl
  exact ⟨C, F', _, hC, hrun, by decide⟩

/-- C7. Marshalling round-trip. Let `Exp` be a matched export of type `FT`
(parameters `T1..Tn`, return type `R`) whose wrapper `generateDLLs` completes
(`Body`; this excludes only an Objective-C method of a library without
reference function). Then: (1) `Body` is the body `generateDLLs` gives the
wrapper, and `stubBody Exp FT` the body `generateDylibs` gives the stub; (2)
for all argument values `Args`, one per parameter, and every machine state,
running the stub, whose call of the wrapper runs `Body` on the same union,
terminates, calls the original function (`callTarget`) exactly once, with
`Args` in declaration order, and returns the value the original returned when
`R` is not `void`, nothing otherwise; (3) on both sides slot `i` of
the structure carries the address of argument `i`: the stub stores the
address `ap i` through `getelementptr sp, i`, the wrapper loads it through
`getelementptr sp, i`; (4) when `R` is `void` the wrapper contains no store. -/
theorem marshalling_round_trip (W : World) (Config : LibType) (HAC : HAContext)
    (DLL : DLLEntry) (Ref : Option ExportEntry) (Exp : ExportEntry) (FT : FunctionType)
    (Body : List Instr) (Args : List Val) (M : Machine)
    (hReg : findExport HAC.iOSExps Exp.Name = some Exp)
    (hSt : Exp.Status = ExportStatus.FoundInDLL) (hTy : Exp.Ty = some FT)
    (hBody : wrapperBody Ref Exp FT = some Body)
    (hLen : Args.length = FT.Params.length) :
    functionBody Target.Windows32 Exp.Name true (generateDLLExport DLL Ref Exp FT)
      = some Body ∧
    functionBody Target.Apple Exp.Name false (generateDylibExport Config HAC Exp.Name)
      = some (stubBody Exp FT) ∧
    (∃ M', callStub W (fun Name => if Name = Exp.Name then some Body else none)
        (stubBody Exp FT) Args M
        = some (if FT.Ret = LType.VoidTy then none
                else some (W.Impl (callTarget W Ref Exp) Args), M') ∧
      M'.Calls = M.Calls ++ [(callTarget W Ref Exp, Args)]) ∧
    (∀ i, i < FT.Params.length →
      Instr.StructGEP ⟨"ep", i⟩ (Value.Inst ⟨"sp", 0⟩) i ∈ stubBody Exp FT ∧
      Instr.Store (Value.Inst ⟨"ap", i⟩) (Value.Inst ⟨"ep", i⟩) ∈ stubBody Exp FT ∧
      Instr.StructGEP ⟨"app", i⟩ (Value.Inst ⟨"sp", 0⟩) i ∈ Body ∧
      Instr.Load ⟨"ap", i⟩ (Value.Inst ⟨"app", i⟩) ∈ Body) ∧
    (FT.Ret = LType.VoidTy → ∀ V P, Instr.Store V P ∉ Body) := by
  refine ⟨functionBody_generateDLLExport DLL Ref Exp FT Body hBody,
    functionBody_generateDylibExport Config HAC Exp FT hReg hSt hTy,
    callStub_stubBody W Ref Exp FT Body Args M hBody hLen, ?_, ?_⟩
  · intro i hi
    cases hC : wrapperCall Ref Exp FT with
    | none => simp [wrapperBody, hC] at hBody
    | some C =>
      simp only [wrapperBody, hC, Option.map_some', Option.some.injEq] at hBody
      subst hBody
      have hr : i ∈ List.range FT.Params.length := List.mem_range.2 hi
      refine ⟨?_, ?_, ?_, ?_⟩
      · simp only [stubBody, stubArgStores, List.mem_append, List.mem_flatMap]
        exact Or.inl (Or.inl (Or.inr ⟨i, hr, by simp⟩))
      · simp only [stubBody, stubArgStores, List.mem_append, List.mem_flatMap]
        exact Or.inl (Or.inl (Or.inr ⟨i, hr, by simp⟩))
      · simp only [wrapperPrologue, wrapperArgLoads, List.mem_append, List.mem_cons,
          List.mem_flatMap]
        exact Or.inl (Or.inl (Or.inr ⟨i, hr, by simp⟩))
      · simp only [wrapperPrologue, wrapperArgLoads, List.mem_append, List.mem_cons,
          List.mem_flatMap]
        exact Or.inl (Or.inl (Or.inr ⟨i, hr, by simp⟩))
  · intro hV V P hmem
    cases hC : wrapperCall Ref Exp FT with
    | none => simp [wrapperBody, hC] at hBody
    | some C =>
      simp only [wrapperBody, hC, Option.map_some', Option.some.injEq] at hBody
      subst hBody
      cases hO : Exp.ObjCMethod with
      | false =>
        simp only [wrapperCall, hO, Bool.false_eq_true, if_false, Option.some.injEq] at hC
        subst hC
        simp [wrapperPrologue, wrapperArgLoads, wrapperEpilogue, createCall, hV] at hmem
      | true =>
        cases Ref with
        | none => simp [wrapperCall, hO] at hC
        | some RefFunc =>
          simp only [wrapperCall, hO, if_true, Option.some.injEq] at hC
          subst hC
          simp [wrapperPrologue, wrapperArgLoads, wrapperEpilogue, createCall, hV] at hmem

/-- Witness of C7: the stub of `i32 _f(i32, i8*)` called with two values calls
the original at `0x90000000` once with them and returns its result. -/
theorem marshalling_round_trip_witness :
    ∃ Body M', wrapperBody none sampleMatchedExport
        { Params := [LType.IntegerTy 32, LType.PointerTy], Ret := LType.IntegerTy 32 }
        = some Body ∧
      callStub sampleWorld (fun Name => if Name = "_f" then some Body else none)
        (stubBody sampleMatchedExport
          { Params := [LType.IntegerTy 32, LType.PointerTy], Ret := LType.IntegerTy 32 })
        [Val.Data 7, Val.Data 9] emptyMachine = some (some (Val.Data 2), M') ∧
      M'.Calls = [(0x90000000, [Val.Data 7, Val.Data 9])] := by
  obtain ⟨-, -, ⟨M', h1, h2⟩, -, -⟩ :=
    marshalling_round_trip sampleWorld LibType.Both sampleMatchedHAC { Name := "Foundation.dll" }
      none sampleMatchedExport
      { Params := [LType.IntegerTy 32, LType.PointerTy], Ret := LType.IntegerTy 32 }
      _ [Val.Data 7, Val.Data 9] emptyMachine (by decide) rfl rfl rfl rfl
  exact ⟨_, M', rfl, h1, h2⟩

/-! ## Unimplemented-symbols report: theorems -/

/-- Counterexample to C10 as stated: in the run of `sampleReportInputs` on
`sampleReportHAC`, the export `_f` ends `Found` and is reported twice, once for
each library listing it, and the export `_g` ends `Overloaded` and is not
reported as unimplemented at all. -/
theorem unimplemented_reporting_counterexample :
    ∃ O, runPipeline sampleReportInputs sampleReportHAC = Except.ok O ∧
      (findExport O.S.HAC.iOSExps "_f").map ExportEntry.Status = some ExportStatus.Found ∧
      unimplementedReports O.Diags "_f" = 2 ∧
      (findExport O.S.HAC.iOSExps "_g").map ExportEntry.Status
        = some ExportStatus.Overloaded ∧
      unimplementedReports O.Diags "_g" = 0 := by
  refine ⟨_, rfl, ?_, ?_, ?_, ?_⟩ <;> decide

/-- C10, amended. Unimplemented reporting: in every completed run of the
pipeline with reporting enabled (`ErrorUnimplementedFunctions` is `Both`) on a
registry with distinct names, an export whose final status is `NotFound` is
reported as unimplemented exactly once; an export whose final status is
`Found` is reported once for each time a mobile library lists it (exactly once
when it is listed once); an export whose final status is `Overloaded`,
`FoundInDLL` or `Generated` is not reported as unimplemented. -/
theorem unimplemented_reports (In : Inputs) (HAC : HAContext) (O : Output) (Name : String)
    (E : ExportEntry)
    (hCfg : In.ErrorUnimplementedFunctions = LibType.Both)
    (hSet : (HAC.iOSExps.map ExportEntry.Name).Nodup)
    (hRun : runPipeline In HAC = Except.ok O)
    (hE : findExport O.S.HAC.iOSExps Name = some E) :
    unimplementedReports O.Diags Name
      = match E.Status with
        | ExportStatus.NotFound => 1
        | ExportStatus.Found => listings O.S.HAC Name
        | _ => 0 := by
  simp only [runPipeline, parseAppleHeaders, hCfg] at hRun
  cases h0 : analyzeAppleFunctions { HAC := HAC } In.Module with
  | error A => simp [h0] at hRun
  | ok S0 =>
    simp only [h0] at hRun
    cases hg : generateDLLs In.IsLittleEndian
        (loadDLLs In.TC In.PDB (reportUnimplementedFunctions LibType.Both S0)).HAC with
    | error A => simp [hg] at hRun
    | ok Es =>
      simp only [hg, Except.ok.injEq] at hRun
      subst hRun
      obtain ⟨d0, n0, -⟩ := analyzeAppleFunctions_diags In.Module _ S0 h0
      have hnd : (S0.HAC.iOSExps.map ExportEntry.Name).Nodup := by rw [n0]; exact hSet
      obtain ⟨d2, -, st2⟩ := loadDLLs_facts In.TC In.PDB
        (reportUnimplementedFunctions LibType.Both S0)
      rw [reportUnimplementedFunctions_both] at d2 st2 hE hg ⊢
      obtain ⟨E0, hE0, hst⟩ := st2.2 Name E hE
      have hEs := generateDLLsFrom_otherOnly _ _ _ Es hg
      obtain ⟨c1, c2⟩ := count_generateDylibs
        (loadDLLs In.TC In.PDB
          { S0 with Diags := S0.Diags ++ notFoundReports S0.HAC.iOSExps }).HAC Name E hE
      have hT1 := isUnimplementedHead_notInDylibReport Name
      have hT2 := isUnimplementedHead_notInDLLReport Name
      have z1 : S0.Diags.count (notInDylibReport Name) = 0 := by
        rw [addsOtherDiags_count d0 _ hT1]; rfl
      have z2 : S0.Diags.count (notInDLLReport Name) = 0 := by
        rw [addsOtherDiags_count d0 _ hT2]; rfl
      have k1 := count_notInDylibReport_notFoundReports S0.HAC.iOSExps Name E0 hnd hE0
      have k2 := count_notInDLLReport_notFoundReports S0.HAC.iOSExps Name
      simp only [unimplementedReports, Output.Diags, diagsOf_append, List.count_append,
        addsOtherDiags_count d2 _ hT1, addsOtherDiags_count d2 _ hT2, count_of_heads _ hT1 _ hEs, count_of_heads _ hT2 _ hEs,
        c1, c2, z1, z2, k1, k2]
      rcases hst with h | ⟨ha, hb⟩
      · rw [← h]
        cases hs : E.Status <;> simp
      · rw [ha, hb]
        simp

/-- Witness of the amended C10 on the run of `sampleReportInputs`: `_h`, never
declared, is reported exactly once. -/
theorem unimplemented_reports_witness :
    ∃ O, runPipeline sampleReportInputs sampleReportHAC = Except.ok O ∧
      unimplementedReports O.Diags "_h" = 1 :=
  ⟨_, rfl, unimplemented_reports sampleReportInputs sampleReportHAC _ "_h" { Name := "_h" }
    rfl (by decide) rfl (by decide)⟩

/-! ## Skipped Objective-C symbols: theorems -/

/-- C13, the code at the failing input `sampleIvarFS`: for the instance variable
and for the exception type `HandleFile` leaves the switch with `break`, not
`continue`, and so goes on to "Save export" with the empty name: the registry
gets an export named by the empty string, and the library's export list gets
an entry for each of the two symbols. -/
theorem HandleFile_objc_symbols_not_skipped :
    HandleFile sampleIvarFS {} "libobjc.tbd"
      = { HAC := { iOSExps := [{ Name := "_objc_msgSend" }, { Name := "" }],
                   iOSLibs := [{ Name := "/usr/lib/libobjc.A.dylib",
                                 Exports := ["_objc_msgSend", "", ""] }] } } := by
  decide

/-! ## Strings: theorems -/

theorem compareChars_eq_zero (As Bs : List Char) : compareChars As Bs = 0 ↔ As = Bs := by
  induction As generalizing Bs with
  | nil => cases Bs <;> simp [compareChars]
  | cons A As ih =>
    cases Bs with
    | nil => simp [compareChars]
    | cons B Bs =>
      by_cases h : A = B
      · simp [compareChars, h, ih]
      · by_cases h2 : A < B <;> simp [compareChars, h, h2]

/-- The function `startsWith` never throws and tests for a prefix. -/
theorem startsWith_correct (S Prefix : String) :
    startsWith S Prefix = Except.ok (decide (Prefix.data <+: S.data)) := by
  have h0 : ¬ (0 > S.length) := Nat.not_lt_zero _
  simp only [startsWith, stdCompare, if_neg h0, List.drop_zero, compareChars_eq_zero]
  congr 1
  have hl : Prefix.length = Prefix.data.length := rfl
  rw [hl, decide_eq_decide]
  rw [List.prefix_iff_eq_take]
  exact eq_comm

/-- The function `endsWith` tests for a suffix when the suffix is not longer
than the string. -/
theorem endsWith_of_le (S Suffix : String) (hle : Suffix.length ≤ S.length)
    (hS : S.length < 2 ^ 64) :
    endsWith S Suffix = Except.ok (decide (Suffix.data <:+ S.data)) := by
  have hsub : subSize S.length Suffix.length = S.length - Suffix.length := by
    unfold subSize
    norm_num at hS ⊢
    omega
  have hpos : ¬ (S.length - Suffix.length > S.length) := by omega
  simp only [endsWith, stdCompare, hsub, if_neg hpos, compareChars_eq_zero]
  congr 1
  have hl : Suffix.length = Suffix.data.length := rfl
  have hl2 : S.length = S.data.length := rfl
  rw [decide_eq_decide]
  have htake : List.take Suffix.length (List.drop (S.length - Suffix.length) S.data)
      = List.drop (S.length - Suffix.length) S.data := by
    apply List.take_of_length_le
    rw [List.length_drop, hl2] at *
    omega
  rw [htake, hl2, hl]
  rw [List.suffix_iff_eq_drop]
  exact eq_comm

/-- The function `endsWith` throws when the suffix is longer than the string:
the position `S.length() - Suffix.length()` wraps around. -/
theorem endsWith_of_lt (S Suffix : String) (hlt : S.length < Suffix.length)
    (hS : Suffix.length < 2 ^ 64) :
    endsWith S Suffix = Except.error StdException.out_of_range := by
  have hpos : subSize S.length Suffix.length > S.length := by
    unfold subSize
    norm_num at hS ⊢
    omega
  simp only [endsWith, stdCompare, if_pos hpos]

/-- C14, the code at the failing input `S = "a"`, `Suffix = "ab"`: the position
`S.length() - Suffix.length()` wraps around to `2^64 - 1`, which is beyond the
end of `S`, and `compare` throws `std::out_of_range` instead of `endsWith`
returning false; `startsWith` on the same strings returns false. -/
theorem endsWith_longer_suffix_throws :
    subSize "a".length "ab".length = 2 ^ 64 - 1 ∧
    endsWith "a" "ab" = Except.error StdException.out_of_range ∧
    startsWith "a" "ab" = Except.ok false := by
  refine ⟨by decide, ?_, ?_⟩
  · exact endsWith_of_lt "a" "ab" (by decide) (by decide)
  · rw [startsWith_correct]
    rfl

/-! ## Status order: theorems -/

theorem statusMove_rank (A B : ExportStatus) (h : StatusMove A B) :
    A.rank ≤ B.rank ∧ (A = ExportStatus.Overloaded → B = ExportStatus.Overloaded) := by
  rcases h with rfl | h
  · exact ⟨Nat.le_refl _, id⟩
  · cases A <;> cases B <;> simp [AllowedEdge] at h <;> simp [ExportStatus.rank]

theorem forall₂_exportMove_refl (Exps : List ExportEntry) :
    List.Forall₂ ExportMove Exps Exps := by
  induction Exps with
  | nil => exact List.Forall₂.nil
  | cons E Es ih => exact List.Forall₂.cons ⟨rfl, Or.inl rfl⟩ ih

theorem forall₂_matchMove_refl (Exps : List ExportEntry) :
    List.Forall₂ MatchMove Exps Exps := by
  induction Exps with
  | nil => exact List.Forall₂.nil
  | cons E Es ih => exact List.Forall₂.cons ⟨rfl, Or.inl rfl⟩ ih

/-- Updating the export found under a name relates every export of the registry
to itself, except the one found, which is related to its update. -/
theorem forall₂_updateExport (R : ExportEntry → ExportEntry → Prop)
    (hR : ∀ E, R E E) (Name : String) (f : ExportEntry → ExportEntry) (Exp : ExportEntry)
    (hf : R Exp (f Exp)) :
    ∀ Exps : List ExportEntry, findExport Exps Name = some Exp →
      List.Forall₂ R Exps (updateExport Exps Name f) := by
  have hrefl : ∀ Exps : List ExportEntry, List.Forall₂ R Exps Exps := by
    intro Exps
    induction Exps with
    | nil => exact List.Forall₂.nil
    | cons E Es ih => exact List.Forall₂.cons (hR E) ih
  intro Exps
  induction Exps with
  | nil => intro h; simp [findExport] at h
  | cons X Xs ih =>
    intro h
    by_cases hn : X.Name = Name
    · have hX : X = Exp := by
        simp only [findExport, List.find?_cons, hn, decide_True] at h
        exact Option.some.inj h
      subst hX
      simp only [updateExport, hn, if_true]
      exact List.Forall₂.cons hf (hrefl Xs)
    · have h' : findExport Xs Name = some Exp := by
        simpa [findExport, List.find?_cons, hn] using h
      simp only [updateExport, hn, if_false]
      exact List.Forall₂.cons (hR X) (ih h')

theorem matchMove_trans {A B C : ExportEntry} (h1 : MatchMove A B) (h2 : MatchMove B C) :
    MatchMove A C := by
  obtain ⟨n1, s1⟩ := h1
  obtain ⟨n2, s2⟩ := h2
  refine ⟨n2.trans n1, ?_⟩
  rcases s2 with h | ⟨ha, hb⟩
  · rcases s1 with h' | ⟨hc, hd⟩
    · exact Or.inl (h.trans h')
    · exact Or.inr ⟨hc, h.trans hd⟩
  · rcases s1 with h' | ⟨hc, hd⟩
    · exact Or.inr ⟨h'.symm.trans ha, hb⟩
    · rw [hd] at ha; cases ha

theorem forall₂_matchMove_trans {A B C : List ExportEntry}
    (h1 : List.Forall₂ MatchMove A B) (h2 : List.Forall₂ MatchMove B C) :
    List.Forall₂ MatchMove A C := by
  induction h1 generalizing C with
  | nil => cases h2; exact List.Forall₂.nil
  | cons hab _ ih =>
    cases h2 with
    | cons hbc h2' => exact List.Forall₂.cons (matchMove_trans hab hbc) (ih h2')

theorem matchMove_exportMove {E E' : ExportEntry} (h : MatchMove E E') : ExportMove E E' := by
  obtain ⟨hn, hs⟩ := h
  refine ⟨hn, ?_⟩
  rcases hs with h | ⟨ha, hb⟩
  · exact Or.inl h.symm
  · right; rw [ha, hb]; rfl

theorem analyzeAppleFunction_exportMove (S S' : HAState) (Func : LFunction)
    (h : analyzeAppleFunction S Func = Except.ok S') :
    List.Forall₂ ExportMove S.HAC.iOSExps S'.HAC.iOSExps := by
  unfold analyzeAppleFunction at h
  cases hI : isInteresting S.HAC Func.Name with
  | none =>
    simp only [hI, Except.ok.injEq] at h
    subst h
    exact forall₂_exportMove_refl _
  | some Exp =>
    simp only [hI] at h
    have hrefl : ∀ E, ExportMove E E := fun E => ⟨rfl, Or.inl rfl⟩
    cases hSt : Exp.Status <;> simp only [hSt, reportFatalError, Except.ok.injEq] at h
    · subst h
      simp only [HAState.updateExp]
      rw [updateExport_updateExport]
      · refine forall₂_updateExport ExportMove hrefl Func.Name _ Exp ?_ _ hI
        refine ⟨rfl, Or.inr ?_⟩
        rw [hSt]; rfl
      · exact fun _ => rfl
    · subst h
      simp only [reportError, HAState.updateExp]
      refine forall₂_updateExport ExportMove hrefl Func.Name _ Exp ?_ _ hI
      refine ⟨rfl, Or.inr ?_⟩
      rw [hSt]; rfl
    · subst h
      exact forall₂_exportMove_refl _
    all_goals cases h

theorem loadDLLsFunc_matchMove (TC : TypeComparer) (S : HAState) (DLL : DLLPtr)
    (Func : PDBSymbolFunc) :
    List.Forall₂ MatchMove S.HAC.iOSExps (loadDLLsFunc TC S DLL Func).HAC.iOSExps := by
  by_cases h : ∀ Exp, findExport S.HAC.iOSExps Func.Name = some Exp →
      Exp.Status ≠ ExportStatus.Found
  · rw [loadDLLsFunc_skip TC S DLL Func h]
    exact forall₂_matchMove_refl _
  · push_neg at h
    obtain ⟨Exp, hReg, hSt⟩ := h
    rw [loadDLLsFunc_exps TC S DLL Func Exp hReg hSt]
    exact forall₂_updateExport MatchMove (fun E => ⟨rfl, Or.inl rfl⟩) Func.Name
      (matchedExport DLL Func) Exp ⟨rfl, Or.inr ⟨hSt, rfl⟩⟩ _ hReg

theorem loadDLL_matchMove (TC : TypeComparer) (DLL : DLLPtr) (Funcs : List PDBSymbolFunc) :
    ∀ S : HAState,
      List.Forall₂ MatchMove S.HAC.iOSExps (loadDLL TC S DLL Funcs).HAC.iOSExps := by
  induction Funcs with
  | nil => intro S; exact forall₂_matchMove_refl _
  | cons F Fs ih =>
    intro S
    exact forall₂_matchMove_trans (loadDLLsFunc_matchMove TC S DLL F)
      (ih (loadDLLsFunc TC S DLL F))

theorem foldl_loadDLL_matchMove (TC : TypeComparer) (PDB : DLLPtr → List PDBSymbolFunc)
    (DLLs : List DLLPtr) :
    ∀ S : HAState, List.Forall₂ MatchMove S.HAC.iOSExps
      (DLLs.foldl (fun S DLL => loadDLL TC S DLL (PDB DLL)) S).HAC.iOSExps := by
  induction DLLs with
  | nil => intro S; exact forall₂_matchMove_refl _
  | cons P Ps ih =>
    intro S
    exact forall₂_matchMove_trans (loadDLL_matchMove TC P (PDB P) S)
      (ih (loadDLL TC S P (PDB P)))

/-- C11. Status monotonicity, under the order
`NotFound < Found < Overloaded < FoundInDLL < Generated` and the allowed edges
`NotFound → Found`, `Found → Overloaded`, `Found → FoundInDLL`,
`FoundInDLL → Generated`. (1) A step of the header matcher that returns keeps
every export of the registry, position by position, with its name and with its
status unchanged or moved along one allowed edge. (2) A step that does not
return has thrown the fatal error for an export that is `FoundInDLL` or
`Generated`, before any change. (3) A step of the debug-symbol matcher, and
(4) the whole of `loadDLLs`, do the same as (1). (5) Such a move never lowers
the rank of a status and never changes the status `Overloaded`. -/
theorem status_monotonicity (TC : TypeComparer) (PDB : DLLPtr → List PDBSymbolFunc)
    (S : HAState) (Func : LFunction) (DLL : DLLPtr) (PFunc : PDBSymbolFunc) :
    (∀ S', analyzeAppleFunction S Func = Except.ok S' →
      List.Forall₂ ExportMove S.HAC.iOSExps S'.HAC.iOSExps) ∧
    (∀ A, analyzeAppleFunction S Func = Except.error A →
      ∃ Exp, findExport S.HAC.iOSExps Func.Name = some Exp ∧
        (Exp.Status = ExportStatus.FoundInDLL ∨ Exp.Status = ExportStatus.Generated)) ∧
    List.Forall₂ ExportMove S.HAC.iOSExps (loadDLLsFunc TC S DLL PFunc).HAC.iOSExps ∧
    List.Forall₂ ExportMove S.HAC.iOSExps (loadDLLs TC PDB S).HAC.iOSExps ∧
    (∀ E E', ExportMove E E' →
      E.Status.rank ≤ E'.Status.rank ∧
      (E.Status = ExportStatus.Overloaded → E'.Status = ExportStatus.Overloaded)) := by
  refine ⟨fun S' h => analyzeAppleFunction_exportMove S S' Func h, ?_, ?_, ?_, ?_⟩
  · intro A h
    unfold analyzeAppleFunction at h
    cases hI : isInteresting S.HAC Func.Name with
    | none => simp [hI] at h
    | some Exp =>
      refine ⟨Exp, hI, ?_⟩
      simp only [hI] at h
      cases hSt : Exp.Status <;> simp [hSt] at h ⊢
  · exact (loadDLLsFunc_matchMove TC S DLL PFunc).imp (fun _ _ h => matchMove_exportMove h)
  · exact (foldl_loadDLL_matchMove TC PDB (allDLLs S.HAC) S).imp
      (fun _ _ h => matchMove_exportMove h)
  · intro E E' h
    exact statusMove_rank _ _ h.2

/-- Witness of C11 on `sampleState`: the declaration of `_f` moves `_f` from
`NotFound` to `Found` and leaves `_g` as it is. -/
theorem status_monotonicity_witness :
    ∃ S', analyzeAppleFunction sampleState sampleFunc = Except.ok S' ∧
      S'.HAC.iOSExps.map ExportEntry.Status = [ExportStatus.Found, ExportStatus.Found] ∧
      List.Forall₂ ExportMove sampleState.HAC.iOSExps S'.HAC.iOSExps :=
  ⟨(sampleState.updateExp "_f" (fun E => { E with Status := ExportStatus.Found })).updateExp
      "_f" (fun E => { E with Ty := some sampleFunc.Ty }), rfl, by decide,
    (status_monotonicity (fun _ _ => true) (fun _ => []) sampleState sampleFunc ⟨0, 0⟩
      { Name := "_f", RVA := 0 }).1 _ rfl⟩

/-! ## Matched-export invariant -/

theorem getDLL_mem_allDLLEntries {HAC : HAContext} {P : DLLPtr} {D : DLLEntry}
    (h : getDLL HAC P = some D) : D ∈ allDLLEntries HAC := by
  unfold getDLL at h
  cases hG : HAC.DLLGroups[P.Group]? with
  | none => simp [hG] at h
  | some G =>
    simp only [hG] at h
    unfold allDLLEntries
    exact List.mem_flatMap.mpr ⟨G, List.getElem?_mem hG, List.getElem?_mem h⟩

theorem mem_allDLLEntries_getDLL {HAC : HAContext} {D : DLLEntry}
    (h : D ∈ allDLLEntries HAC) : ∃ P, getDLL HAC P = some D := by
  unfold allDLLEntries at h
  obtain ⟨G, hG, hD⟩ := List.mem_flatMap.mp h
  obtain ⟨g, hg⟩ := List.mem_iff_getElem?.mp hG
  obtain ⟨d, hd⟩ := List.mem_iff_getElem?.mp hD
  refine ⟨⟨g, d⟩, ?_⟩
  simp only [getDLL, hg, hd]

theorem matchedInv_updateExport (HAC : HAContext) (Name : String)
    (f : ExportEntry → ExportEntry) (Exp : ExportEntry)
    (hReg : findExport HAC.iOSExps Name = some Exp)
    (hSt : Exp.Status ≠ ExportStatus.FoundInDLL)
    (hf : ∀ E, (f E).Name = E.Name)
    (hTy : (f Exp).Status ≠ ExportStatus.NotFound → (f Exp).Ty ≠ none)
    (hInv : MatchedInv HAC) :
    MatchedInv { HAC with iOSExps := updateExport HAC.iOSExps Name f } := by
  obtain ⟨h1, h2⟩ := hInv
  refine ⟨?_, ?_⟩
  · intro P D hD
    have hD0 : getDLL HAC P = some D := hD
    obtain ⟨a, b, c⟩ := h1 P D hD0
    refine ⟨a, b, ?_⟩
    intro n hn
    obtain ⟨E, hE, hES, hEP⟩ := c n hn
    have hne : n ≠ Name := by
      intro e
      rw [e, hReg] at hE
      cases hE
      exact hSt hES
    refine ⟨E, ?_, hES, hEP⟩
    show findExport (updateExport HAC.iOSExps Name f) n = some E
    rw [findExport_updateExport_other _ _ _ _ hf hne]
    exact hE
  · intro n E hE
    have hE0 : findExport (updateExport HAC.iOSExps Name f) n = some E := hE
    by_cases hn : n = Name
    · rw [hn, findExport_updateExport_same _ _ _ hf, hReg] at hE0
      cases hE0
      exact hTy
    · rw [findExport_updateExport_other _ _ _ _ hf hn] at hE0
      exact h2 n E hE0

theorem updateExp_updateExp (S : HAState) (Name : String)
    (f g : ExportEntry → ExportEntry) (hf : ∀ E, (f E).Name = E.Name) :
    (S.updateExp Name f).updateExp Name g = S.updateExp Name (fun E => g (f E)) := by
  simp only [HAState.updateExp]
  rw [updateExport_updateExport _ _ f g hf]

theorem matchedInv_updateExp (S : HAState) (Name : String)
    (f : ExportEntry → ExportEntry) (Exp : ExportEntry)
    (hReg : findExport S.HAC.iOSExps Name = some Exp)
    (hSt : Exp.Status ≠ ExportStatus.FoundInDLL)
    (hf : ∀ E, (f E).Name = E.Name)
    (hTy : (f Exp).Status ≠ ExportStatus.NotFound → (f Exp).Ty ≠ none)
    (hInv : MatchedInv S.HAC) :
    MatchedInv (S.updateExp Name f).HAC :=
  matchedInv_updateExport S.HAC Name f Exp hReg hSt hf hTy hInv

theorem headerPhase_updateExp (S : HAState) (Name : String)
    (f : ExportEntry → ExportEntry) (hf : ∀ E, (f E).Name = E.Name)
    (hfs : ∀ E, (f E).Status = ExportStatus.NotFound ∨ (f E).Status = ExportStatus.Found ∨
      (f E).Status = ExportStatus.Overloaded)
    (hPh : HeaderPhase S.HAC) :
    HeaderPhase (S.updateExp Name f).HAC := by
  intro n E hE
  have hE0 : findExport (updateExport S.HAC.iOSExps Name f) n = some E := hE
  by_cases hn : n = Name
  · rw [hn, findExport_updateExport_same _ _ _ hf] at hE0
    cases hX : findExport S.HAC.iOSExps Name with
    | none => rw [hX] at hE0; cases hE0
    | some X =>
      rw [hX] at hE0
      cases hE0
      exact hfs X
  · rw [findExport_updateExport_other _ _ _ _ hf hn] at hE0
    exact hPh n E hE0

theorem analyzeAppleFunction_matchedInv (S S' : HAState) (Func : LFunction)
    (h : analyzeAppleFunction S Func = Except.ok S') (hInv : MatchedInv S.HAC) :
    MatchedInv S'.HAC := by
  unfold analyzeAppleFunction at h
  cases hI : isInteresting S.HAC Func.Name with
  | none =>
    simp only [hI] at h
    cases h
    exact hInv
  | some Exp =>
    simp only [hI] at h
    have hReg : findExport S.HAC.iOSExps Func.Name = some Exp := hI
    cases hSt : Exp.Status with
    | NotFound =>
      simp only [hSt] at h
      cases h
      rw [updateExp_updateExp]
      · refine matchedInv_updateExp S Func.Name _ Exp hReg ?_ (fun _ => rfl) ?_ hInv
        · rw [hSt]; decide
        · intro _ e; cases e
      · exact fun _ => rfl
    | Found =>
      simp only [hSt] at h
      cases h
      refine matchedInv_updateExp S Func.Name _ Exp hReg ?_ (fun _ => rfl) ?_ hInv
      · rw [hSt]; decide
      · intro _
        exact hInv.2 Func.Name Exp hReg (by rw [hSt]; decide)
    | Overloaded =>
      simp only [hSt] at h
      cases h
      exact hInv
    | FoundInDLL => simp [hSt, reportFatalError] at h
    | Generated => simp [hSt, reportFatalError] at h

theorem analyzeAppleFunction_headerPhase (S : HAState) (Func : LFunction)
    (hPh : HeaderPhase S.HAC) :
    ∃ S', analyzeAppleFunction S Func = Except.ok S' ∧ HeaderPhase S'.HAC := by
  cases hI : isInteresting S.HAC Func.Name with
  | none =>
    refine ⟨S, ?_, hPh⟩
    simp only [analyzeAppleFunction, hI]
  | some Exp =>
    have hReg : findExport S.HAC.iOSExps Func.Name = some Exp := hI
    cases hSt : Exp.Status with
    | NotFound =>
      refine ⟨(S.updateExp Func.Name (fun E => { E with Status := ExportStatus.Found })).updateExp
        Func.Name (fun E => { E with Ty := some Func.Ty }), ?_, ?_⟩
      · simp only [analyzeAppleFunction, hI, hSt]
      · rw [updateExp_updateExp]
        · exact headerPhase_updateExp S _ _ (fun _ => rfl) (fun _ => Or.inr (Or.inl rfl)) hPh
        · exact fun _ => rfl
    | Found =>
      refine ⟨reportError
        (S.updateExp Func.Name (fun E => { E with Status := ExportStatus.Overloaded }))
        ("function overloaded (" ++ Func.Name ++ ")"), ?_, ?_⟩
      · simp only [analyzeAppleFunction, hI, hSt]
      · exact headerPhase_updateExp S _ _ (fun _ => rfl) (fun _ => Or.inr (Or.inr rfl)) hPh
    | Overloaded =>
      refine ⟨S, ?_, hPh⟩
      simp only [analyzeAppleFunction, hI, hSt]
    | FoundInDLL =>
      rcases hPh _ _ hReg with e | e | e <;> rw [hSt] at e <;> cases e
    | Generated =>
      rcases hPh _ _ hReg with e | e | e <;> rw [hSt] at e <;> cases e

theorem analyzeAppleFunctions_matchedInv (Funcs : List LFunction) :
    ∀ S : HAState, HeaderPhase S.HAC → MatchedInv S.HAC →
      ∃ S', analyzeAppleFunctions S Funcs = Except.ok S' ∧ MatchedInv S'.HAC := by
  induction Funcs with
  | nil => intro S _ hInv; exact ⟨S, rfl, hInv⟩
  | cons F Fs ih =>
    intro S hPh hInv
    obtain ⟨S1, h1, hPh1⟩ := analyzeAppleFunction_headerPhase S F hPh
    have hInv1 := analyzeAppleFunction_matchedInv S S1 F h1 hInv
    obtain ⟨S', h', hInv'⟩ := ih S1 hPh1 hInv1
    refine ⟨S', ?_, hInv'⟩
    simp only [analyzeAppleFunctions, h1]
    exact h'

theorem reportUnimplementedFunctions_HAC (Config : LibType) (S : HAState) :
    (reportUnimplementedFunctions Config S).HAC = S.HAC := by
  unfold reportUnimplementedFunctions
  by_cases h : Config.and LibType.Dylib = true
  · rw [if_pos h, foldl_reportNotFound]
  · rw [if_neg h]

theorem loadDLLsFunc_matchedInv (TC : TypeComparer) (S : HAState) (DLL : DLLPtr)
    (Func : PDBSymbolFunc) (hInv : MatchedInv S.HAC) :
    MatchedInv (loadDLLsFunc TC S DLL Func).HAC := by
  by_cases hm : ∃ Exp, findExport S.HAC.iOSExps Func.Name = some Exp ∧
      Exp.Status = ExportStatus.Found
  · obtain ⟨Exp, hReg, hSt⟩ := hm
    have hexps := loadDLLsFunc_exps TC S DLL Func Exp hReg hSt
    have hdll := loadDLLsFunc_dll TC S DLL Func Exp hReg hSt
    have hother : ∀ Q, Q ≠ DLL → getDLL (loadDLLsFunc TC S DLL Func).HAC Q = getDLL S.HAC Q :=
      fun Q hQ => loadDLLsFunc_dll_other TC S DLL Q Func hQ
    have hfn : ∀ E, (matchedExport DLL Func E).Name = E.Name := fun _ => rfl
    obtain ⟨h1, h2⟩ := hInv
    have hK : ∀ P D, getDLL S.HAC P = some D → Func.Name ∉ D.Exports := by
      intro P D hD hn
      obtain ⟨E, hE, hES, -⟩ := (h1 P D hD).2.2 Func.Name hn
      rw [hReg] at hE
      cases hE
      rw [hSt] at hES
      cases hES
    have hkeep : ∀ P D n, getDLL S.HAC P = some D → n ∈ D.Exports →
        ∃ E, findExport (loadDLLsFunc TC S DLL Func).HAC.iOSExps n = some E ∧
          E.Status = ExportStatus.FoundInDLL ∧ E.DLL = some P := by
      intro P D n hD hn
      obtain ⟨E, hE, hES, hEP⟩ := (h1 P D hD).2.2 n hn
      have hne : n ≠ Func.Name := fun e => hK P D hD (e ▸ hn)
      refine ⟨E, ?_, hES, hEP⟩
      rw [hexps, findExport_updateExport_other _ _ _ _ hfn hne]
      exact hE
    have hnew : findExport (loadDLLsFunc TC S DLL Func).HAC.iOSExps Func.Name
        = some (matchedExport DLL Func Exp) := by
      rw [hexps, findExport_updateExport_same _ _ _ hfn, hReg]
      rfl
    refine ⟨?_, ?_⟩
    · intro P D' hD'
      by_cases hP : P = DLL
      · subst hP
        rw [hdll] at hD'
        cases hD : getDLL S.HAC P with
        | none => rw [hD] at hD'; cases hD'
        | some D =>
          rw [hD] at hD'
          simp only [Option.map_some', Option.some.injEq] at hD'
          subst hD'
          obtain ⟨a, b, -⟩ := h1 P D hD
          refine ⟨?_, ?_, ?_⟩
          · show (D.Exports ++ [Func.Name]).Nodup
            exact List.Nodup.append a (List.nodup_singleton _)
              (by simpa using hK P D hD)
          · intro r hr
            show r ∈ D.Exports ++ [Func.Name]
            have hr0 : (if D.ReferenceFunc.isNone && !Exp.ObjCMethod then some Func.Name
                else D.ReferenceFunc) = some r := hr
            by_cases hc : (D.ReferenceFunc.isNone && !Exp.ObjCMethod) = true
            · rw [if_pos hc] at hr0
              cases hr0
              simp
            · rw [if_neg hc] at hr0
              exact List.mem_append_left _ (b r hr0)
          · intro n hn
            have hn0 : n ∈ D.Exports ++ [Func.Name] := hn
            rcases List.mem_append.mp hn0 with hn1 | hn1
            · exact hkeep P D n hD hn1
            · have e : n = Func.Name := by simpa using hn1
              subst e
              exact ⟨_, hnew, rfl, rfl⟩
      · rw [hother P hP] at hD'
        obtain ⟨a, b, -⟩ := h1 P D' hD'
        exact ⟨a, b, fun n hn => hkeep P D' n hD' hn⟩
    · intro n E hE hne
      by_cases hn : n = Func.Name
      · subst hn
        rw [hnew] at hE
        cases hE
        show Exp.Ty ≠ none
        exact h2 Func.Name Exp hReg (by rw [hSt]; decide)
      · rw [hexps, findExport_updateExport_other _ _ _ _ hfn hn] at hE
        exact h2 n E hE hne
  · rw [loadDLLsFunc_skip]
    · exact hInv
    · intro Exp hE hSt
      exact hm ⟨Exp, hE, hSt⟩

theorem loadDLL_matchedInv (TC : TypeComparer) (DLL : DLLPtr) (Funcs : List PDBSymbolFunc) :
    ∀ S : HAState, MatchedInv S.HAC → MatchedInv (loadDLL TC S DLL Funcs).HAC := by
  induction Funcs with
  | nil => intro S h; exact h
  | cons F Fs ih =>
    intro S h
    exact ih _ (loadDLLsFunc_matchedInv TC S DLL F h)

theorem foldl_loadDLL_matchedInv (TC : TypeComparer) (PDB : DLLPtr → List PDBSymbolFunc)
    (Ps : List DLLPtr) :
    ∀ S : HAState, MatchedInv S.HAC →
      MatchedInv (Ps.foldl (fun S DLL => loadDLL TC S DLL (PDB DLL)) S).HAC := by
  induction Ps with
  | nil => intro S h; exact h
  | cons P Ps ih =>
    intro S h
    exact ih _ (loadDLL_matchedInv TC P (PDB P) S h)

theorem loadDLLs_matchedInv (TC : TypeComparer) (PDB : DLLPtr → List PDBSymbolFunc)
    (S : HAState) (h : MatchedInv S.HAC) : MatchedInv (loadDLLs TC PDB S).HAC :=
  foldl_loadDLL_matchedInv TC PDB (allDLLs S.HAC) S h

theorem generateDLLExport_names (DLL : DLLEntry) (Ref : Option ExportEntry)
    (Exp : ExportEntry) (FT : FunctionType) (m : String) :
    ∀ Ev, Ev ∈ generateDLLExport DLL Ref Exp FT → namesExport m Ev = true → Exp.Name = m := by
  unfold generateDLLExport
  cases Exp.ObjCMethod <;> cases wrapperCall Ref Exp FT <;>
    simp [namesExport, or_imp, forall_and]

theorem generateDLLExports_ok (HAC : HAContext) (DLL : DLLEntry) (Ref : Option ExportEntry)
    (Names : List String)
    (h : ∀ n, n ∈ Names → ∃ E FT, findExport HAC.iOSExps n = some E ∧
      E.Status = ExportStatus.FoundInDLL ∧ E.Ty = some FT) :
    ∃ Es, generateDLLExports HAC DLL Ref Names = Except.ok Es ∧
      ∀ Ev, Ev ∈ Es → ∀ m, namesExport m Ev = true → m ∈ Names := by
  induction Names with
  | nil =>
    refine ⟨[], rfl, ?_⟩
    intro Ev hEv
    cases hEv
  | cons n ns ih =>
    obtain ⟨E, FT, hE, hS, hT⟩ := h n (List.mem_cons_self _ _)
    obtain ⟨Es, hEs, hN⟩ := ih (fun k hk => h k (List.mem_cons_of_mem _ hk))
    refine ⟨generateDLLExport DLL Ref E FT ++ Es, ?_, ?_⟩
    · simp [generateDLLExports, hE, hS, hT, hEs]
    · intro Ev hEv m hm
      rcases List.mem_append.mp hEv with h1 | h1
      · have e := generateDLLExport_names DLL Ref E FT m Ev h1 hm
        rw [← e, findExport_name hE]
        exact List.mem_cons_self _ _
      · exact List.mem_cons_of_mem _ (hN Ev h1 m hm)

theorem generateDLL_ok (IsLittleEndian : Target → Bool) (HAC : HAContext) (DLL : DLLEntry)
    (h : ∀ n, n ∈ DLL.Exports → ∃ E FT, findExport HAC.iOSExps n = some E ∧
      E.Status = ExportStatus.FoundInDLL ∧ E.Ty = some FT)
    (hRef : ∀ r, DLL.ReferenceFunc = some r → r ∈ DLL.Exports) :
    ∃ Es, generateDLL IsLittleEndian HAC DLL = Except.ok Es ∧
      ∀ Ev, Ev ∈ Es → ∀ m, namesExport m Ev = true → m ∈ DLL.Exports := by
  obtain ⟨Es, hEs, hN⟩ := generateDLLExports_ok HAC DLL
    (DLL.ReferenceFunc.bind (findExport HAC.iOSExps)) DLL.Exports h
  refine ⟨(if IsLittleEndian Target.Windows32 != IsLittleEndian Target.Apple then
      [Emit.Report (Diag.Error "target platforms don't have the same endianness")]
    else []) ++ [Emit.Declare Target.Windows32 DLL.ReferenceFunc false] ++ Es
      ++ [Emit.EmitObj Target.Windows32 DLL.Name, Emit.LinkDLL DLL.Name,
          Emit.EmitObj Target.Apple DLL.Name, Emit.LinkDylib DLL.Name []], ?_, ?_⟩
  · simp only [generateDLL, hEs]
  intro Ev hEv m hm
  simp only [List.mem_append, List.mem_cons, List.mem_singleton, List.not_mem_nil,
    or_false] at hEv
  rcases hEv with ((hG | hR) | hE) | hT
  · by_cases hc : (IsLittleEndian Target.Windows32 != IsLittleEndian Target.Apple) = true
    · rw [if_pos hc] at hG
      simp only [List.mem_singleton] at hG
      subst hG
      cases hm
    · rw [if_neg hc] at hG
      cases hG
  · subst hR
    cases hr : DLL.ReferenceFunc with
    | none => rw [hr] at hm; cases hm
    | some r =>
      rw [hr] at hm
      have e : r = m := by simpa [namesExport] using hm
      exact e ▸ hRef r hr
  · exact hN Ev hE m hm
  · rcases hT with e | e | e | e <;> subst e <;> cases hm

theorem generateDLLsFrom_ok (IsLittleEndian : Target → Bool) (HAC : HAContext)
    (DLLs : List DLLEntry)
    (h : ∀ D, D ∈ DLLs →
      (∀ n, n ∈ D.Exports → ∃ E FT, findExport HAC.iOSExps n = some E ∧
        E.Status = ExportStatus.FoundInDLL ∧ E.Ty = some FT) ∧
      (∀ r, D.ReferenceFunc = some r → r ∈ D.Exports)) :
    ∃ Es, generateDLLsFrom IsLittleEndian HAC DLLs = Except.ok Es ∧
      ∀ Ev, Ev ∈ Es → ∀ m, namesExport m Ev = true → ∃ D, D ∈ DLLs ∧ m ∈ D.Exports := by
  induction DLLs with
  | nil =>
    refine ⟨[], rfl, ?_⟩
    intro Ev hEv
    cases hEv
  | cons D Ds ih =>
    obtain ⟨hD1, hD2⟩ := h D (List.mem_cons_self _ _)
    obtain ⟨Es, hEs, hN⟩ := generateDLL_ok IsLittleEndian HAC D hD1 hD2
    obtain ⟨Es', hEs', hN'⟩ := ih (fun k hk => h k (List.mem_cons_of_mem _ hk))
    refine ⟨Es ++ Es', ?_, ?_⟩
    · simp only [generateDLLsFrom, hEs, hEs']
    · intro Ev hEv m hm
      rcases List.mem_append.mp hEv with h1 | h1
      · exact ⟨D, List.mem_cons_self _ _, hN Ev h1 m hm⟩
      · obtain ⟨D', hD', hm'⟩ := hN' Ev h1 m hm
        exact ⟨D', List.mem_cons_of_mem _ hD', hm'⟩

theorem generateDylibExport_names (Config : LibType) (HAC : HAContext) (Name m : String) :
    ∀ Ev, Ev ∈ generateDylibExport Config HAC Name → namesExport m Ev = true →
      ∃ E, findExport HAC.iOSExps m = some E ∧ E.Status = ExportStatus.FoundInDLL := by
  intro Ev hEv hm
  unfold generateDylibExport at hEv
  cases hE : findExport HAC.iOSExps Name with
  | none => simp [hE] at hEv
  | some Exp =>
    simp only [hE] at hEv
    by_cases hS : Exp.Status = ExportStatus.FoundInDLL
    · cases hT : Exp.Ty with
      | none => simp [hS, hT] at hEv
      | some FT =>
        have key : ∀ Ev', Ev' ∈ ([Emit.Declare Target.Apple (some Exp.Name) false,
            Emit.Declare Target.Apple (some Exp.Name) true,
            Emit.CreateParamStruct Target.Apple Exp.Name,
            Emit.DefineFunc Target.Apple Exp.Name false]
            ++ (stubBody Exp FT).map (Emit.Ins Target.Apple)
            ++ [Emit.EndFunc Target.Apple]) → namesExport m Ev' = true → Exp.Name = m := by
          simp [namesExport, or_imp, forall_and]
        have hEv1 : Ev ∈ ([Emit.Declare Target.Apple (some Exp.Name) false,
            Emit.Declare Target.Apple (some Exp.Name) true,
            Emit.CreateParamStruct Target.Apple Exp.Name,
            Emit.DefineFunc Target.Apple Exp.Name false]
            ++ (stubBody Exp FT).map (Emit.Ins Target.Apple)
            ++ [Emit.EndFunc Target.Apple]) := by
          simpa [hS, hT] using hEv
        have e := key Ev hEv1 hm
        refine ⟨Exp, ?_, hS⟩
        rw [← e, findExport_name hE]
        exact hE
    · rw [if_pos hS] at hEv
      by_cases hc : (Config.and LibType.DLL && decide (Exp.Status = ExportStatus.Found)) = true
      · rw [if_pos hc] at hEv
        simp only [List.mem_singleton] at hEv
        subst hEv
        cases hm
      · rw [if_neg hc] at hEv
        cases hEv

theorem generateDylibs_names (Config : LibType) (HAC : HAContext) (m : String) :
    ∀ Ev, Ev ∈ generateDylibs Config HAC → namesExport m Ev = true →
      ∃ E, findExport HAC.iOSExps m = some E ∧ E.Status = ExportStatus.FoundInDLL := by
  intro Ev hEv hm
  unfold generateDylibs at hEv
  obtain ⟨Lib, -, hLib⟩ := List.mem_flatMap.mp hEv
  unfold generateDylib at hLib
  rcases List.mem_append.mp hLib with h1 | h1
  · obtain ⟨Name, -, hName⟩ := List.mem_flatMap.mp h1
    exact generateDylibExport_names Config HAC Name m Ev hName hm
  · simp only [List.mem_cons, List.mem_singleton, List.not_mem_nil, or_false] at h1
    rcases h1 with e | e <;> subst e <;> cases hm

/-- C12: matched-export invariant. On a context as the interface files leave
it (every export `NotFound`, every matched-export list empty, no reference
function), for any declarations, any enumerated functions and any type
comparer, the run completes: the header matcher raises no fatal error and the
assertion of `generateDLLs` holds. In the state after the two matchers every
matched-export list is without duplicates and each of its entries is a
registered export with status `FoundInDLL` that is in no other library's list.
An export with status `Overloaded` is in no list, and no call of the two
generators declares or defines a function, sets a storage class or creates a
parameter structure for it. -/
theorem matched_export_invariant (In : Inputs) (HAC : HAContext)
    (hExps : ∀ E, E ∈ HAC.iOSExps → E.Status = ExportStatus.NotFound)
    (hDLLs : ∀ D, D ∈ allDLLEntries HAC → D.Exports = [] ∧ D.ReferenceFunc = none) :
    ∃ O, runPipeline In HAC = Except.ok O ∧
      (∀ P D, getDLL O.S.HAC P = some D →
        D.Exports.Nodup ∧
        ∀ n, n ∈ D.Exports →
          (∃ E, findExport O.S.HAC.iOSExps n = some E ∧
            E.Status = ExportStatus.FoundInDLL) ∧
          (∀ Q D', getDLL O.S.HAC Q = some D' → n ∈ D'.Exports → Q = P)) ∧
      (∀ n E, findExport O.S.HAC.iOSExps n = some E →
        E.Status = ExportStatus.Overloaded →
        (∀ D, D ∈ allDLLEntries O.S.HAC → n ∉ D.Exports) ∧
        (∀ Ev, Ev ∈ O.Emits → namesExport n Ev = false)) := by
  have hPh : HeaderPhase HAC := fun n E hE => Or.inl (hExps E (findExport_mem hE))
  have hInv0 : MatchedInv HAC := by
    refine ⟨?_, ?_⟩
    · intro P D hD
      obtain ⟨e1, e2⟩ := hDLLs D (getDLL_mem_allDLLEntries hD)
      refine ⟨?_, ?_, ?_⟩
      · rw [e1]; exact List.nodup_nil
      · intro r hr; rw [e2] at hr; cases hr
      · intro n hn; rw [e1] at hn; cases hn
    · intro n E hE hne
      exact absurd (hExps E (findExport_mem hE)) hne
  obtain ⟨S1, h1, hInv1⟩ :=
    analyzeAppleFunctions_matchedInv In.Module { HAC := HAC } hPh hInv0
  have hInv2 : MatchedInv (loadDLLs In.TC In.PDB
      (reportUnimplementedFunctions In.ErrorUnimplementedFunctions S1)).HAC := by
    apply loadDLLs_matchedInv
    rw [reportUnimplementedFunctions_HAC]
    exact hInv1
  generalize hS2 : loadDLLs In.TC In.PDB
    (reportUnimplementedFunctions In.ErrorUnimplementedFunctions S1) = S2 at hInv2
  obtain ⟨hL, hTy⟩ := hInv2
  have hNoList : ∀ n E, findExport S2.HAC.iOSExps n = some E →
      E.Status ≠ ExportStatus.FoundInDLL → ∀ D, D ∈ allDLLEntries S2.HAC → n ∉ D.Exports := by
    intro n E hE hSt D hD hn
    obtain ⟨P, hP⟩ := mem_allDLLEntries_getDLL hD
    obtain ⟨E', hE', hS', -⟩ := (hL P D hP).2.2 n hn
    rw [hE] at hE'
    cases hE'
    exact hSt hS'
  obtain ⟨Es, hEs, hN⟩ := generateDLLsFrom_ok In.IsLittleEndian S2.HAC (allDLLEntries S2.HAC)
    (by
      intro D hD
      obtain ⟨P, hP⟩ := mem_allDLLEntries_getDLL hD
      obtain ⟨-, b, c⟩ := hL P D hP
      refine ⟨?_, b⟩
      intro n hn
      obtain ⟨E, hE, hS, -⟩ := c n hn
      cases hT : E.Ty with
      | none => exact absurd hT (hTy n E hE (by rw [hS]; decide))
      | some FT => exact ⟨E, FT, hE, hS, hT⟩)
  refine ⟨{ S := S2, Emits := Es ++ generateDylibs In.ErrorUnimplementedFunctions S2.HAC },
    ?_, ?_, ?_⟩
  · simp only [runPipeline, parseAppleHeaders, h1, hS2, generateDLLs, hEs]
  · intro P D hD
    obtain ⟨a, -, c⟩ := hL P D hD
    refine ⟨a, ?_⟩
    intro n hn
    obtain ⟨E, hE, hS, hEP⟩ := c n hn
    refine ⟨⟨E, hE, hS⟩, ?_⟩
    intro Q D' hD' hn'
    obtain ⟨E', hE', -, hEQ⟩ := (hL Q D' hD').2.2 n hn'
    rw [hE] at hE'
    cases hE'
    rw [hEP] at hEQ
    cases hEQ
    rfl
  · intro n E hE hSt
    have hne : E.Status ≠ ExportStatus.FoundInDLL := by rw [hSt]; decide
    refine ⟨hNoList n E hE hne, ?_⟩
    intro Ev hEv
    cases hb : namesExport n Ev with
    | false => rfl
    | true =>
      exfalso
      have hEv0 : Ev ∈ Es ++ generateDylibs In.ErrorUnimplementedFunctions S2.HAC := hEv
      rcases List.mem_append.mp hEv0 with h | h
      · obtain ⟨D, hD, hn⟩ := hN Ev h n hb
        exact hNoList n E hE hne D hD hn
      · obtain ⟨E', hE', hS'⟩ :=
          generateDylibs_names In.ErrorUnimplementedFunctions S2.HAC n Ev h hb
        rw [hE] at hE'
        cases hE'
        exact hne hS'

/-- Witness of C12: the run of `sampleOverloadInputs` on `sampleHAC`, in which
the headers declare `_g` twice and the desktop library defines `_f` and `_g`:
`_f` ends `FoundInDLL` in the list of the library, `_g` ends `Overloaded` in no
list. -/
theorem matched_export_invariant_witness :
    (∀ E, E ∈ sampleHAC.iOSExps → E.Status = ExportStatus.NotFound) ∧
    (∀ D, D ∈ allDLLEntries sampleHAC → D.Exports = [] ∧ D.ReferenceFunc = none) ∧
    (match runPipeline sampleOverloadInputs sampleHAC with
      | Except.ok O => some (O.S.HAC.iOSExps.map ExportEntry.Status,
          (allDLLEntries O.S.HAC).map DLLEntry.Exports)
      | Except.error _ => none)
      = some ([ExportStatus.FoundInDLL, ExportStatus.Overloaded], [["_f"]]) ∧
    ∃ O, runPipeline sampleOverloadInputs sampleHAC = Except.ok O ∧
      (∀ P D, getDLL O.S.HAC P = some D →
        D.Exports.Nodup ∧
        ∀ n, n ∈ D.Exports →
          (∃ E, findExport O.S.HAC.iOSExps n = some E ∧
            E.Status = ExportStatus.FoundInDLL) ∧
          (∀ Q D', getDLL O.S.HAC Q = some D' → n ∈ D'.Exports → Q = P)) ∧
      (∀ n E, findExport O.S.HAC.iOSExps n = some E →
        E.Status = ExportStatus.Overloaded →
        (∀ D, D ∈ allDLLEntries O.S.HAC → n ∉ D.Exports) ∧
        (∀ Ev, Ev ∈ O.Emits → namesExport n Ev = false)) :=
  ⟨by decide, by decide, by decide,
    matched_export_invariant sampleOverloadInputs sampleHAC (by decide) (by decide)⟩

end Ipasim
